import Mathlib

/-!
# The Flow virtual machine of x0 (`lib/flow/vm/Runner.cpp`)

A shallow embedding of `Runner::run`, the threaded-dispatch interpreter that
executes one handler of a Flow program to a boolean verdict.

* Registers are `uint64_t` cells, embedded as natural numbers below `2 ^ 64`;
  `toNumber` is the cast to `int64_t` and `toRegister` the cast back.
* The program counter is an index into the handler's code vector; the local
  `ticks` counts the instructions executed so far.
* Pointers held in registers are addresses; every pooled or arena object is
  stored together with the address it lives at, and dereferencing an address
  at which no object of the expected type lives is a fault.
* Whatever C++ leaves undefined (signed overflow of the `int64_t` arithmetic,
  division by zero, a shift amount outside `0..63`, a left shift of a negative
  value or past the range of `int64_t`, an access outside the register file or
  the code vector, a wild pointer) and an uncaught exception end the run with
  `Outcome.fault`. Unsigned arithmetic and the casts between `uint64_t` and
  `int64_t` are modular.
* Headers that are not part of the sources at hand (`Instruction.h`,
  `Program.h`, `Match.h`, `NativeCallback.h`, `Buffer.h`, ...) are modelled
  from the specification; host and library functions are fields of `Env`.
-/

namespace x0
namespace FlowVM

/-! ## Value domain -/

/-- Register cell of the VM, `uint64_t`: a value below `2 ^ 64`. -/
abbrev Register := Nat

/-- FlowNumber is `int64_t`. -/
abbrev FlowNumber := Int

/-- FlowString is `Buffer`: a binary-safe byte buffer with an explicit length. -/
abbrev FlowString := List UInt8

/-- The cast `(FlowNumber) data_[R]` of the macro `toNumber`: the cell read as
a two's-complement 64-bit signed integer. -/
def toNumber (r : Register) : FlowNumber :=
  if r % 2 ^ 64 < 2 ^ 63 then ((r % 2 ^ 64 : Nat) : Int) else ((r % 2 ^ 64 : Nat) : Int) - 2 ^ 64

/-- The cast `static_cast<Register>(n)` of a signed value to the 64-bit cell. -/
def toRegister (n : FlowNumber) : Register :=
  (n % 2 ^ 64).toNat

/-- The value of an arithmetic expression of type `int64_t` whose exact
result is `n`: a result outside the range of `int64_t` is signed overflow,
which C++ leaves undefined (`none`). -/
def checkedInt64 (n : Int) : Option FlowNumber :=
  if -(2 ^ 63) ≤ n ∧ n < 2 ^ 63 then some n else none

/-- The conversion of a C++ `bool` to a register cell. -/
def boolToRegister (b : Bool) : Register :=
  if b then 1 else 0

/-- Modelled from the spec: `IPAddress` (its header is not under the sources);
an address family followed by the address bytes. -/
structure IPAddress where
  family : Nat
  bytes : List UInt8
deriving DecidableEq, Repr

/-- Modelled from the spec: `Cidr` (its header is not under the sources); an IP
address paired with the length of the network part. -/
structure Cidr where
  ipaddr : IPAddress
  plen : Nat
deriving DecidableEq, Repr

/-- Modelled from the spec: `RegExp` (its header is not under the sources); a
regular expression is known here by its source pattern. -/
structure RegExp where
  pattern : FlowString
deriving DecidableEq, Repr

/-- Modelled from the spec: `RegExpContext`, the object `userdata()` points to;
it holds the capture groups of the last regular-expression match. -/
structure RegExpContext where
  regexMatch : List FlowString
deriving DecidableEq, Repr

/-- Heap objects owned by `garbage_`: `GCStringArray` and `GCIntArray`. -/
inductive Object where
  | stringArray (data : List FlowString)
  | intArray (data : List FlowNumber)
deriving DecidableEq, Repr

/-! ## Instructions -/

/-- The opcodes of the jump table `ops` of `Runner::run`. -/
inductive Opcode where
  | NOP
  | EXIT | JMP | JN | JZ
  | NTICKS | NDUMPN
  | MOV
  | IMOV | NCONST | NNEG | NADD | NSUB | NMUL | NDIV | NREM | NSHL | NSHR | NPOW
  | NAND | NOR | NXOR | NCMPZ | NCMPEQ | NCMPNE | NCMPLE | NCMPGE | NCMPLT | NCMPGT
  | BNOT | BAND | BOR | BXOR
  | SCONST | SADD | SSUBSTR | SCMPEQ | SCMPNE | SCMPLE | SCMPGE | SCMPLT | SCMPGT
  | SCMPBEG | SCMPEND | SCONTAINS | SLEN | SISEMPTY | SPRINT
  | SMATCHEQ | SMATCHBEG | SMATCHEND | SMATCHR
  | PCONST | PCMPEQ | PCMPNE | PINCIDR
  | CCONST
  | SREGMATCH | SREGGROUP
  | S2I | I2S | P2S | C2S | R2S | SURLENC | SURLDEC
  | ASNEW | ASINIT | ANNEW | ANINIT | ANINITI
  | CALL | HANDLER
deriving DecidableEq, Repr

/-- Modelled from the spec: `Instruction` (`Instruction.h` is not under the
sources); a fixed-width word read through `opcode`, `operandA`, `operandB` and
`operandC`, kept here in decoded form: the opcode and the three 16-bit operand
fields A, B and C. -/
structure Instruction where
  op : Opcode
  A : Nat
  B : Nat
  C : Nat
deriving DecidableEq, Repr

/-! ## Runner, program and host -/

/-- The state owned by a `Runner`: the register file `data_`, the string arena
`stringGarbage_`, the object arena `garbage_` and the object `userdata_` points
to (`none` for `nullptr`). Arena entries carry the address of the object. -/
structure Runner where
  data_ : List Register
  stringGarbage_ : List (Nat × FlowString)
  garbage_ : List (Nat × Object)
  userdata_ : Option RegExpContext
deriving DecidableEq, Repr

/-- The parameter view `Params(argc, argv, this)` handed to a native callback:
`argv` is `&data_[C]`, kept as the index `C` of its first register; the runner
is passed along with it. -/
structure Params where
  argc : Nat
  argv : Nat
deriving DecidableEq, Repr

/-- Modelled from the spec: `NativeCallback` (`NativeCallback.h` is not under
the sources); `invoke` receives the parameter view and may change the runner
it is given. -/
structure NativeCallback where
  invoke : Params → Runner → Runner

/-- Modelled from the spec: `Match` (`Match.h` is not under the sources);
`evaluate` receives the `FlowString*` held in the condition register and the
runner, and returns the target program counter; it may change the runner it
is given (the regular-expression matcher stores its captures through it). -/
structure Match where
  evaluate : Nat → Runner → Nat × Runner

/-- Modelled from the spec: `Program` (`Program.h` is not under the sources);
the constant pools, the match tables and the native callbacks a handler refers
to by index. Pooled objects that registers point to carry their address. -/
structure Program where
  numbers : List FlowNumber
  strings : List (Nat × FlowString)
  ipaddrs : List (Nat × IPAddress)
  cidrs : List (Nat × Cidr)
  regularExpressions : List (Nat × RegExp)
  matchTables : List Match
  nativeFunctions : List NativeCallback
  nativeHandlers : List NativeCallback

/-- Modelled from the spec: `Handler` (`Handler.h` is not under the sources);
the register count, the code vector and the program the handler belongs to. -/
structure Handler where
  program : Program
  registerCount : Nat
  code : List Instruction

/-- Host and library functions the interpreter calls that are not part of the
sources: the allocator (`alloc n` is the address of the `n`-th object a runner
allocates), `powl`, and the operations of `IPAddress`, `Cidr` and `RegExp`. -/
structure Env where
  alloc : Nat → Nat
  powl : FlowNumber → FlowNumber → Register
  ipStr : IPAddress → FlowString
  cidrStr : Cidr → FlowString
  cidrContains : Cidr → IPAddress → Bool
  regexMatch : RegExp → FlowString → Bool × List FlowString

/-- The configuration of `Runner::run` between two instructions: the runner,
the program counter `pc` (an index into the code), the local `ticks`, and the
bytes written to the standard output so far. -/
structure State where
  runner : Runner
  pc : Nat
  ticks : Nat
  stdout : List UInt8
deriving DecidableEq, Repr

/-- What one instruction does: dispatch to the instruction at the new program
counter, return from `run` with a verdict, or fault. -/
inductive Outcome where
  | next (s : State)
  | ret (verdict : Bool) (s : State)
  | fault
deriving DecidableEq, Repr

/-- The result of `Runner::run` under a step budget. -/
inductive Result where
  | done (verdict : Bool) (s : State)
  | fault
  | timeout
deriving DecidableEq, Repr

/-! ## Buffer operations -/

namespace Buffer

/-- Modelled from the spec: `Buffer::begins` (`Buffer.h` is not under the
sources); the byte-exact test that the buffer starts with `value`. -/
def begins (self value : FlowString) : Bool :=
  value.isPrefixOf self

/-- Modelled from the spec: `Buffer::ends` (`Buffer.h` is not under the
sources); the byte-exact test that the buffer ends with `value`. -/
def ends (self value : FlowString) : Bool :=
  value.isSuffixOf self

/-- Modelled from the spec: `Buffer::find(value) != npos` (`Buffer.h` is not
under the sources); byte-exact substring containment. -/
def contains (self value : FlowString) : Bool :=
  self.tails.any (fun t => value.isPrefixOf t)

/-- Modelled from the spec: `Buffer::substr(offset, count)` (`Buffer.h` is not
under the sources); the slice of at most `count` bytes starting at `offset`. -/
def substr (self : FlowString) (offset count : Nat) : FlowString :=
  (self.drop offset).take count

/-- Modelled from the spec: `operator<` of `Buffer` (`Buffer.h` is not under
the sources); bytewise lexicographic order. -/
def lt : FlowString → FlowString → Bool
  | _, [] => false
  | [], _ :: _ => true
  | x :: xs, y :: ys => if x < y then true else if y < x then false else lt xs ys

/-- Modelled from the spec: `operator<=` of `Buffer`; bytewise order. -/
def le (a b : FlowString) : Bool :=
  !(lt b a)

/-- The bytes of the C string `c_str()`: the buffer up to its first NUL. -/
def cstr (self : FlowString) : FlowString :=
  self.takeWhile (fun c => c != 0)

/-- The white-space bytes skipped in front of a number. -/
def isSpace (c : UInt8) : Bool :=
  c == 32 || (9 ≤ c && c ≤ 13)

/-- The decimal digits at the front of a buffer, accumulated onto `acc`. -/
def digitsValue : FlowString → Nat → Nat
  | [], acc => acc
  | c :: cs, acc => if 48 ≤ c && c ≤ 57 then digitsValue cs (acc * 10 + (c.toNat - 48)) else acc

/-- Saturation of an integer to the range of `int64_t`. -/
def saturate (n : Int) : FlowNumber :=
  if n < -(2 ^ 63) then -(2 ^ 63) else if 2 ^ 63 - 1 < n then 2 ^ 63 - 1 else n

/-- Modelled from the spec: `Buffer::toInt` (`Buffer.h` is not under the
sources); base 10, leading white space allowed, an optional sign, the value
saturated on overflow. -/
def toInt (self : FlowString) : FlowNumber :=
  match self.dropWhile isSpace with
  | [] => 0
  | c :: cs =>
    if c == 45 then saturate (-(digitsValue cs 0 : Int))
    else if c == 43 then saturate (digitsValue cs 0 : Int)
    else saturate (digitsValue (c :: cs) 0 : Int)

end Buffer

/-! ## Formatting done by `printf` and `snprintf` -/

/-- The decimal digits of `n`, most significant first; `fuel` bounds the
number of digits. -/
def decimalDigits : Nat → Nat → FlowString
  | 0, _ => []
  | fuel + 1, n =>
    if n < 10 then [UInt8.ofNat (48 + n)]
    else decimalDigits fuel (n / 10) ++ [UInt8.ofNat (48 + n % 10)]

/-- The conversion `%d` of a non-negative value. -/
def fmtNat (n : Nat) : FlowString :=
  decimalDigits (n + 1) n

/-- The conversion `%li` of `printf` and `snprintf`. -/
def fmtInt (n : FlowNumber) : FlowString :=
  if n < 0 then 45 :: fmtNat n.natAbs else fmtNat n.natAbs

/-! ## Runner: creation and arenas -/

namespace Runner

/-- The number of objects the runner has allocated so far. -/
def allocCount (r : Runner) : Nat :=
  r.stringGarbage_.length + r.garbage_.length

/-- Runner::newString: push a copy of `value` onto `stringGarbage_` and return
the address of the new buffer. -/
def newString (env : Env) (r : Runner) (value : FlowString) : Nat × Runner :=
  let p := env.alloc r.allocCount
  (p, { r with stringGarbage_ := r.stringGarbage_ ++ [(p, value)] })

/-- Runner::catString: a fresh buffer, `push_back(a)`, `push_back(b)`, moved
onto `stringGarbage_`; returns the address of the new buffer. -/
def catString (env : Env) (r : Runner) (a b : FlowString) : Nat × Runner :=
  let s : FlowString := ([] ++ a) ++ b
  let p := env.alloc r.allocCount
  (p, { r with stringGarbage_ := r.stringGarbage_ ++ [(p, s)] })

/-- Runner::create with the constructor: empty arenas, no user data, the empty
string allocated first, and `registerCount` registers set to zero. -/
def create (env : Env) (handler : Handler) : Runner :=
  let r0 : Runner :=
    { data_ := [], stringGarbage_ := [], garbage_ := [], userdata_ := none }
  let r1 := (newString env r0 []).2
  { r1 with data_ := List.replicate handler.registerCount 0 }

/-- Modelled from the spec: `Runner::emptyString` (`Runner.h` is not under the
sources); the address of the empty string the constructor allocates. -/
def emptyString (r : Runner) : Option Nat :=
  r.stringGarbage_.head?.map Prod.fst

/-- The `FlowString` living at address `p`: an arena string or a string
constant of the program. -/
def derefString (program : Program) (r : Runner) (p : Nat) : Option FlowString :=
  (r.stringGarbage_ ++ program.strings).lookup p

/-- Replace the object living at address `p` in an arena. -/
def updateObject (p : Nat) (o : Object) : List (Nat × Object) → List (Nat × Object)
  | [] => []
  | (q, x) :: rest => if q == p then (q, o) :: rest else (q, x) :: updateObject p o rest

/-- Allocate a heap object and push it onto `garbage_`. -/
def newObject (env : Env) (r : Runner) (o : Object) : Nat × Runner :=
  let p := env.alloc r.allocCount
  (p, { r with garbage_ := r.garbage_ ++ [(p, o)] })

end Runner

/-! ## Reading the state -/

namespace State

/-- The cell `data_[R]`; reading outside the register file is a fault. -/
def reg (s : State) (R : Nat) : Option Register :=
  s.runner.data_[R]?

/-- The macro `toNumber(R)`. -/
def num (s : State) (R : Nat) : Option FlowNumber :=
  (s.reg R).map toNumber

/-- The macro `toString(R)`: the buffer the pointer in `data_[R]` refers to. -/
def str (program : Program) (s : State) (R : Nat) : Option FlowString :=
  (s.reg R).bind (Runner.derefString program s.runner)

/-- The macro `toIPAddress(R)`. -/
def ip (program : Program) (s : State) (R : Nat) : Option IPAddress :=
  (s.reg R).bind (fun p => program.ipaddrs.lookup p)

/-- The macro `toCidr(R)`. -/
def cidr (program : Program) (s : State) (R : Nat) : Option Cidr :=
  (s.reg R).bind (fun p => program.cidrs.lookup p)

/-- The macro `toRegExp(R)`. -/
def regexp (program : Program) (s : State) (R : Nat) : Option RegExp :=
  (s.reg R).bind (fun p => program.regularExpressions.lookup p)

/-- The macro `next`: dispatch to the instruction after the current one. -/
def advance (s : State) : Outcome :=
  .next { s with pc := s.pc + 1 }

/-- The statements `pc = code.data() + target; goto *ops[OP]`. -/
def jump (s : State) (target : Nat) : Outcome :=
  .next { s with pc := target }

/-- The statements `data_[A] = v; next`; writing outside the register file is
a fault. -/
def assign (s : State) (A : Nat) (v : Register) : Outcome :=
  if A < s.runner.data_.length then
    .next { s with runner := { s.runner with data_ := s.runner.data_.set A v }, pc := s.pc + 1 }
  else .fault

/-- The statements `data_[A] = (Register) newString(value); next`. -/
def assignString (env : Env) (s : State) (A : Nat) (value : FlowString) : Outcome :=
  let pr := Runner.newString env s.runner value
  assign { s with runner := pr.2 } A pr.1

/-- The text `printf` writes in the loop of `ndumpn` for the registers
`A .. A + n - 1`. -/
def regdump (s : State) (A : Nat) (n : Nat) : Option FlowString :=
  ((List.range n).mapM (fun k => (s.reg (A + k)).map (fun v =>
      (if k = 0 then [] else [44, 32]) ++ [114] ++ fmtNat (A + k) ++ [32, 61, 32]
        ++ fmtInt (toNumber v)))).map List.flatten

end State

/-- A fault when a read failed. -/
def Outcome.ofOption : Option Outcome → Outcome
  | some o => o
  | none => .fault

/-! ## The interpreter -/

/-- The body of the instruction `i` of `Runner::run`, one arm per label of the
jump table, on the state in which `ticks` is already incremented. The source
checks no operand at run time, so each arm is defined exactly where the C++11
expression it evaluates is: `-`, `+`, `*` on `int64_t` must not overflow, `/`
and `%` need a divisor other than zero (and not `INT64_MIN / -1`), `<<` and
`>>` a shift amount in `0..63`, `<<` moreover a left operand that is not
negative and a result within `int64_t`; `>>` of a negative value is the
arithmetic shift. -/
def exec (env : Env) (program : Program) (s : State) (i : Instruction) : Outcome :=
  match i.op with
  | .NOP => s.advance
  -- control
  | .EXIT => .ret (i.A != 0) s
  | .JMP => s.jump i.A
  | .JN => .ofOption do
      let a ← s.reg i.A
      pure (if a != 0 then s.jump i.B else s.advance)
  | .JZ => .ofOption do
      let a ← s.reg i.A
      pure (if a == 0 then s.jump i.B else s.advance)
  -- copy
  | .MOV => .ofOption do
      let b ← s.reg i.B
      pure (s.assign i.A b)
  -- debug
  | .NTICKS => s.assign i.A s.ticks
  | .NDUMPN => .ofOption do
      let text ← s.regdump i.A i.B
      let nl : FlowString := if i.B != 0 then [10] else []
      pure (State.advance { s with stdout := s.stdout ++ [114, 101, 103, 100, 117, 109, 112, 58, 32]
        ++ text ++ nl })
  -- numerical
  | .IMOV => s.assign i.A i.B
  | .NCONST => .ofOption do
      let n ← program.numbers[i.B]?
      pure (s.assign i.A (toRegister n))
  | .NNEG => .ofOption do
      let b ← s.num i.B
      let v ← checkedInt64 (-b)
      pure (s.assign i.A (toRegister v))
  | .NADD => .ofOption do
      let b ← s.num i.B
      let c ← s.num i.C
      let v ← checkedInt64 (b + c)
      pure (s.assign i.A (toRegister v))
  | .NSUB => .ofOption do
      let b ← s.num i.B
      let c ← s.num i.C
      let v ← checkedInt64 (b - c)
      pure (s.assign i.A (toRegister v))
  | .NMUL => .ofOption do
      let b ← s.num i.B
      let c ← s.num i.C
      let v ← checkedInt64 (b * c)
      pure (s.assign i.A (toRegister v))
  | .NDIV => .ofOption do
      let b ← s.num i.B
      let c ← s.num i.C
      if c = 0 ∨ (b = -(2 ^ 63) ∧ c = -1) then none
      else pure (s.assign i.A (toRegister (b.tdiv c)))
  | .NREM => .ofOption do
      let b ← s.num i.B
      let c ← s.num i.C
      if c = 0 ∨ (b = -(2 ^ 63) ∧ c = -1) then none
      else pure (s.assign i.A (toRegister (b.tmod c)))
  | .NSHL => .ofOption do
      let b ← s.num i.B
      let c ← s.num i.C
      if 0 ≤ c ∧ c < 64 ∧ 0 ≤ b then do
        let v ← checkedInt64 (b * 2 ^ c.toNat)
        pure (s.assign i.A (toRegister v))
      else none
  | .NSHR => .ofOption do
      let b ← s.num i.B
      let c ← s.num i.C
      if 0 ≤ c ∧ c < 64 then pure (s.assign i.A (toRegister (b >>> c.toNat))) else none
  | .NPOW => .ofOption do
      let b ← s.num i.B
      let c ← s.num i.C
      pure (s.assign i.A (env.powl b c))
  | .NAND => .ofOption do
      let b ← s.reg i.B
      let c ← s.reg i.C
      pure (s.assign i.A (b &&& c))
  | .NOR => .ofOption do
      let b ← s.reg i.B
      let c ← s.reg i.C
      pure (s.assign i.A (b ||| c))
  | .NXOR => .ofOption do
      let b ← s.reg i.B
      let c ← s.reg i.C
      pure (s.assign i.A (b ^^^ c))
  | .NCMPZ => .ofOption do
      let b ← s.num i.B
      pure (s.assign i.A (boolToRegister (decide (b = 0))))
  | .NCMPEQ => .ofOption do
      let b ← s.num i.B
      let c ← s.num i.C
      pure (s.assign i.A (boolToRegister (decide (b = c))))
  | .NCMPNE => .ofOption do
      let b ← s.num i.B
      let c ← s.num i.C
      pure (s.assign i.A (boolToRegister (decide (b ≠ c))))
  | .NCMPLE => .ofOption do
      let b ← s.num i.B
      let c ← s.num i.C
      pure (s.assign i.A (boolToRegister (decide (b ≤ c))))
  | .NCMPGE => .ofOption do
      let b ← s.num i.B
      let c ← s.num i.C
      pure (s.assign i.A (boolToRegister (decide (b ≥ c))))
  | .NCMPLT => .ofOption do
      let b ← s.num i.B
      let c ← s.num i.C
      pure (s.assign i.A (boolToRegister (decide (b < c))))
  | .NCMPGT => .ofOption do
      let b ← s.num i.B
      let c ← s.num i.C
      pure (s.assign i.A (boolToRegister (decide (b > c))))
  -- boolean
  | .BNOT => .ofOption do
      let b ← s.num i.B
      pure (s.assign i.A (boolToRegister (decide (b = 0))))
  | .BAND => .ofOption do
      let b ← s.num i.B
      if b = 0 then pure (s.assign i.A (boolToRegister false))
      else do
        let c ← s.num i.C
        pure (s.assign i.A (boolToRegister (decide (c ≠ 0))))
  | .BOR => .ofOption do
      let b ← s.num i.B
      if b = 0 then do
        let c ← s.num i.C
        pure (s.assign i.A (boolToRegister (decide (c ≠ 0))))
      else pure (s.assign i.A (boolToRegister true))
  | .BXOR => .ofOption do
      let b ← s.num i.B
      let c ← s.num i.C
      pure (s.assign i.A (toRegister (Int.xor b c)))
  -- string
  | .SCONST => .ofOption do
      let k ← program.strings[i.B]?
      pure (s.assign i.A k.1)
  | .SADD => .ofOption do
      let b ← s.str program i.B
      let c ← s.str program i.C
      let pr := Runner.catString env s.runner b c
      pure (State.assign { s with runner := pr.2 } i.A pr.1)
  | .SSUBSTR => .ofOption do
      let b ← s.str program i.B
      let offset ← s.reg i.C
      let count ← s.reg (i.C + 1)
      pure (s.assignString env i.A (Buffer.substr b offset count))
  | .SCMPEQ => .ofOption do
      let b ← s.str program i.B
      let c ← s.str program i.C
      pure (s.assign i.A (boolToRegister (decide (b = c))))
  | .SCMPNE => .ofOption do
      let b ← s.str program i.B
      let c ← s.str program i.C
      pure (s.assign i.A (boolToRegister (decide (b ≠ c))))
  | .SCMPLE => .ofOption do
      let b ← s.str program i.B
      let c ← s.str program i.C
      pure (s.assign i.A (boolToRegister (Buffer.le b c)))
  | .SCMPGE => .ofOption do
      let b ← s.str program i.B
      let c ← s.str program i.C
      pure (s.assign i.A (boolToRegister (Buffer.le c b)))
  | .SCMPLT => .ofOption do
      let b ← s.str program i.B
      let c ← s.str program i.C
      pure (s.assign i.A (boolToRegister (Buffer.lt b c)))
  | .SCMPGT => .ofOption do
      let b ← s.str program i.B
      let c ← s.str program i.C
      pure (s.assign i.A (boolToRegister (Buffer.lt c b)))
  | .SCMPBEG => .ofOption do
      let b ← s.str program i.B
      let c ← s.str program i.C
      pure (s.assign i.A (boolToRegister (Buffer.begins b c)))
  | .SCMPEND => .ofOption do
      let b ← s.str program i.B
      let c ← s.str program i.C
      pure (s.assign i.A (boolToRegister (Buffer.ends b c)))
  | .SCONTAINS => .ofOption do
      let b ← s.str program i.B
      let c ← s.str program i.C
      pure (s.assign i.A (boolToRegister (Buffer.contains b c)))
  | .SLEN => .ofOption do
      let b ← s.str program i.B
      pure (s.assign i.A b.length)
  | .SISEMPTY => .ofOption do
      let b ← s.str program i.B
      pure (s.assign i.A (boolToRegister b.isEmpty))
  | .SPRINT => .ofOption do
      let a ← s.str program i.A
      pure (State.advance { s with stdout := s.stdout ++ Buffer.cstr a ++ [10] })
  | .SMATCHEQ | .SMATCHBEG | .SMATCHEND | .SMATCHR => .ofOption do
      let m ← program.matchTables[i.B]?
      let a ← s.reg i.A
      let result := m.evaluate a s.runner
      pure (State.jump { s with runner := result.2 } result.1)
  -- ipaddr
  | .PCONST => .ofOption do
      let k ← program.ipaddrs[i.B]?
      pure (s.assign i.A k.1)
  | .PCMPEQ => .ofOption do
      let b ← s.ip program i.B
      let c ← s.ip program i.C
      pure (s.assign i.A (boolToRegister (decide (b = c))))
  | .PCMPNE => .ofOption do
      let b ← s.ip program i.B
      let c ← s.ip program i.C
      pure (s.assign i.A (boolToRegister (decide (b ≠ c))))
  | .PINCIDR => .ofOption do
      let ipaddr ← s.ip program i.B
      let cidr ← s.cidr program i.C
      pure (s.assign i.A (boolToRegister (env.cidrContains cidr ipaddr)))
  -- cidr
  | .CCONST => .ofOption do
      let k ← program.cidrs[i.B]?
      pure (s.assign i.A k.1)
  -- regex
  | .SREGMATCH => .ofOption do
      let re ← program.regularExpressions[i.C]?
      let b ← s.str program i.B
      let m := env.regexMatch re.2 b
      let cx := s.runner.userdata_.map (fun _ => ({ regexMatch := m.2 } : RegExpContext))
      pure (State.assign { s with runner := { s.runner with userdata_ := cx } } i.A
        (boolToRegister m.1))
  | .SREGGROUP => .ofOption do
      let position ← s.reg i.B
      let cx ← s.runner.userdata_
      let group ← cx.regexMatch[position]?
      pure (s.assignString env i.A group)
  -- conversion
  | .S2I => .ofOption do
      let b ← s.str program i.B
      pure (s.assign i.A (toRegister (Buffer.toInt b)))
  | .I2S => .ofOption do
      let b ← s.num i.B
      let buf := fmtInt b
      if 0 < buf.length then pure (s.assignString env i.A buf)
      else do
        let e ← s.runner.emptyString
        pure (s.assign i.A e)
  | .P2S => .ofOption do
      let ipaddr ← s.ip program i.B
      pure (s.assignString env i.A (env.ipStr ipaddr))
  | .C2S => .ofOption do
      let cidr ← s.cidr program i.B
      pure (s.assignString env i.A (env.cidrStr cidr))
  | .R2S => .ofOption do
      let re ← s.regexp program i.B
      pure (s.assignString env i.A re.pattern)
  | .SURLENC => s.advance
  | .SURLDEC => s.advance
  -- arrays
  | .ASNEW =>
      let pr := Runner.newObject env s.runner (.stringArray (List.replicate i.B []))
      State.assign { s with runner := pr.2 } i.A pr.1
  | .ASINIT => .ofOption do
      let p ← s.reg i.A
      let value ← s.str program i.C
      match s.runner.garbage_.lookup p with
      | some (.stringArray data) =>
        if i.B < data.length then
          pure (State.advance { s with runner := { s.runner with
            garbage_ := Runner.updateObject p (.stringArray (data.set i.B value)) s.runner.garbage_ } })
        else none
      | _ => none
  | .ANNEW =>
      let pr := Runner.newObject env s.runner (.intArray (List.replicate i.B 0))
      State.assign { s with runner := pr.2 } i.A pr.1
  | .ANINIT => .ofOption do
      let p ← s.reg i.A
      let value ← s.num i.C
      match s.runner.garbage_.lookup p with
      | some (.intArray data) =>
        if i.B < data.length then
          pure (State.advance { s with runner := { s.runner with
            garbage_ := Runner.updateObject p (.intArray (data.set i.B value)) s.runner.garbage_ } })
        else none
      | _ => none
  | .ANINITI => .ofOption do
      let p ← s.reg i.A
      match s.runner.garbage_.lookup p with
      | some (.intArray data) =>
        if i.B < data.length then
          pure (State.advance { s with runner := { s.runner with
            garbage_ := Runner.updateObject p (.intArray (data.set i.B (i.C : Int))) s.runner.garbage_ } })
        else none
      | _ => none
  -- invokation
  | .CALL => .ofOption do
      let native ← program.nativeFunctions[i.A]?
      let r := native.invoke { argc := i.B, argv := i.C } s.runner
      pure (State.advance { s with runner := r })
  | .HANDLER => .ofOption do
      let native ← program.nativeHandlers[i.A]?
      let r := native.invoke { argc := i.B, argv := i.C } s.runner
      let handled ← r.data_[i.C]?
      pure (if handled != 0 then .ret true { s with runner := r }
        else State.advance { s with runner := r })

/-- One dispatch of `Runner::run`: fetch the instruction at `pc` (outside the
code vector: a fault), count it in `ticks`, and execute it. -/
def step (env : Env) (handler : Handler) (s : State) : Outcome :=
  match handler.code[s.pc]? with
  | none => .fault
  | some i => exec env handler.program { s with ticks := (s.ticks + 1) % 2 ^ 64 } i

/-- The dispatch loop of `Runner::run`, started in state `s`, for at most
`fuel` instructions. -/
def runFrom (env : Env) (handler : Handler) : Nat → State → Result
  | 0, _ => .timeout
  | fuel + 1, s =>
    match step env handler s with
    | .next s1 => runFrom env handler fuel s1
    | .ret verdict s1 => .done verdict s1
    | .fault => .fault

/-- The state in which `Runner::run` starts: `pc = code.data()`, `ticks = 0`. -/
def initial (r : Runner) : State :=
  { runner := r, pc := 0, ticks := 0, stdout := [] }

/-- Runner::run on the runner `r` of `handler`, for at most `fuel`
instructions. -/
def Runner.run (env : Env) (handler : Handler) (r : Runner) (fuel : Nat) : Result :=
  runFrom env handler fuel (initial r)

/-- The state reached from `s` after exactly `n` instructions, none of which
returns or faults. -/
def reach (env : Env) (handler : Handler) : Nat → State → Option State
  | 0, s => some s
  | n + 1, s =>
    match step env handler s with
    | .next s1 => reach env handler n s1
    | _ => none

/-! ## Concrete programs used to exercise the theorems -/

namespace Demo

/-- A host: objects are allocated at the addresses 1000, 1001, ... -/
def env : Env :=
  { alloc := fun n => 1000 + n
    powl := fun _ _ => 0
    ipStr := fun _ => []
    cidrStr := fun _ => []
    cidrContains := fun _ _ => false
    regexMatch := fun _ _ => (false, []) }

/-- A program with the string constants "hello" and "he", a match table that
always answers 2, a native function storing 4 in its result slot and two
native handlers storing 1, respectively 0, in their out-argument. -/
def program : Program :=
  { numbers := []
    strings := [(10, [104, 101, 108, 108, 111]), (11, [104, 101])]
    ipaddrs := []
    cidrs := []
    regularExpressions := []
    matchTables := [{ evaluate := fun _ r => (2, r) }]
    nativeFunctions := [{ invoke := fun p r => { r with data_ := r.data_.set p.argv 4 } }]
    nativeHandlers := [{ invoke := fun p r => { r with data_ := r.data_.set p.argv 1 } },
                       { invoke := fun p r => { r with data_ := r.data_.set p.argv 0 } }] }

/-- A handler of `program` with four registers and the given code. -/
def handler (code : List Instruction) : Handler :=
  { program := program, registerCount := 4, code := code }

/-- A state of a runner with the given register file, at the given `pc`. -/
def state (data : List Register) (pc : Nat) : State :=
  { runner := { data_ := data, stringGarbage_ := [(1000, [])], garbage_ := [], userdata_ := none }
    pc := pc, ticks := pc, stdout := [] }

/-- A state like `state`, whose runner has a regular-expression context with
the given capture groups. -/
def regexState (groups : List FlowString) (data : List Register) (pc : Nat) : State :=
  { runner := { data_ := data, stringGarbage_ := [(1000, [])], garbage_ := [],
                userdata_ := some { regexMatch := groups } }
    pc := pc, ticks := pc, stdout := [] }

end Demo

end FlowVM

/-! ## The native callback registry (`lib/flow/FlowBackend.cpp`) -/

/-- Modelled from the spec: `FlowValue::Type` (`FlowValue.h` is not under the
sources); the closed set of value kinds. -/
inductive FlowValueType where
  | VOID | BOOLEAN | NUMBER | STRING | IP | CIDR | REGEX | HANDLER_REF
  | ARRAY_STRING | ARRAY_NUMBER
deriving DecidableEq, Repr

/-- Modelled from the spec: `FlowBackend::Callback::Type` (`FlowBackend.h` is
not under the sources); the kind of a callback, `UNKNOWN` being the answer of
`callbackTypeOf` for a name that is not registered. -/
inductive CallbackType where
  | UNKNOWN | FUNCTION | HANDLER | VARIABLE
deriving DecidableEq, Repr

/-- Modelled from the spec: `FlowBackend::Callback` (`FlowBackend.h` is not
under the sources); kind, declared return type, name, function pointer and
opaque user-data pointer, the pointers kept as addresses. -/
structure Callback where
  type : CallbackType
  returnType : FlowValueType
  name : String
  callback : Nat
  userdata : Nat
deriving DecidableEq, Repr

/-- The registry: the vector `callbacks_`. -/
structure FlowBackend where
  callbacks_ : List Callback
deriving DecidableEq, Repr

/-- The conversion of an integer to `int` (32 bits, two's complement). -/
def toInt32 (n : Int) : Int :=
  (n + 2 ^ 31) % 2 ^ 32 - 2 ^ 31

namespace FlowBackend

/-- FlowBackend::registerNative: a new `Callback` is pushed to the back of
`callbacks_`; the answer is always `true`. -/
def registerNative (self : FlowBackend) (type : CallbackType) (name : String)
    (returnType : FlowValueType) (callback userdata : Nat) : Bool × FlowBackend :=
  let cb : Callback :=
    { type := type, returnType := returnType, name := name, callback := callback,
      userdata := userdata }
  (true, { callbacks_ := self.callbacks_ ++ [cb] })

/-- FlowBackend::registerHandler. -/
def registerHandler (self : FlowBackend) (name : String) (callback userdata : Nat) :
    Bool × FlowBackend :=
  registerNative self .HANDLER name .BOOLEAN callback userdata

/-- FlowBackend::registerFunction. -/
def registerFunction (self : FlowBackend) (name : String) (returnType : FlowValueType)
    (callback userdata : Nat) : Bool × FlowBackend :=
  registerNative self .FUNCTION name returnType callback userdata

/-- FlowBackend::registerVariable. -/
def registerVariable (self : FlowBackend) (name : String) (returnType : FlowValueType)
    (callback userdata : Nat) : Bool × FlowBackend :=
  registerNative self .VARIABLE name returnType callback userdata

/-- The constructor `FlowBackend::FlowBackend()`: an empty registry in which
`__print` is registered; `flow_print` is the address of that function. -/
def init (flow_print : Nat) : FlowBackend :=
  (registerFunction { callbacks_ := [] } "__print" .VOID flow_print 0).2

/-- The loop of `find` over the callbacks from index `i` on. -/
def findFrom (name : String) : List Callback → Nat → Int
  | [], _ => -1
  | cb :: rest, i => if cb.name = name then (i : Int) else findFrom name rest (i + 1)

/-- FlowBackend::find: `for (int i = 0, e = callbacks_.size(); i < e; ++i)`
visits the indices below `e`, the size converted to `int`, and answers the
first index whose callback has the name, or -1. -/
def find (self : FlowBackend) (name : String) : Int :=
  let e := toInt32 self.callbacks_.length
  findFrom name (self.callbacks_.take e.toNat) 0

/-- FlowBackend::at (`at` is reserved, hence the name): `callbacks_[i]`; an
index outside the vector is undefined. -/
def at_ (self : FlowBackend) (i : Int) : Option Callback :=
  if 0 ≤ i then self.callbacks_[i.toNat]? else none

/-- FlowBackend::invoke: `callbacks_[id]->invoke(argc, argv, cx)`, where
`call cb` stands for the effect of `cb->invoke(argc, argv, cx)`
(`Callback::invoke` is not under the sources). -/
def invoke {α : Type} (call : Callback → α) (self : FlowBackend) (id : Int) : Option α :=
  (self.at_ id).map call

/-- The loop of `unregisterNative`: erase the first callback with the name. -/
def eraseFirst (name : String) : List Callback → Bool × List Callback
  | [] => (false, [])
  | cb :: rest =>
    if cb.name = name then (true, rest)
    else ((eraseFirst name rest).1, cb :: (eraseFirst name rest).2)

/-- FlowBackend::unregisterNative. -/
def unregisterNative (self : FlowBackend) (name : String) : Bool × FlowBackend :=
  ((eraseFirst name self.callbacks_).1, { callbacks_ := (eraseFirst name self.callbacks_).2 })

/-- The loop of `callbackTypeOf`. -/
def typeFrom (name : String) : List Callback → CallbackType
  | [] => .UNKNOWN
  | cb :: rest => if cb.name = name then cb.type else typeFrom name rest

/-- FlowBackend::callbackTypeOf. -/
def callbackTypeOf (self : FlowBackend) (name : String) : CallbackType :=
  typeFrom name self.callbacks_

/-- A sequence of registrations, one `registerNative` per entry, in order. -/
def registerAll (self : FlowBackend) : List Callback → FlowBackend
  | [] => self
  | cb :: rest =>
    registerAll (registerNative self cb.type cb.name cb.returnType cb.callback cb.userdata).2 rest

end FlowBackend

/-! ## The IR generator (`lib/flow/IRGenerator.cpp`) -/

/-- Modelled from the spec: the constants `IRBuilder::get` hands out
(`IRBuilder.h` and `IR.h` are not under the sources): integers, booleans,
strings, regular expressions, IP addresses, CIDR networks and references to
builtin functions (signature and declared return type). -/
inductive Constant where
  | int (value : Int)
  | boolean (value : Bool)
  | string (value : String)
  | regexp (pattern : String)
  | ipaddr (text : String)
  | cidr (text : String)
  | builtinFunction (signature : String) (returnType : FlowValueType)
deriving DecidableEq, Repr

/-- Modelled from the spec: an IR `Value*` that is not null: a constant or the
result of the instruction with the given id, of the given type. -/
inductive Value where
  | const (c : Constant)
  | instr (id : Nat) (type : FlowValueType)
deriving DecidableEq, Repr

/-- Value::type(). -/
def Value.type : Value → FlowValueType
  | .const (.int _) => .NUMBER
  | .const (.boolean _) => .BOOLEAN
  | .const (.string _) => .STRING
  | .const (.regexp _) => .REGEX
  | .const (.ipaddr _) => .IP
  | .const (.cidr _) => .CIDR
  | .const (.builtinFunction _ returnType) => returnType
  | .instr _ type => type

/-- Modelled from the spec: `MatchClass` of a match statement. -/
inductive MatchClass where
  | Same | Head | Tail | RegExp
deriving DecidableEq, Repr

/-- Modelled from the spec: the kinds of IR instructions the generator creates
(`IR.h` is not under the sources); blocks are referred to by their id, and an
operand the generator passes on without looking at it is an `Option Value`,
`none` being the null pointer. -/
inductive InstrKind where
  | alloca (size : Value)
  | store (var : Option Value) (value : Option Value)
  | load (var : Value)
  | arraySet (array : Value) (index : Value) (value : Option Value)
  | vm (op : FlowVM.Opcode) (operands : List (Option Value))
  | callFunction (callee : Option Value) (args : List Value)
  | invokeHandler (args : List Value)
  | condBr (cond : Option Value) (trueBlock : Nat) (falseBlock : Nat)
  | br (target : Nat)
  | ret (value : Value)
  | matchInstr (op : MatchClass) (cond : Option Value) (cases : List (Value × Nat))
      (elseBlock : Option Nat)
deriving DecidableEq, Repr

/-- An IR instruction: its id (it is the value `Value.instr id type`), result
type, name and kind. -/
structure Instr where
  id : Nat
  type : FlowValueType
  name : String
  kind : InstrKind
deriving DecidableEq, Repr

/-- A basic block: id, name and the instructions in the order of insertion. -/
structure BasicBlock where
  id : Nat
  name : String
  instrs : List Instr
deriving DecidableEq, Repr

/-- An IR handler: name, its blocks in the order of creation, and the entry
point (`none` while `setEntryPoint` has not been called). -/
structure IRHandler where
  name : String
  blocks : List BasicBlock
  entryPoint : Option Nat
deriving DecidableEq, Repr

/-- The IR program: its handlers in the order of creation. -/
structure IRProgram where
  handlers : List IRHandler
deriving DecidableEq, Repr

/-! ### The AST (modelled from the accessors the generator uses) -/

mutual
/-- Modelled from the spec: the symbols of the AST (`AST.h` is not under the
sources). -/
inductive Symbol where
  | Variable (name : String) (initializer : Expr)
  | Handler (name : String) (scope : List Symbol) (body : Option Stmt)
  | BuiltinFunction (signature : String) (returnType : FlowValueType)
  | BuiltinHandler (signature : String)
/-- Modelled from the spec: the expressions of the AST; operators are VM
opcodes, a variable is referred to by its name. -/
inductive Expr where
  | UnaryExpr (op : FlowVM.Opcode) (subExpr : Expr)
  | BinaryExpr (op : FlowVM.Opcode) (leftExpr : Expr) (rightExpr : Expr)
  | CallExpr (callee : Symbol) (args : List Expr)
  | VariableExpr (name : String)
  | HandlerRefExpr (handler : Symbol)
  | StringExpr (value : String)
  | NumberExpr (value : Int)
  | BoolExpr (value : Bool)
  | RegExpExpr (value : String)
  | IPAddressExpr (value : String)
  | CidrExpr (value : String)
  | ArrayExpr (type : FlowValueType) (values : List Expr)
/-- Modelled from the spec: the statements of the AST; an absent statement
(`nullptr`) is `none`. -/
inductive Stmt where
  | ExprStmt (expression : Expr)
  | CompoundStmt (stmts : List Stmt)
  | CondStmt (condition : Expr) (thenStmt : Option Stmt) (elseStmt : Option Stmt)
  | MatchStmt (op : MatchClass) (condition : Expr) (cases : List (Expr × Stmt))
      (elseStmt : Option Stmt)
  | AssignStmt (var : String) (expression : Expr)
end

/-- The ways in which a run of the generator ends without returning: a failed
`assert` (the process is aborted) and undefined behaviour (a null pointer is
dereferenced, a vector is read outside its bounds). -/
inductive Failure where
  | assertion
  | undefined
deriving DecidableEq, Repr

/-- A run of the generator: a failure or the answer. -/
inductive Gen (α : Type) where
  | ok (a : α)
  | fail (f : Failure)
deriving DecidableEq, Repr

/-- Sequencing of runs: a failure ends the run. -/
def Gen.bind {α β : Type} : Gen α → (α → Gen β) → Gen β
  | .ok a, f => f a
  | .fail e, _ => .fail e

instance : Monad Gen where
  pure := Gen.ok
  bind := Gen.bind

/-- The state of an `IRGenerator` (an `IRBuilder` with a scope): the program
under construction, the current handler (its index in the program), the
insertion point (a block id), the scope mapping variables to their slots,
`result_` (`none` for `nullptr`), the source of fresh ids for blocks and
instructions, the instructions created but inserted into no block, and the
lines written to the standard error stream. -/
structure IRGenerator where
  program_ : Option IRProgram
  handler_ : Option Nat
  insertPoint_ : Option Nat
  scope_ : List (String × Value)
  result_ : Option Value
  nextId : Nat
  detached : List InstrKind
  stderr : List String
deriving DecidableEq, Repr

namespace IRGenerator

/-- The constructor `IRGenerator::IRGenerator()`. -/
def init : IRGenerator :=
  { program_ := none, handler_ := none, insertPoint_ := none, scope_ := [], result_ := none,
    nextId := 0, detached := [], stderr := [] }

/-- Modelled from the spec: `IRBuilder::setProgram`; the builder starts on the
new program with no handler and no insertion point. -/
def setProgram (g : IRGenerator) (p : IRProgram) : IRGenerator :=
  { g with program_ := some p, handler_ := none, insertPoint_ := none }

/-- Modelled from the spec: `IRBuilder::getHandler`; the handler of the program
with that name, created at the back of the program when there is none. The
answer is the index of the handler; without a program the call dereferences a
null pointer. -/
def getHandler (g : IRGenerator) (name : String) : Gen (Nat × IRGenerator) :=
  match g.program_ with
  | none => .fail .undefined
  | some p =>
    match p.handlers.findIdx? (fun h => h.name = name) with
    | some i => .ok (i, g)
    | none =>
      .ok (p.handlers.length,
        { g with program_ := some { handlers := p.handlers ++
            [{ name := name, blocks := [], entryPoint := none }] } })

/-- Modelled from the spec: `IRBuilder::setHandler`. -/
def setHandler (g : IRGenerator) (h : Nat) : IRGenerator :=
  { g with handler_ := some h }

/-- Modelled from the spec: `IRBuilder::createBlock`; a new empty block with a
fresh id at the back of the current handler. Without a current handler the
call dereferences a null pointer. -/
def createBlock (g : IRGenerator) (name : String) : Gen (Nat × IRGenerator) :=
  match g.program_, g.handler_ with
  | some p, some h =>
    match p.handlers[h]? with
    | some hd =>
      let bb : BasicBlock := { id := g.nextId, name := name, instrs := [] }
      let hd1 : IRHandler := { hd with blocks := hd.blocks ++ [bb] }
      .ok (g.nextId,
        { g with program_ := some { handlers := p.handlers.set h hd1 }, nextId := g.nextId + 1 })
    | none => .fail .undefined
  | _, _ => .fail .undefined

/-- Modelled from the spec: `IRBuilder::setInsertPoint`. -/
def setInsertPoint (g : IRGenerator) (bb : Nat) : IRGenerator :=
  { g with insertPoint_ := some bb }

/-- The statement `handler()->setEntryPoint(getInsertPoint())`. -/
def setEntryPoint (g : IRGenerator) : Gen IRGenerator :=
  match g.program_, g.handler_ with
  | some p, some h =>
    match p.handlers[h]? with
    | some hd =>
      let hd1 : IRHandler := { hd with entryPoint := g.insertPoint_ }
      .ok { g with program_ := some { handlers := p.handlers.set h hd1 } }
    | none => .fail .undefined
  | _, _ => .fail .undefined

/-- The handlers after `instr` is pushed to the back of the block `bb`. -/
def appendInstr (bb : Nat) (instr : Instr) (handlers : List IRHandler) : List IRHandler :=
  handlers.map (fun h => { h with blocks := h.blocks.map (fun b =>
    if b.id = bb then { b with instrs := b.instrs ++ [instr] } else b) })

/-- Modelled from the spec: `IRBuilder::insert`; the new instruction gets a
fresh id and goes to the back of the block at the insertion point. Without an
insertion point the call dereferences a null pointer. -/
def insert (g : IRGenerator) (type : FlowValueType) (name : String) (kind : InstrKind) :
    Gen (Value × IRGenerator) :=
  match g.program_, g.insertPoint_ with
  | some p, some bb =>
    let instr : Instr := { id := g.nextId, type := type, name := name, kind := kind }
    .ok (.instr g.nextId type,
      { g with program_ := some { handlers := appendInstr bb instr p.handlers },
               nextId := g.nextId + 1 })
  | _, _ => .fail .undefined

/-- Modelled from the spec: the result type an operation records for its
opcode. -/
def resultType : FlowVM.Opcode → FlowValueType
  | .I2S | .P2S | .C2S | .R2S | .SADD | .SSUBSTR | .SCONST | .SREGGROUP => .STRING
  | .NCMPZ | .NCMPEQ | .NCMPNE | .NCMPLE | .NCMPGE | .NCMPLT | .NCMPGT | .BNOT | .BAND | .BOR
  | .BXOR | .SCMPEQ | .SCMPNE | .SCMPLE | .SCMPGE | .SCMPLT | .SCMPGT | .SCMPBEG | .SCMPEND
  | .SCONTAINS | .SISEMPTY | .SREGMATCH | .PCMPEQ | .PCMPNE | .PINCIDR | .HANDLER => .BOOLEAN
  | .S2I | .NNEG | .NADD | .NSUB | .NMUL | .NDIV | .NREM | .NSHL | .NSHR | .NPOW | .NAND | .NOR
  | .NXOR | .IMOV | .NCONST | .SLEN | .NTICKS => .NUMBER
  | .PCONST => .IP
  | .CCONST => .CIDR
  | _ => .VOID

/-- The static table `ops` of `accept(UnaryExpr&)`: its keys. -/
def unaryOps : List FlowVM.Opcode :=
  [.I2S, .P2S, .C2S, .R2S, .S2I, .NNEG]

/-- The static table `ops` of `accept(BinaryExpr&)`: its keys. -/
def binaryOps : List FlowVM.Opcode :=
  [.NADD, .NSUB, .NMUL, .NDIV, .NREM, .NSHL, .NSHR, .NPOW, .NAND, .NOR, .NXOR, .NCMPEQ, .NCMPNE,
   .NCMPLE, .NCMPGE, .NCMPLT, .NCMPGT, .SADD, .SCMPEQ, .SCMPNE, .SCMPLE, .SCMPGE, .SCMPLT,
   .SCMPGT, .SCMPBEG, .SCMPEND, .SREGMATCH]

/-- Modelled from the spec: the typed creators `createAdd`, `createI2S`, ...
of the tables and the generic `insert(new VmInstr(op, operands))`: an
operation tagged with its opcode, of the result type the opcode records,
inserted at the insertion point. -/
def createVm (g : IRGenerator) (op : FlowVM.Opcode) (operands : List (Option Value)) :
    Gen (Value × IRGenerator) :=
  insert g (resultType op) "" (.vm op operands)

/-- IRGenerator::reportError: the message goes to the standard error stream. -/
def reportError (g : IRGenerator) (message : String) : IRGenerator :=
  { g with stderr := g.stderr ++ [message] }

/-- The scope's `lookup`; variables are identified by their names. -/
def lookup (g : IRGenerator) (var : String) : Option Value :=
  g.scope_.lookup var

/-- The scope's `update`. -/
def update (g : IRGenerator) (var : String) (v : Value) : IRGenerator :=
  { g with scope_ := (var, v) :: g.scope_ }

/-- Modelled from the spec: `IRBuilder::createBr`; an unconditional branch to
the block `target`, inserted at the insertion point. -/
def createBr (g : IRGenerator) (target : Nat) : Gen (Value × IRGenerator) :=
  insert g .VOID "" (.br target)

/-- Modelled from the spec: `IRBuilder::createRet`. -/
def createRet (g : IRGenerator) (v : Value) : Gen (Value × IRGenerator) :=
  insert g .VOID "" (.ret v)

/-- Modelled from the spec: `IRBuilder::createCondBr`. -/
def createCondBr (g : IRGenerator) (cond : Option Value) (trueBlock falseBlock : Nat)
    (name : String) : Gen (Value × IRGenerator) :=
  insert g .VOID name (.condBr cond trueBlock falseBlock)

/-- Modelled from the spec: `IRBuilder::createStore`. -/
def createStore (g : IRGenerator) (var value : Option Value) (name : String) :
    Gen (Value × IRGenerator) :=
  insert g .VOID name (.store var value)

/-- Modelled from the spec: `IRBuilder::createArraySet`. -/
def createArraySet (g : IRGenerator) (array index : Value) (value : Option Value) :
    Gen (Value × IRGenerator) :=
  insert g .VOID "" (.arraySet array index value)

/-- Modelled from the spec: `IRBuilder::createAlloca`. -/
def createAlloca (g : IRGenerator) (type : FlowValueType) (size : Value) (name : String) :
    Gen (Value × IRGenerator) :=
  insert g type name (.alloca size)

mutual
/-- IRGenerator::codegen(Symbol*): `accept` of the symbol's class. `ndebug`
tells whether `assert` is compiled out. -/
def codegenSymbol (ndebug : Bool) : Symbol → IRGenerator → Gen IRGenerator
  -- accept(Variable&)
  | .Variable name initializer, g => do
    let g1 ← codegenExpr ndebug initializer g
    match g1.result_ with
    | none => pure g1
    | some initValue => do
      let (var, g2) ← createAlloca g1 initValue.type (.const (.int 1)) name
      let g3 := update g2 name var
      let (_, g4) ← createStore g3 (some var) (some initValue) ""
      pure { g4 with result_ := some var }
  -- accept(Handler&)
  | .Handler name scope body, g => do
    let (h, g1) ← getHandler g name
    let g2 := setHandler g1 h
    let (entry, g3) ← createBlock g2 "EntryPoint"
    let g4 := setInsertPoint g3 entry
    let g5 ← setEntryPoint g4
    let g6 ← codegenSymbols ndebug scope g5
    let g7 ← codegenOptStmt ndebug body g6
    let (_, g8) ← createRet g7 (.const (.boolean false))
    pure g8
  -- accept(BuiltinFunction&)
  | .BuiltinFunction signature returnType, g =>
    pure { g with result_ := some (.const (.builtinFunction signature returnType)) }
  -- accept(BuiltinHandler&)
  | .BuiltinHandler _, g => pure { g with result_ := none }
/-- The loops `for (Symbol* symbol: *scope) codegen(symbol)`. -/
def codegenSymbols (ndebug : Bool) : List Symbol → IRGenerator → Gen IRGenerator
  | [], g => pure g
  | symbol :: rest, g => do
    let g1 ← codegenSymbol ndebug symbol g
    codegenSymbols ndebug rest g1
/-- IRGenerator::codegen(Expr*): `accept` of the expression's class. -/
def codegenExpr (ndebug : Bool) : Expr → IRGenerator → Gen IRGenerator
  -- accept(UnaryExpr&)
  | .UnaryExpr op subExpr, g => do
    let g1 ← codegenExpr ndebug subExpr g
    let rhs := g1.result_
    if op ∈ unaryOps then do
      let (v, g2) ← createVm g1 op [rhs]
      pure { g2 with result_ := some v }
    else if ndebug then do
      let (v, g2) ← createVm g1 op [rhs]
      pure { g2 with result_ := some v }
    else .fail .assertion
  -- accept(BinaryExpr&)
  | .BinaryExpr op leftExpr rightExpr, g => do
    let g1 ← codegenExpr ndebug leftExpr g
    let lhs := g1.result_
    let g2 ← codegenExpr ndebug rightExpr g1
    let rhs := g2.result_
    if op ∈ binaryOps then do
      let (v, g3) ← createVm g2 op [lhs, rhs]
      pure { g3 with result_ := some v }
    else do
      let (v, g3) ← createVm g2 op [lhs, rhs]
      pure { g3 with result_ := some v }
  -- accept(CallExpr&)
  | .CallExpr callee args, g => do
    let g1 ← codegenSymbol ndebug callee g
    let calleeValue := g1.result_
    let (argValues, g2) ← codegenArgs ndebug args g1
    match argValues with
    | none => pure g2
    | some values =>
      match callee with
      | .BuiltinFunction _ returnType => do
        let (v, g3) ← insert g2 returnType "" (.callFunction calleeValue values)
        pure { g3 with result_ := some v }
      | .BuiltinHandler _ => do
        let (v, g3) ← insert g2 .BOOLEAN "" (.invokeHandler values)
        pure { g3 with result_ := some v }
      | _ => pure { g2 with result_ := none }
  -- accept(VariableExpr&)
  | .VariableExpr name, g =>
    match lookup g name with
    | some var => do
      let (v, g1) ← insert g var.type "" (.load var)
      pure { g1 with result_ := some v }
    | none => pure { g with result_ := none }
  -- accept(HandlerRefExpr&)
  | .HandlerRefExpr handler, g => codegenSymbol ndebug handler g
  -- the literals
  | .StringExpr value, g => pure { g with result_ := some (.const (.string value)) }
  | .NumberExpr value, g => pure { g with result_ := some (.const (.int value)) }
  | .BoolExpr value, g => pure { g with result_ := some (.const (.int (if value then 1 else 0))) }
  | .RegExpExpr value, g => pure { g with result_ := some (.const (.regexp value)) }
  | .IPAddressExpr value, g => pure { g with result_ := some (.const (.ipaddr value)) }
  | .CidrExpr value, g => pure { g with result_ := some (.const (.cidr value)) }
  -- accept(ArrayExpr&)
  | .ArrayExpr type values, g => do
    let (array, g1) ← createAlloca g type (.const (.int (1 + values.length))) ""
    let (_, g2) ← createArraySet g1 array (.const (.int 0)) (some (.const (.int values.length)))
    match values with
    | [] => pure { g2 with result_ := some array }
    | _ :: rest => do
      let _ ← codegenElements ndebug array rest 1 g2
      .fail .undefined
/-- The loop over the arguments of `accept(CallExpr&)`: the values of the
arguments, or `none` as soon as one argument has no value (the `return`). -/
def codegenArgs (ndebug : Bool) : List Expr → IRGenerator →
    Gen (Option (List Value) × IRGenerator)
  | [], g => pure (some [], g)
  | arg :: rest, g => do
    let g1 ← codegenExpr ndebug arg g
    match g1.result_ with
    | none => pure (none, g1)
    | some v => do
      let (vs, g2) ← codegenArgs ndebug rest g1
      pure (vs.map (fun l => v :: l), g2)
/-- The iterations `i = 1, 2, ...` of the loop of `accept(ArrayExpr&)` that
read an element of the literal: the list is `values()` from index `i` on, and
`values()[i]` is lowered and stored at slot `i`. The loop runs while
`i != 1 + values().size()`, so after these iterations it reads
`values()[values().size()]`, outside the vector. -/
def codegenElements (ndebug : Bool) (array : Value) : List Expr → Nat → IRGenerator →
    Gen IRGenerator
  | [], _, g => pure g
  | element :: rest, i, g => do
    let g1 ← codegenExpr ndebug element g
    let (_, g2) ← createArraySet g1 array (.const (.int i)) g1.result_
    codegenElements ndebug array rest (i + 1) g2
/-- IRGenerator::codegen(Stmt*) on a statement that is not null. -/
def codegenStmt (ndebug : Bool) : Stmt → IRGenerator → Gen IRGenerator
  -- accept(ExprStmt&)
  | .ExprStmt expression, g => codegenExpr ndebug expression g
  -- accept(CompoundStmt&)
  | .CompoundStmt stmts, g => codegenStmts ndebug stmts g
  -- accept(CondStmt&)
  | .CondStmt condition thenStmt elseStmt, g => do
    let (trueBlock, g1) ← createBlock g "trueBlock"
    let (falseBlock, g2) ← createBlock g1 "falseBlock"
    let (contBlock, g3) ← createBlock g2 "contBlock"
    let g4 ← codegenExpr ndebug condition g3
    let (_, g5) ← createCondBr g4 g4.result_ trueBlock falseBlock "if.cond"
    let g6 ← codegenOptStmt ndebug thenStmt (setInsertPoint g5 trueBlock)
    let (_, g7) ← createBr g6 contBlock
    let g8 ← codegenOptStmt ndebug elseStmt (setInsertPoint g7 falseBlock)
    let (_, g9) ← createBr g8 contBlock
    pure (setInsertPoint g9 contBlock)
  -- accept(MatchStmt&)
  | .MatchStmt op condition cases elseStmt, g => do
    let (contBlock, g1) ← createBlock g "match.cont"
    let g2 ← codegenExpr ndebug condition g1
    let cond := g2.result_
    let (pairs, complete, g3) ← codegenCases ndebug contBlock cases g2
    if complete then
      match elseStmt with
      | some stmt => do
        let (elseBlock, g4) ← createBlock g3 "match.else"
        let g5 ← codegenStmt ndebug stmt (setInsertPoint g4 elseBlock)
        let (_, g6) ← createBr g5 contBlock
        pure (setInsertPoint
          { g6 with detached := g6.detached ++ [.matchInstr op cond pairs (some elseBlock)] }
          contBlock)
      | none =>
        pure (setInsertPoint
          { g3 with detached := g3.detached ++ [.matchInstr op cond pairs none] } contBlock)
    else pure { g3 with detached := g3.detached ++ [.matchInstr op cond pairs none] }
  -- accept(AssignStmt&)
  | .AssignStmt var expression, g => do
    let lhs := lookup g var
    let g1 ← codegenExpr ndebug expression g
    let rhs := g1.result_
    if ndebug then do
      let (v, g2) ← createStore g1 lhs rhs "assignment"
      pure { g2 with result_ := some v }
    else
      match lhs, rhs with
      | some l, some r =>
        if l.type = r.type then do
          let (v, g2) ← createStore g1 lhs rhs "assignment"
          pure { g2 with result_ := some v }
        else .fail .assertion
      | _, _ => .fail .undefined
/-- IRGenerator::codegen(Stmt*): a null statement sets `result_` to null. -/
def codegenOptStmt (ndebug : Bool) : Option Stmt → IRGenerator → Gen IRGenerator
  | none, g => pure { g with result_ := none }
  | some stmt, g => codegenStmt ndebug stmt g
/-- The loop of `accept(CompoundStmt&)`. -/
def codegenStmts (ndebug : Bool) : List Stmt → IRGenerator → Gen IRGenerator
  | [], g => pure g
  | stmt :: rest, g => do
    let g1 ← codegenStmt ndebug stmt g
    codegenStmts ndebug rest g1
/-- The loop over the cases of `accept(MatchStmt&)`: the (label, block) pairs
added to the match instruction, and whether the loop ran to its end; it stops
at a label that is neither a string nor a regular-expression literal (the
error is reported, `result_` is null and `accept` returns). -/
def codegenCases (ndebug : Bool) (contBlock : Nat) : List (Expr × Stmt) → IRGenerator →
    Gen (List (Value × Nat) × Bool × IRGenerator)
  | [], g => pure ([], true, g)
  | (.StringExpr value, body) :: rest, g => do
    let (bb, g1) ← createBlock g "match.case"
    let g2 ← codegenStmt ndebug body (setInsertPoint g1 bb)
    let (_, g3) ← createBr g2 contBlock
    let (pairs, complete, g4) ← codegenCases ndebug contBlock rest g3
    pure ((.const (.string value), bb) :: pairs, complete, g4)
  | (.RegExpExpr value, body) :: rest, g => do
    let (bb, g1) ← createBlock g "match.case"
    let g2 ← codegenStmt ndebug body (setInsertPoint g1 bb)
    let (_, g3) ← createBr g2 contBlock
    let (pairs, complete, g4) ← codegenCases ndebug contBlock rest g3
    pure ((.const (.regexp value), bb) :: pairs, complete, g4)
  | _ :: _, g =>
    pure ([], false, { reportError g "FIXME: Invalid (unsupported) literal type in match case."
      with result_ := none })
end

/-- IRGenerator::accept(Unit&): a new program, then every symbol of the unit's
scope. -/
def acceptUnit (ndebug : Bool) (unit : List Symbol) (g : IRGenerator) : Gen IRGenerator :=
  codegenSymbols ndebug unit (setProgram g { handlers := [] })

/-- IRGenerator::generate: the program of a fresh generator after `codegen`
of the unit. -/
def generate (ndebug : Bool) (unit : List Symbol) : Gen (Option IRProgram) :=
  match acceptUnit ndebug unit init with
  | .ok g => .ok g.program_
  | .fail f => .fail f

end IRGenerator

/-! ### Concrete inputs of the generator -/

namespace IRDemo

/-- The generator inside a handler `main`: the program holds that handler, its
entry block has id 0 and is the insertion point. -/
def inHandler : IRGenerator :=
  { program_ := some { handlers := [{ name := "main", blocks := [⟨0, "EntryPoint", []⟩],
                                      entryPoint := some 0 }] }
    handler_ := some 0, insertPoint_ := some 0, scope_ := [], result_ := none,
    nextId := 1, detached := [], stderr := [] }

/-- The statement `if true { if false { } }`, the inner `if` without
statements. -/
def nestedIf : Stmt :=
  .CondStmt (.BoolExpr true) (some (.CondStmt (.BoolExpr false) none none)) none

/-- The statement `match "a" { on "x" { } }` with an empty compound statement
as the body of its only case. -/
def oneCaseMatch : Stmt :=
  .MatchStmt .Same (.StringExpr "a") [(.StringExpr "x", .CompoundStmt [])] none

/-- All instructions of all blocks of a program. -/
def instrs (p : IRProgram) : List Instr :=
  (p.handlers.map (fun h => (h.blocks.map (fun b => b.instrs)).flatten)).flatten

end IRDemo

/-! ## The director plugin's query parsing (`plugins/director/DirectorPlugin.cpp`) -/

namespace DirectorPlugin

/-- The C library's `isspace` in the "C" locale. -/
def isspace (c : UInt8) : Bool :=
  c.toNat = 32 || (9 ≤ c.toNat && c.toNat ≤ 13)

/-- The value of a hexadecimal digit, `none` for any other byte. -/
def hexDigit (c : UInt8) : Option Nat :=
  if 48 ≤ c.toNat ∧ c.toNat ≤ 57 then some (c.toNat - 48)
  else if 97 ≤ c.toNat ∧ c.toNat ≤ 102 then some (c.toNat - 87)
  else if 65 ≤ c.toNat ∧ c.toNat ≤ 70 then some (c.toNat - 55)
  else none

/-- The value of the longest run of hexadecimal digits at the front of `s`,
after the digits of value `acc`. -/
def hexValue : List UInt8 → Nat → Nat
  | [], acc => acc
  | c :: rest, acc =>
    match hexDigit c with
    | some d => hexValue rest (16 * acc + d)
    | none => acc

/-- The C library's `strtol(s, 0, 16)` on the C string `s` (it ends at the
first NUL): white space is skipped, then an optional sign and an optional
`0x` or `0X` that is followed by a hexadecimal digit, then the digits are
read; without digits the answer is 0, and the answer saturates at the bounds
of `long` (64 bits). -/
def strtol16 (s : List UInt8) : Int :=
  let s1 := (s.takeWhile (fun c => c ≠ 0)).dropWhile isspace
  let negative := s1.head? = some 45
  let s2 := if s1.head? = some 45 ∨ s1.head? = some 43 then s1.drop 1 else s1
  let s3 :=
    match s2 with
    | z :: x :: h :: rest =>
      if z = 48 ∧ (x = 120 ∨ x = 88) ∧ (hexDigit h).isSome then h :: rest else s2
    | _ => s2
  let v := hexValue s3 0
  if negative then (if v > 2 ^ 63 then -(2 ^ 63 : Int) else -(v : Int))
  else (if v > 2 ^ 63 - 1 then (2 ^ 63 - 1 : Int) else (v : Int))

/-- The member `std::string::substr(pos, n)`: it throws `std::out_of_range`
(`none`) when `pos` is beyond the size. -/
def substr (s : List UInt8) (pos n : Nat) : Option (List UInt8) :=
  if pos ≤ s.length then some ((s.drop pos).take n) else none

/-- The loop of `urldecode` from the index `i` on, with the buffer `sb`; each
iteration takes one unit of `fuel`. The answer is `none` when `substr` throws
(or the fuel is used up). -/
def urldecodeLoop (AString : List UInt8) : Nat → Nat → List UInt8 → Option (List UInt8)
  | 0, _, _ => none
  | fuel + 1, i, sb =>
    match AString[i]? with
    | none => some sb
    | some c =>
      if c = 37 then
        match substr AString (i + 1) 2 with
        | none => none
        | some snum =>
          urldecodeLoop AString fuel (i + 3)
            (sb ++ [UInt8.ofNat (strtol16 snum % 256).toNat])
      else if c = 43 then urldecodeLoop AString fuel (i + 1) (sb ++ [32])
      else urldecodeLoop AString fuel (i + 1) (sb ++ [c])

/-- The function `urldecode` of `DirectorPlugin.cpp`; the index grows in every
iteration, so `AString.size() + 1` iterations are enough. -/
def urldecode (AString : List UInt8) : Option (List UInt8) :=
  urldecodeLoop AString (AString.length + 1) 0 []

/-- The map `std::unordered_map<std::string, std::string>`: its entries, one
per key. -/
abbrev ArgMap : Type := List (List UInt8 × List UInt8)

/-- The assignment `args[key] = value`. -/
def ArgMap.assign (args : ArgMap) (key value : List UInt8) : ArgMap :=
  if args.any (fun kv => kv.1 = key) then
    args.map (fun kv => if kv.1 = key then (kv.1, value) else kv)
  else args ++ [(key, value)]

/-- The entry of the map for `key`. -/
def ArgMap.find (args : ArgMap) (key : List UInt8) : Option (List UInt8) :=
  (args.find? (fun kv => kv.1 = key)).map (fun kv => kv.2)

/-- The loop of `parseArgs` with `p` the C string from the pointer `p` on
(without its terminating NUL); `q` is the offset at which the scan of the name
stops and `len` is an `unsigned` (32 bits). Each iteration takes one unit of
`fuel`. -/
def parseArgsLoop : Nat → List UInt8 → ArgMap → Option ArgMap
  | 0, _, _ => none
  | fuel + 1, p, args =>
    match p with
    | [] => some args
    | _ :: _ =>
      let q := (p.takeWhile (fun c => c ≠ 61 && c ≠ 38)).length
      let len := q % 2 ^ 32
      if len ≠ 0 then
        let name := p.take len
        let p1 := if p[q]? = some 61 then p.drop ((len + 1) % 2 ^ 32) else p.drop len
        let len2 := (p1.takeWhile (fun c => c ≠ 38)).length % 2 ^ 32
        if len2 ≠ 0 then
          let value := p1.take len2
          let p2 := (p1.drop len2).dropWhile (fun c => c = 38)
          match urldecode name, urldecode value with
          | some k, some v => parseArgsLoop fuel p2 (args.assign k v)
          | _, _ => none
        else
          match urldecode name with
          | some k => parseArgsLoop fuel (p1.drop 1) (args.assign k [])
          | none => none
      else parseArgsLoop fuel (p.drop 1) args

/-- The function `parseArgs` of `DirectorPlugin.cpp` on the C string
`AQuery` (the bytes before the first NUL); the pointer advances in every
iteration, so one iteration per byte and one more are enough. -/
def parseArgs (AQuery : List UInt8) : Option ArgMap :=
  parseArgsLoop ((AQuery.takeWhile (fun c => c ≠ 0)).length + 1)
    (AQuery.takeWhile (fun c => c ≠ 0)) []

/-- The query string `k1=v1&k2=v2&...&kn=vn` of the pairs. -/
def query : List (List UInt8 × List UInt8) → List UInt8
  | [] => []
  | [kv] => kv.1 ++ [61] ++ kv.2
  | kv :: rest => kv.1 ++ [61] ++ kv.2 ++ [38] ++ query rest

/-- A byte that may stand in a key or a value: none of `=`, `&`, `%`, `+`
and NUL. -/
def plain (c : UInt8) : Bool :=
  c ≠ 61 && c ≠ 38 && c ≠ 37 && c ≠ 43 && c ≠ 0

/-- The pairs all have a non-empty key and a non-empty value made of plain
bytes. -/
def wellFormed (ps : List (List UInt8 × List UInt8)) : Bool :=
  ps.all fun kv => !kv.1.isEmpty && !kv.2.isEmpty && kv.1.all plain && kv.2.all plain

/-- The pieces of an encoded string: a `+`, an escape `%HH` of two bytes, or
any other byte. -/
inductive Token where
  | plus
  | escape (h1 h2 : UInt8)
  | other (c : UInt8)
deriving DecidableEq, Repr

/-- The bytes of a piece in the encoded string. -/
def Token.encoded : Token → List UInt8
  | .plus => [43]
  | .escape h1 h2 => [37, h1, h2]
  | .other c => [c]

/-- The byte a piece stands for, when the piece is well formed: a space for
`+`, the byte of value HH for `%HH` with hexadecimal digits H, and the byte
itself for a byte other than `%` and `+`. -/
def Token.decoded : Token → Option UInt8
  | .plus => some 32
  | .escape h1 h2 =>
    match hexDigit h1, hexDigit h2 with
    | some d1, some d2 => some (UInt8.ofNat (16 * d1 + d2))
    | _, _ => none
  | .other c => if c = 37 ∨ c = 43 then none else some c

end DirectorPlugin

/-! ## The tagged pointer (`x0/TaggedPtr.h`, known from `tests/TaggedPtr-test.cpp`) -/

/-- Modelled from the spec: the class `TaggedPtr<T>` (`x0/TaggedPtr.h` is not
under the sources, only its test is): a pointer and a 16-bit tag share one
64-bit word, the tag in the upper 16 bits and the pointer, an address below
2^48, in the lower 48 bits. -/
structure TaggedPtr where
  data_ : Nat
deriving DecidableEq, Repr

namespace TaggedPtr

/-- Modelled from the spec: the word for the pointer `p` and the tag `t`. -/
def pack (p t : Nat) : Nat :=
  ((t <<< 48) ||| p) % 2 ^ 64

/-- Modelled from the spec: the default constructor `TaggedPtr()`. -/
def null : TaggedPtr :=
  { data_ := 0 }

/-- Modelled from the spec: the constructor `TaggedPtr(p, t)`. -/
def make (p t : Nat) : TaggedPtr :=
  { data_ := pack p t }

/-- Modelled from the spec: the member `set(p, t)`. -/
def set (_self : TaggedPtr) (p t : Nat) : TaggedPtr :=
  { data_ := pack p t }

/-- Modelled from the spec: the member `ptr()`, the lower 48 bits. -/
def ptr (self : TaggedPtr) : Nat :=
  self.data_ &&& (2 ^ 48 - 1)

/-- Modelled from the spec: the member `get()`, the same as `ptr()`. -/
def get (self : TaggedPtr) : Nat :=
  self.ptr

/-- Modelled from the spec: the member `tag()`, the upper 16 bits. -/
def tag (self : TaggedPtr) : Nat :=
  self.data_ >>> 48

/-- Modelled from the spec: the conversion to `bool`. -/
def toBool (self : TaggedPtr) : Bool :=
  self.ptr ≠ 0

/-- Modelled from the spec: `operator==`, the equality of the two words. -/
def eq (a b : TaggedPtr) : Bool :=
  a.data_ = b.data_

end TaggedPtr

/-! ## The worker's connection lists and request entry (`lib/http/HttpWorker.cpp`) -/

/-- The list links of an `HttpConnection`; a pointer to a connection is a
number and `none` is `nullptr`. -/
structure HttpConnection where
  prev_ : Option Nat
  next_ : Option Nat
deriving DecidableEq, Repr

/-- The fields of an `HttpWorker` that `release` uses, with the connections
the pointers refer to: `heap c` is the object at the address `c`.
`connectionLoad_` is declared in `HttpWorker.h` (not under the sources) and is
taken as an integer. -/
structure HttpWorker where
  heap : Nat → HttpConnection
  connections_ : Option Nat
  freeConnections_ : Option Nat
  connectionLoad_ : Int

namespace HttpWorker

/-- The assignment `c->next_ = v`. -/
def setNext (heap : Nat → HttpConnection) (c : Nat) (v : Option Nat) : Nat → HttpConnection :=
  fun x => if x = c then { heap c with next_ := v } else heap x

/-- The assignment `c->prev_ = v`. -/
def setPrev (heap : Nat → HttpConnection) (c : Nat) (v : Option Nat) : Nat → HttpConnection :=
  fun x => if x = c then { heap c with prev_ := v } else heap x

/-- The part `// unlink from active-list` of `release`, on the connections. -/
def unlink (heap : Nat → HttpConnection) (c : Nat) : Nat → HttpConnection :=
  let prev := (heap c).prev_
  let next := (heap c).next_
  let heap1 := match prev with
    | some p => setNext heap p next
    | none => heap
  match next with
  | some n => setPrev heap1 n prev
  | none => heap1

/-- The part `// link into free-list` of `release`, on the connections. -/
def linkFree (heap : Nat → HttpConnection) (freeConnections_ : Option Nat) (c : Nat) :
    Nat → HttpConnection :=
  let heap1 := setNext heap c freeConnections_
  let heap2 := setPrev heap1 c none
  match freeConnections_ with
  | some f => if (heap2 f).prev_ ≠ none then setPrev heap2 f (some c) else heap2
  | none => heap2

/-- HttpWorker::release. -/
def release (w : HttpWorker) (c : Nat) : HttpWorker :=
  { heap := linkFree (unlink w.heap c) w.freeConnections_ c
    connections_ := if w.connections_ = some c then (w.heap c).next_ else w.connections_
    freeConnections_ := some c
    connectionLoad_ := w.connectionLoad_ - 1 }

/-- The connections `l` form the doubly linked list that starts at `head`,
the `prev_` of its first element being `prev`. -/
def isActiveList (heap : Nat → HttpConnection) : Option Nat → List Nat → Option Nat → Bool
  | _, [], head => head = none
  | prev, c :: rest, head =>
    head = some c && (heap c).prev_ = prev && isActiveList heap (some c) rest (heap c).next_

/-- The connections `l` form the singly linked list (by `next_`) that starts
at `head`. -/
def isFreeList (heap : Nat → HttpConnection) : List Nat → Option Nat → Bool
  | [], head => head = none
  | c :: rest, head => head = some c && isFreeList heap rest (heap c).next_

/-- Modelled from the spec: the status codes `handleRequest` uses
(`HttpStatus.h` is not under the sources). -/
inductive HttpStatus where
  | Undefined | BadRequest | LengthRequired | ExpectationFailed
deriving DecidableEq, Repr

/-- What `handleRequest` reads and writes of an `HttpRequest` and of its
connection: `expect` is the value of the request header `Expect` (`none` when
the header is absent or empty). -/
structure HttpRequest where
  method : String
  expect : Option String
  contentLength : Int
  isChunked : Bool
  contentAvailable : Bool
  supportsProtocol11 : Bool
  status : HttpStatus
  expectingContinue : Bool
deriving DecidableEq, Repr

/-- The calls `handleRequest` makes on the request and on the server. -/
inductive Call where
  | finish | onPreProcess | requestHandler
deriving DecidableEq, Repr

/-- The server: the hook `onPreProcess` and the `requestHandler`, which tells
whether it handled the request. -/
structure HttpServer where
  onPreProcess : HttpRequest → HttpRequest
  requestHandler : HttpRequest → Bool × HttpRequest

/-- HttpWorker::handleRequest: the request afterwards and the calls made, in
order (the counters of the worker apart). -/
def handleRequest (server_ : HttpServer) (r : HttpRequest) : HttpRequest × List Call :=
  let expectHeader := r.expect
  let contentRequired := r.method = "POST" || r.method = "PUT"
  if contentRequired && (r.contentLength = -1 && !r.isChunked) then
    ({ r with status := .LengthRequired }, [.finish])
  else if !contentRequired && r.contentAvailable then
    ({ r with status := .BadRequest }, [.finish])
  else
    match expectHeader with
    | some e =>
      let r1 := { r with expectingContinue := e = "100-continue" }
      if !r1.expectingContinue || !r1.supportsProtocol11 then
        ({ r1 with status := .ExpectationFailed }, [.finish])
      else
        let r2 := server_.onPreProcess r1
        let (handled, r3) := server_.requestHandler r2
        if !handled then (r3, [.onPreProcess, .requestHandler, .finish])
        else (r3, [.onPreProcess, .requestHandler])
    | none =>
      let r2 := server_.onPreProcess r
      let (handled, r3) := server_.requestHandler r2
      if !handled then (r3, [.onPreProcess, .requestHandler, .finish])
      else (r3, [.onPreProcess, .requestHandler])

/-- A worker with the active list 1, 2, 3 and the free list 7, 8. -/
def demo : HttpWorker :=
  { heap := fun x =>
      if x = 1 then ⟨none, some 2⟩ else if x = 2 then ⟨some 1, some 3⟩
      else if x = 3 then ⟨some 2, none⟩ else if x = 7 then ⟨none, some 8⟩
      else ⟨none, none⟩
    connections_ := some 1
    freeConnections_ := some 7
    connectionLoad_ := 3 }

end HttpWorker

/-! ## The HTTP message parser (`src/x0/message_parser.hpp`) -/

namespace MessageParser

/-- The enumeration `message_parser::mode_type`. -/
inductive mode_type where
  | REQUEST | RESPONSE | MESSAGE
deriving DecidableEq, Repr

/-- The enumeration `message_parser::state`. -/
inductive state where
  | SYNTAX_ERROR | MESSAGE_BEGIN | MESSAGE_END
  | REQUEST_LINE_START | METHOD | ENTITY_START | ENTITY | PROTOCOL_START | PROTOCOL
  | VERSION_MAJOR | VERSION_MINOR | REQUEST_LINE_LF
  | STATUS_LINE_START | STATUS_PROTOCOL_START | STATUS_PROTOCOL | STATUS_CODE
  | STATUS_MESSAGE_START | STATUS_MESSAGE | STATUS_MESSAGE_LF
  | HEADER_NAME_START | HEADER_NAME | HEADER_VALUE | HEADER_END_LF
  | LWS_START | LWS_LF | LWS_SP_HT_START | LWS_SP_HT
  | CONTENT_START | CONTENT
deriving DecidableEq, Repr

/-- Modelled from the spec: a `buffer_ref` into the chunk being parsed
(`x0/buffer_ref.hpp` is not under the sources): the window of `size` bytes
that starts at `offset`. -/
structure buffer_ref where
  offset : Nat
  size : Nat
deriving DecidableEq, Repr

/-- Modelled from the spec: `buffer_ref()` and the state after `clear()`. -/
def buffer_ref.none : buffer_ref :=
  { offset := 0, size := 0 }

/-- Modelled from the spec: `buffer_ref::shr(n)`, the end of the window moves
right by `n` bytes. -/
def buffer_ref.shr (r : buffer_ref) (n : Nat) : buffer_ref :=
  { r with size := r.size + n }

/-- Modelled from the spec: `buffer_ref::empty()`. -/
def buffer_ref.empty (r : buffer_ref) : Bool :=
  r.size = 0

/-- The bytes of the window `r` of `chunk`. -/
def buffer_ref.bytes (chunk : List UInt8) (r : buffer_ref) : List UInt8 :=
  (chunk.drop r.offset).take r.size

/-- A call of one of the parser's callbacks, with its arguments. -/
inductive Event where
  | on_request (method entity protocol : List UInt8) (version_major version_minor : Int)
  | on_response (protocol : List UInt8) (code : Int) (message : List UInt8)
  | on_message
  | on_header (name value : List UInt8)
  | on_header_done
  | on_content (content : List UInt8)
  | on_complete
deriving DecidableEq, Repr

/-- Which of the callbacks (`std::function` members) are set; `on_complete`
is set to a function that answers the given value. -/
structure Callbacks where
  on_request : Bool
  on_response : Bool
  on_message : Bool
  on_header : Bool
  on_header_done : Bool
  on_content : Bool
  on_complete : Option Bool
deriving DecidableEq, Repr

/-- Modelled from the spec: the `chunked_decoder` (`x0/io/chunked_decoder.hpp`
is not under the sources): its states are numbers, 0 after `reset()`;
`process` answers the decoded bytes and the next state, `isEnd` tells whether
the state is `END`. -/
structure ChunkedDecoder where
  process : Nat → List UInt8 → List UInt8 × Nat
  isEnd : Nat → Bool

/-- The members of a `message_parser`, with the calls of callbacks made so
far (`events`) and whether `parse` has set the error code `ec`. The filter
chain is left out: the parser never adds a filter to it, and the empty chain
passes its input on. -/
structure Parser where
  mode_ : mode_type
  state_ : state
  abort_ : Bool
  method_ : buffer_ref
  entity_ : buffer_ref
  protocol_ : buffer_ref
  version_major_ : Int
  version_minor_ : Int
  code_ : Int
  message_ : buffer_ref
  name_ : buffer_ref
  value_ : buffer_ref
  content_chunked_ : Bool
  content_length_ : Int
  chunked_decoder_ : Nat
  events : List Event
  ec : Bool
deriving DecidableEq, Repr

/-- The constructor `message_parser(mode)`. -/
def Parser.init (mode : mode_type) : Parser :=
  { mode_ := mode, state_ := .MESSAGE_BEGIN, abort_ := false,
    method_ := .none, entity_ := .none, protocol_ := .none,
    version_major_ := 0, version_minor_ := 0, code_ := 0, message_ := .none,
    name_ := .none, value_ := .none, content_chunked_ := false, content_length_ := -1,
    chunked_decoder_ := 0, events := [], ec := false }

/-- message_parser::reset. -/
def Parser.reset (p : Parser) (s : state) : Parser :=
  { p with state_ := s, method_ := .none, entity_ := .none, protocol_ := .none,
           version_major_ := 0, version_minor_ := 0, code_ := 0, message_ := .none,
           name_ := .none, value_ := .none, content_chunked_ := false, content_length_ := -1,
           chunked_decoder_ := 0 }

/-- message_parser::is_char: `char` is signed, so the bytes from 128 on are
negative. -/
def is_char (value : UInt8) : Bool :=
  value.toNat ≤ 127

/-- message_parser::is_ctl. -/
def is_ctl (value : UInt8) : Bool :=
  value.toNat ≤ 31 || value.toNat = 127

/-- message_parser::is_seperator. -/
def is_seperator (value : UInt8) : Bool :=
  value.toNat ∈ [40, 41, 60, 62, 64, 44, 59, 58, 92, 34, 47, 91, 93, 63, 61, 123, 125, 32, 9]

/-- message_parser::is_token. -/
def is_token (value : UInt8) : Bool :=
  is_char value && !(is_ctl value || is_seperator value)

/-- message_parser::is_text. -/
def is_text (value : UInt8) : Bool :=
  !is_ctl value || value.toNat = 32 || value.toNat = 9

/-- The C library's `isprint` in the "C" locale. -/
def isprint (c : UInt8) : Bool :=
  32 ≤ c.toNat && c.toNat ≤ 126

/-- The C library's `isdigit`. -/
def isdigit (c : UInt8) : Bool :=
  48 ≤ c.toNat && c.toNat ≤ 57

/-- The `int` expression `v * 10 + (c - '0')`; `none` when it overflows
(undefined behaviour). -/
def accumulate (v : Int) (c : UInt8) : Option Int :=
  if v * 10 + ((c.toNat : Int) - 48) < 2 ^ 31 ∧ -(2 ^ 31) ≤ v * 10 + ((c.toNat : Int) - 48) then
    some (v * 10 + ((c.toNat : Int) - 48))
  else none

/-- The `int` expression `code_ * 10 + *i - '0'`, evaluated from the left;
`none` when it overflows (undefined behaviour). -/
def accumulateCode (v : Int) (c : UInt8) : Option Int :=
  if v * 10 + (c.toNat : Int) < 2 ^ 31 ∧ -(2 ^ 31) ≤ v * 10 + (c.toNat : Int) - 48 then
    some (v * 10 + (c.toNat : Int) - 48)
  else none

/-- The ASCII lower-case form of a byte. -/
def tolower (c : UInt8) : UInt8 :=
  if 65 ≤ c.toNat ∧ c.toNat ≤ 90 then c + 32 else c

/-- Modelled from the spec: `iequals`, the comparison of two byte strings
without regard to the case of ASCII letters. -/
def iequals (a b : List UInt8) : Bool :=
  a.map tolower = b.map tolower

/-- The value of the decimal digits at the front of `s`, after the digits of
value `acc`. -/
def decimalValue : List UInt8 → Nat → Nat
  | [], acc => acc
  | c :: rest, acc => if isdigit c then decimalValue rest (acc * 10 + (c.toNat - 48)) else acc

/-- Modelled from the spec: `buffer_ref::as<int>()`, the number written in
decimal at the front of the bytes, with an optional minus sign. -/
def asInt (s : List UInt8) : Int :=
  match s with
  | c :: rest => if c.toNat = 45 then -(decimalValue rest 0 : Int) else (decimalValue s 0 : Int)
  | [] => 0

/-- The bytes "Content-Length". -/
def contentLengthName : List UInt8 :=
  [67, 111, 110, 116, 101, 110, 116, 45, 76, 101, 110, 103, 116, 104]

/-- The bytes "Transfer-Encoding". -/
def transferEncodingName : List UInt8 :=
  [84, 114, 97, 110, 115, 102, 101, 114, 45, 69, 110, 99, 111, 100, 105, 110, 103]

/-- The bytes "chunked". -/
def chunkedName : List UInt8 :=
  [99, 104, 117, 110, 107, 101, 100]

/-- The call of a callback that is set. -/
def emit (p : Parser) (set : Bool) (e : Event) : Parser :=
  if set then { p with events := p.events ++ [e] } else p

/-- message_parser::pass_request. -/
def pass_request (cb : Callbacks) (chunk : List UInt8) (p : Parser) : Parser :=
  emit p cb.on_request (.on_request (p.method_.bytes chunk) (p.entity_.bytes chunk)
    (p.protocol_.bytes chunk) p.version_major_ p.version_minor_)

/-- message_parser::pass_response. -/
def pass_response (cb : Callbacks) (chunk : List UInt8) (p : Parser) : Parser :=
  emit p cb.on_response (.on_response (p.protocol_.bytes chunk) p.code_
    (p.message_.bytes chunk))

/-- message_parser::pass_header. -/
def pass_header (cb : Callbacks) (chunk : List UInt8) (p : Parser) : Parser :=
  let p1 :=
    if iequals (p.name_.bytes chunk) contentLengthName then
      { p with content_length_ := asInt (p.value_.bytes chunk) }
    else if iequals (p.name_.bytes chunk) transferEncodingName then
      if iequals (p.value_.bytes chunk) chunkedName then { p with content_chunked_ := true }
      else p
    else p
  let p2 := emit p1 cb.on_header (.on_header (p.name_.bytes chunk) (p.value_.bytes chunk))
  { p2 with name_ := .none, value_ := .none }

/-- message_parser::pass_content on the bytes `chunk`: the answer of the
function, the parser afterwards and what is added to `nparsed`. -/
def pass_content (cb : Callbacks) (dec : ChunkedDecoder) (chunk : List UInt8) (p : Parser) :
    Bool × Parser × Nat :=
  if p.content_chunked_ then
    let result := (dec.process p.chunked_decoder_ chunk).1
    let p1 := { p with chunked_decoder_ := (dec.process p.chunked_decoder_ chunk).2 }
    let p2 := if dec.isEnd p1.chunked_decoder_ then { p1 with state_ := .MESSAGE_END } else p1
    let p3 := if !result.isEmpty then emit p2 cb.on_content (.on_content result) else p2
    match p3.state_, cb.on_complete with
    | .MESSAGE_END, some answer =>
      (answer, { emit p3 true .on_complete with state_ := .MESSAGE_BEGIN, chunked_decoder_ := 0 },
        chunk.length)
    | _, _ => (true, p3, chunk.length)
  else if p.content_length_ > 0 then
    let c := if (chunk.length : Int) > p.content_length_ then chunk.take p.content_length_.toNat
             else chunk
    let p1 := { p with content_length_ := p.content_length_ - c.length }
    let p2 := emit p1 cb.on_content (.on_content c)
    if p2.content_length_ = 0 then
      match cb.on_complete with
      | some answer =>
        (answer, { emit { p2 with state_ := .MESSAGE_END } true .on_complete with
                   state_ := .MESSAGE_BEGIN }, c.length)
      | none => (true, { p2 with state_ := .MESSAGE_END }, c.length)
    else (true, p2, c.length)
  else
    (true, emit p cb.on_content (.on_content chunk), chunk.length)

/-- What one iteration of the loop of `parse` does: it goes on with the next
iteration, returns from `parse` with a value, or has undefined behaviour. -/
inductive Step where
  | next (p : Parser) (offset : Nat)
  | ret (p : Parser) (value : Nat)
  | undefined
deriving DecidableEq, Repr

/-- An iteration that consumes the byte at `offset`. -/
def Step.consume (p : Parser) (offset : Nat) : Step :=
  .next p (offset + 1)

/-- An iteration that finds a syntax error. -/
def Step.error (p : Parser) (offset : Nat) : Step :=
  .next { p with state_ := .SYNTAX_ERROR } offset

/-- One iteration of the loop of `parse`: the body of `switch (state_)` on the
byte `c` at `offset` of `chunk`. -/
def step (cb : Callbacks) (dec : ChunkedDecoder) (chunk : List UInt8) (p : Parser)
    (offset : Nat) (c : UInt8) : Step :=
  match p.state_ with
  | .MESSAGE_BEGIN =>
    match p.mode_ with
    | .REQUEST => .next { p with state_ := .REQUEST_LINE_START } offset
    | .RESPONSE => .next { p with state_ := .STATUS_LINE_START } offset
    | .MESSAGE => .next (emit { p with state_ := .HEADER_NAME_START } cb.on_message .on_message)
        offset
  | .REQUEST_LINE_START =>
    if is_token c then .consume { p with state_ := .METHOD, method_ := ⟨offset, 1⟩ } offset
    else .error p offset
  | .METHOD =>
    if c.toNat = 32 then .consume { p with state_ := .ENTITY_START } offset
    else if !is_token c then .error p offset
    else .consume { p with method_ := p.method_.shr 1 } offset
  | .ENTITY_START =>
    if isprint c then .consume { p with entity_ := ⟨offset, 1⟩, state_ := .ENTITY } offset
    else .error p offset
  | .ENTITY =>
    if c.toNat = 32 then .consume { p with state_ := .PROTOCOL_START } offset
    else if isprint c then .consume { p with entity_ := p.entity_.shr 1 } offset
    else .error p offset
  | .PROTOCOL_START =>
    if is_token c then .consume { p with protocol_ := ⟨offset, 1⟩, state_ := .PROTOCOL } offset
    else .error p offset
  | .PROTOCOL =>
    if c.toNat = 47 then .consume { p with state_ := .VERSION_MAJOR } offset
    else if is_token c then .consume { p with protocol_ := p.protocol_.shr 1 } offset
    else .error p offset
  | .VERSION_MAJOR =>
    if isdigit c then
      match accumulate p.version_major_ c with
      | some v => .consume { p with version_major_ := v } offset
      | none => .undefined
    else if c.toNat = 46 then .consume { p with state_ := .VERSION_MINOR } offset
    else .error p offset
  | .VERSION_MINOR =>
    if isdigit c then
      match accumulate p.version_minor_ c with
      | some v => .consume { p with version_minor_ := v } offset
      | none => .undefined
    else if c.toNat = 13 then .consume { p with state_ := .REQUEST_LINE_LF } offset
    else .error p offset
  | .REQUEST_LINE_LF =>
    if c.toNat = 10 then
      .consume { pass_request cb chunk p with state_ := .HEADER_NAME_START } offset
    else .error p offset
  | .STATUS_LINE_START | .STATUS_PROTOCOL_START =>
    if !is_token c then .error p offset
    else .consume { p with protocol_ := ⟨offset, 1⟩, state_ := .STATUS_PROTOCOL } offset
  | .STATUS_PROTOCOL =>
    if c.toNat = 32 then .consume { p with state_ := .STATUS_CODE } offset
    else if is_token c then .consume { p with protocol_ := p.protocol_.shr 1 } offset
    else .error p offset
  | .STATUS_CODE =>
    if isdigit c then
      match accumulateCode p.code_ c with
      | some v => .consume { p with code_ := v } offset
      | none => .undefined
    else if c.toNat = 32 then .consume { p with state_ := .STATUS_MESSAGE_START } offset
    else if c.toNat = 13 then .consume { p with state_ := .STATUS_MESSAGE_LF } offset
    else .error p offset
  | .STATUS_MESSAGE_START =>
    if is_text c then .consume { p with state_ := .STATUS_MESSAGE, message_ := ⟨offset, 1⟩ } offset
    else .error p offset
  | .STATUS_MESSAGE =>
    if is_text c && c.toNat ≠ 13 && c.toNat ≠ 10 then
      .consume { p with message_ := p.message_.shr 1 } offset
    else if c.toNat = 13 then .consume { p with state_ := .STATUS_MESSAGE_LF } offset
    else .error p offset
  | .STATUS_MESSAGE_LF =>
    if c.toNat = 10 then
      .consume { pass_response cb chunk p with state_ := .HEADER_NAME_START } offset
    else .error p offset
  | .HEADER_NAME_START =>
    if is_token c then .consume { p with state_ := .HEADER_NAME, name_ := ⟨offset, 1⟩ } offset
    else if c.toNat = 13 then .consume { p with state_ := .HEADER_END_LF } offset
    else .error p offset
  | .HEADER_NAME =>
    if c.toNat = 58 then .consume { p with state_ := .LWS_START } offset
    else if is_token c then .consume { p with name_ := p.name_.shr 1 } offset
    else .error p offset
  | .LWS_START =>
    if c.toNat = 13 then .consume { p with state_ := .LWS_LF } offset
    else if c.toNat = 32 ∨ c.toNat = 9 then .consume { p with state_ := .LWS_SP_HT } offset
    else if isprint c then
      .consume { p with value_ := if p.value_.empty then ⟨offset, 1⟩ else p.value_,
                        state_ := .HEADER_VALUE } offset
    else .error p offset
  | .LWS_LF =>
    if c.toNat = 10 then .consume { p with state_ := .LWS_SP_HT_START } offset
    else .error p offset
  | .LWS_SP_HT_START =>
    if c.toNat = 32 ∨ c.toNat = 9 then
      .consume { p with value_ := if !p.value_.empty then p.value_.shr 3 else p.value_,
                        state_ := .LWS_SP_HT } offset
    else .next (pass_header cb chunk { p with state_ := .HEADER_NAME_START }) offset
  | .LWS_SP_HT =>
    if c.toNat = 32 ∨ c.toNat = 9 then
      .consume { p with value_ := if !p.value_.empty then p.value_.shr 1 else p.value_ } offset
    else if isprint c then
      .consume { p with state_ := .HEADER_VALUE,
                        value_ := if p.value_.empty then ⟨offset, 1⟩ else p.value_.shr 1 } offset
    else .error p offset
  | .HEADER_VALUE =>
    if c.toNat = 13 then .consume { p with state_ := .LWS_LF } offset
    else if isprint c then .consume { p with value_ := p.value_.shr 1 } offset
    else .error p offset
  | .HEADER_END_LF =>
    if c.toNat = 10 then
      let content_expected := decide (p.content_length_ > 0) || p.content_chunked_
      let p1 := { p with state_ := if content_expected then .CONTENT_START else .MESSAGE_END }
      let p2 := emit p1 cb.on_header_done .on_header_done
      if !content_expected then
        match cb.on_complete with
        | some answer =>
          if !answer then .ret (emit p2 true .on_complete) offset
          else .consume (emit p2 true .on_complete) offset
        | none => .consume p2 offset
      else .consume p2 offset
    else .error p offset
  | .CONTENT_START =>
    if p.content_length_ ≤ 0 ∧ !p.content_chunked_ then .error p offset
    else
      match pass_content cb dec (chunk.drop offset) { p with state_ := .CONTENT } with
      | (false, p1, nparsed) => .ret p1 (offset + nparsed)
      | (true, p1, nparsed) => .next p1 (offset + nparsed)
  | .CONTENT =>
    match pass_content cb dec (chunk.drop offset) p with
    | (false, p1, nparsed) => .ret p1 (offset + nparsed)
    | (true, p1, nparsed) => .next p1 (offset + nparsed)
  | .MESSAGE_END => .ret p offset
  | .SYNTAX_ERROR => .ret { p with ec := true } offset

/-- The end of `parse` after the loop: with all headers parsed and no body to
come, `on_complete` is called and the next message may begin. -/
def finish (cb : Callbacks) (p : Parser) (offset : Nat) : Parser × Nat :=
  if p.state_ = .CONTENT_START ∧ p.content_length_ < 0 ∧ !p.content_chunked_ then
    ({ emit p cb.on_complete.isSome .on_complete with state_ := .MESSAGE_BEGIN }, offset)
  else (p, offset)

/-- The loop `while (!abort_ && i != e)` of `parse` from `offset` on, for at
most `fuel` iterations: the parser afterwards and the value `parse` returns,
`none` for undefined behaviour (or when the fuel is used up). -/
def parseLoop (cb : Callbacks) (dec : ChunkedDecoder) (chunk : List UInt8) :
    Nat → Parser → Nat → Option (Parser × Nat)
  | 0, _, _ => none
  | fuel + 1, p, offset =>
    if p.abort_ then some (finish cb p offset)
    else
      match chunk[offset]? with
      | none => some (finish cb p offset)
      | some c =>
        match step cb dec chunk p offset c with
        | .next p1 offset1 => parseLoop cb dec chunk fuel p1 offset1
        | .ret p1 value => some (p1, value)
        | .undefined => none

/-- After `n` iterations from the parser `p` at `offset`, the loop of `parse`
is at the parser `p1` at `offset1`. -/
def Reaches (cb : Callbacks) (dec : ChunkedDecoder) (chunk : List UInt8) (n : Nat)
    (p : Parser) (offset : Nat) (p1 : Parser) (offset1 : Nat) : Prop :=
  ∀ fuel, parseLoop cb dec chunk (fuel + n) p offset = parseLoop cb dec chunk fuel p1 offset1

/-- message_parser::parse(chunk, ec): the parser afterwards and the number
returned; an iteration that consumes no byte is followed by one that consumes
a byte or returns, so three iterations per byte are enough. -/
def parse (cb : Callbacks) (dec : ChunkedDecoder) (chunk : List UInt8) (p : Parser) :
    Option (Parser × Nat) :=
  let p0 := { p with abort_ := false }
  if p0.state_ = .CONTENT then
    match pass_content cb dec chunk p0 with
    | (false, p1, nparsed) => some (p1, nparsed)
    | (true, p1, nparsed) => parseLoop cb dec chunk (3 * chunk.length + 3) p1 nparsed
  else parseLoop cb dec chunk (3 * chunk.length + 3) p0 0

/-- All callbacks set, `on_complete` answering true. -/
def allCallbacks : Callbacks :=
  { on_request := true, on_response := true, on_message := true, on_header := true,
    on_header_done := true, on_content := true, on_complete := some true }

/-- A chunked decoder that passes its input on and never ends. -/
def plainDecoder : ChunkedDecoder :=
  { process := fun s chunk => (chunk, s), isEnd := fun _ => false }

/-- The bytes "GET / HTTP/1.1\r\n". -/
def requestLine : List UInt8 :=
  [71, 69, 84, 32, 47, 32, 72, 84, 84, 80, 47, 49, 46, 49, 13, 10]

/-- The bytes "HTTP/1.1 200 OK\r\n". -/
def statusLine : List UInt8 :=
  [72, 84, 84, 80, 47, 49, 46, 49, 32, 50, 48, 48, 32, 79, 75, 13, 10]

/-- The bytes "POST / HTTP/1.1\r\nContent-Length: 1\r\n\r\nx". -/
def postRequest : List UInt8 :=
  [80, 79, 83, 84, 32, 47, 32, 72, 84, 84, 80, 47, 49, 46, 49, 13, 10,
   67, 111, 110, 116, 101, 110, 116, 45, 76, 101, 110, 103, 116, 104, 58, 32, 49, 13, 10,
   13, 10, 120]

/-- The bytes "HTTP". -/
def httpName : List UInt8 :=
  [72, 84, 84, 80]

/-- The request line `Method SP Request-URI SP "HTTP/" major "." minor CRLF`. -/
def requestLineOf (method uri major minor : List UInt8) : List UInt8 :=
  method ++ 32 :: (uri ++ 32 :: 72 :: 84 :: 84 :: 80 :: 47 :: (major ++ 46 :: (minor ++ [13, 10])))

/-- A parser in REQUEST mode as the constructor leaves it, but for the state,
the three windows of the request line, the version numbers and the events. -/
def requestParser (s : state) (method entity protocol : buffer_ref)
    (version_major version_minor : Int) (events : List Event) : Parser :=
  { Parser.init .REQUEST with
      state_ := s, method_ := method, entity_ := entity, protocol_ := protocol,
      version_major_ := version_major, version_minor_ := version_minor, events := events }

/-- The calls of `on_request` among the events, with the version numbers. -/
def requestVersions : List Event → List (Int × Int)
  | [] => []
  | .on_request _ _ _ major minor :: rest => (major, minor) :: requestVersions rest
  | _ :: rest => requestVersions rest

end MessageParser

namespace FlowVM

/-! ## Lemmas on the dispatch loop -/

theorem step_of_fetch (env : Env) (handler : Handler) (s : State) (i : Instruction)
    (h : handler.code[s.pc]? = some i) :
    step env handler s = exec env handler.program { s with ticks := (s.ticks + 1) % 2 ^ 64 } i := by
  simp [step, h]

theorem runFrom_of_reach (env : Env) (handler : Handler) (k : Nat) :
    ∀ (n : Nat) (s0 s : State), reach env handler n s0 = some s →
      runFrom env handler (n + k) s0 = runFrom env handler k s := by
  intro n
  induction n with
  | zero =>
    intro s0 s h
    simp [reach] at h
    simp [h]
  | succ n ih =>
    intro s0 s h
    rw [Nat.add_right_comm]
    simp only [reach] at h
    simp only [runFrom]
    cases hs : step env handler s0 with
    | next s1 =>
      rw [hs] at h
      exact ih s1 s h
    | ret v s1 => rw [hs] at h; simp at h
    | fault => rw [hs] at h; simp at h

/-! ## Control instructions -/

/-- C1: when `Runner::run` reaches, after any number of instructions, an EXIT
instruction whose operand field A holds `v`, it returns the verdict `v != 0`
whatever the registers hold; the EXIT is the last instruction counted in
`ticks` and the runner is left as it was when the EXIT was reached. -/
theorem run_exit_verdict (env : Env) (handler : Handler) (r0 : Runner) (n k : Nat) (s : State)
    (v b c : Nat)
    (hreach : reach env handler n (initial r0) = some s)
    (hinstr : handler.code[s.pc]? = some ⟨.EXIT, v, b, c⟩) :
    Runner.run env handler r0 (n + (k + 1))
      = .done (v != 0) { s with ticks := (s.ticks + 1) % 2 ^ 64 } := by
  unfold Runner.run
  rw [runFrom_of_reach env handler (k + 1) n (initial r0) s hreach]
  simp [runFrom, step_of_fetch env handler s _ hinstr, exec]

theorem run_exit_verdict_witness :
    reach Demo.env (Demo.handler [⟨.IMOV, 0, 1, 0⟩, ⟨.EXIT, 3, 0, 0⟩]) 1
        (initial (Runner.create Demo.env (Demo.handler [⟨.IMOV, 0, 1, 0⟩, ⟨.EXIT, 3, 0, 0⟩])))
      = some (Demo.state [1, 0, 0, 0] 1)
    ∧ (Demo.handler [⟨.IMOV, 0, 1, 0⟩, ⟨.EXIT, 3, 0, 0⟩]).code[(Demo.state [1, 0, 0, 0] 1).pc]?
      = some ⟨.EXIT, 3, 0, 0⟩
    ∧ Runner.run Demo.env (Demo.handler [⟨.IMOV, 0, 1, 0⟩, ⟨.EXIT, 3, 0, 0⟩])
        (Runner.create Demo.env (Demo.handler [⟨.IMOV, 0, 1, 0⟩, ⟨.EXIT, 3, 0, 0⟩])) (1 + (0 + 1))
      = .done true { Demo.state [1, 0, 0, 0] 1 with ticks := 2 } :=
  ⟨by decide, by decide,
    run_exit_verdict Demo.env (Demo.handler [⟨.IMOV, 0, 1, 0⟩, ⟨.EXIT, 3, 0, 0⟩]) _ 1 0
      (Demo.state [1, 0, 0, 0] 1) 3 0 0 (by decide) (by decide)⟩

/-- C2 (as stated, refuted): on the handler `IMOV r0, 1; EXIT r0` (EXIT with
A = 0) a freshly created runner returns false after two instructions, with 1
in register 0, and returns true under no step budget. -/
theorem run_imov_exit_r0_is_false :
    Runner.run Demo.env (Demo.handler [⟨.IMOV, 0, 1, 0⟩, ⟨.EXIT, 0, 0, 0⟩])
        (Runner.create Demo.env (Demo.handler [⟨.IMOV, 0, 1, 0⟩, ⟨.EXIT, 0, 0, 0⟩])) 2
      = .done false { Demo.state [1, 0, 0, 0] 1 with ticks := 2 }
    ∧ ∀ (fuel : Nat) (s : State),
        Runner.run Demo.env (Demo.handler [⟨.IMOV, 0, 1, 0⟩, ⟨.EXIT, 0, 0, 0⟩])
          (Runner.create Demo.env (Demo.handler [⟨.IMOV, 0, 1, 0⟩, ⟨.EXIT, 0, 0, 0⟩])) fuel
        ≠ .done true s := by
  refine ⟨by decide, ?_⟩
  intro fuel s
  match fuel with
  | 0 => simp [Runner.run, runFrom]
  | 1 => simp [Runner.run, runFrom, step, exec, initial, Demo.handler, State.assign, Runner.create,
      Runner.newString]
  | k + 2 => simp [Runner.run, runFrom, step, exec, initial, Demo.handler, State.assign,
      Runner.create, Runner.newString]

/-- C2 (amended): for the handler `IMOV r0, 1; EXIT r0` (IMOV with A = 0,
B = 1, then EXIT with A = 0), with at least one register, `Runner::run` on a
freshly created runner returns false: the operand of EXIT is an immediate, so
the verdict is `0 != 0` although register 0 holds 1. -/
theorem run_imov_exit_immediate (env : Env) (handler : Handler) (fuel : Nat)
    (hcode : handler.code = [⟨.IMOV, 0, 1, 0⟩, ⟨.EXIT, 0, 0, 0⟩])
    (hregs : 0 < handler.registerCount) :
    ∃ s, Runner.run env handler (Runner.create env handler) (fuel + 2) = .done false s
      ∧ s.runner.data_[0]? = some 1 := by
  obtain ⟨m, hm⟩ : ∃ m, handler.registerCount = m + 1 := ⟨handler.registerCount - 1, by omega⟩
  simp [Runner.run, runFrom, step, exec, initial, hcode, State.assign, Runner.create,
    Runner.newString, hm, List.replicate_succ]

theorem run_imov_exit_immediate_witness :
    (Demo.handler [⟨.IMOV, 0, 1, 0⟩, ⟨.EXIT, 0, 0, 0⟩]).code = [⟨.IMOV, 0, 1, 0⟩, ⟨.EXIT, 0, 0, 0⟩]
    ∧ 0 < (Demo.handler [⟨.IMOV, 0, 1, 0⟩, ⟨.EXIT, 0, 0, 0⟩]).registerCount
    ∧ ∃ s, Runner.run Demo.env (Demo.handler [⟨.IMOV, 0, 1, 0⟩, ⟨.EXIT, 0, 0, 0⟩])
        (Runner.create Demo.env (Demo.handler [⟨.IMOV, 0, 1, 0⟩, ⟨.EXIT, 0, 0, 0⟩])) (5 + 2)
          = .done false s
      ∧ s.runner.data_[0]? = some 1 :=
  ⟨rfl, by decide,
    run_imov_exit_immediate Demo.env (Demo.handler [⟨.IMOV, 0, 1, 0⟩, ⟨.EXIT, 0, 0, 0⟩]) 5 rfl
      (by decide)⟩

/-! ## Native callbacks -/

/-- C3: a HANDLER instruction (A = native handler id, B = argc, C = base
register) leaves the runner exactly as one invocation of native handler A on
the parameter view (B, C) leaves it; if register C is then non-zero, `run`
returns true at once, the HANDLER being the last instruction counted, and if
it is zero the next instruction is dispatched. -/
theorem handler_short_circuit (env : Env) (handler : Handler) (s : State)
    (id argc base : Nat) (native : NativeCallback) (out : Register)
    (hinstr : handler.code[s.pc]? = some ⟨.HANDLER, id, argc, base⟩)
    (hnative : handler.program.nativeHandlers[id]? = some native)
    (hout : (native.invoke ⟨argc, base⟩ s.runner).data_[base]? = some out) :
    (out ≠ 0 →
      step env handler s = .ret true { s with
        runner := native.invoke ⟨argc, base⟩ s.runner, ticks := (s.ticks + 1) % 2 ^ 64 }
      ∧ ∀ fuel, runFrom env handler (fuel + 1) s = .done true { s with
        runner := native.invoke ⟨argc, base⟩ s.runner, ticks := (s.ticks + 1) % 2 ^ 64 })
    ∧ (out = 0 →
      step env handler s = .next { s with
        runner := native.invoke ⟨argc, base⟩ s.runner, ticks := (s.ticks + 1) % 2 ^ 64,
        pc := s.pc + 1 }) := by
  have hstep := step_of_fetch env handler s _ hinstr
  constructor
  · intro hne
    have hs : step env handler s = .ret true { s with
        runner := native.invoke ⟨argc, base⟩ s.runner, ticks := (s.ticks + 1) % 2 ^ 64 } := by
      rw [hstep]
      simp [exec, hnative, hout, hne, Outcome.ofOption]
    refine ⟨hs, ?_⟩
    intro fuel
    simp [runFrom, hs]
  · intro hz
    rw [hstep]
    simp [exec, hnative, hout, hz, Outcome.ofOption, State.advance]

theorem handler_short_circuit_witness :
    (Demo.handler [⟨.HANDLER, 0, 1, 2⟩, ⟨.EXIT, 0, 0, 0⟩]).code[(Demo.state [0, 0, 0, 0] 0).pc]?
      = some ⟨.HANDLER, 0, 1, 2⟩
    ∧ (Demo.handler [⟨.HANDLER, 0, 1, 2⟩, ⟨.EXIT, 0, 0, 0⟩]).program.nativeHandlers[0]?
      = some { invoke := fun p r => { r with data_ := r.data_.set p.argv 1 } }
    ∧ ((Demo.state [0, 0, 0, 0] 0).runner.data_.set 2 1)[2]? = some 1
    ∧ runFrom Demo.env (Demo.handler [⟨.HANDLER, 0, 1, 2⟩, ⟨.EXIT, 0, 0, 0⟩]) (7 + 1)
        (Demo.state [0, 0, 0, 0] 0)
      = .done true { Demo.state [0, 0, 1, 0] 0 with ticks := 1 } :=
  ⟨rfl, rfl, rfl,
    ((handler_short_circuit Demo.env (Demo.handler [⟨.HANDLER, 0, 1, 2⟩, ⟨.EXIT, 0, 0, 0⟩])
      (Demo.state [0, 0, 0, 0] 0) 0 1 2 { invoke := fun p r => { r with data_ := r.data_.set p.argv 1 } }
      1 rfl rfl rfl).1 (by decide)).2 7⟩

/-! ## Division -/

/-- C4 (as stated, refuted): with 10 in register 0 and 0 in the divisor
register 1, neither `NDIV r2, r0, r1` nor `NREM r2, r0, r1` stores 0 and goes
on: both fault. -/
theorem ndiv_nrem_by_zero_fault_at_ten :
    step Demo.env (Demo.handler [⟨.NDIV, 2, 0, 1⟩, ⟨.EXIT, 0, 0, 0⟩]) (Demo.state [10, 0, 7, 0] 0)
      = .fault
    ∧ step Demo.env (Demo.handler [⟨.NREM, 2, 0, 1⟩, ⟨.EXIT, 0, 0, 0⟩]) (Demo.state [10, 0, 7, 0] 0)
      = .fault := by
  constructor <;> decide

/-- C4 (amended): for every register file in which the divisor register C
holds 0, executing `NDIV A,B,C` or `NREM A,B,C` faults: the division is
performed unguarded, nothing is stored in register A and no next instruction
is dispatched. -/
theorem ndiv_nrem_zero_divisor_faults (env : Env) (handler : Handler) (s : State)
    (op : Opcode) (A B C : Nat)
    (hop : op = .NDIV ∨ op = .NREM)
    (hinstr : handler.code[s.pc]? = some ⟨op, A, B, C⟩)
    (hzero : s.runner.data_[C]? = some 0) :
    step env handler s = .fault
    ∧ ∀ fuel, runFrom env handler (fuel + 1) s = .fault := by
  have hs : step env handler s = .fault := by
    rw [step_of_fetch env handler s _ hinstr]
    rcases hop with h | h <;> subst h <;>
      cases hb : s.runner.data_[B]? <;>
      simp [exec, State.num, State.reg, hb, hzero, toNumber, Outcome.ofOption]
  refine ⟨hs, ?_⟩
  intro fuel
  simp [runFrom, hs]

theorem ndiv_nrem_zero_divisor_faults_witness :
    (Opcode.NREM = .NDIV ∨ Opcode.NREM = .NREM)
    ∧ (Demo.handler [⟨.NREM, 0, 2, 3⟩]).code[(Demo.state [5, 6, 7, 0] 0).pc]? = some ⟨.NREM, 0, 2, 3⟩
    ∧ (Demo.state [5, 6, 7, 0] 0).runner.data_[3]? = some 0
    ∧ step Demo.env (Demo.handler [⟨.NREM, 0, 2, 3⟩]) (Demo.state [5, 6, 7, 0] 0) = .fault :=
  ⟨Or.inr rfl, rfl, rfl,
    (ndiv_nrem_zero_divisor_faults Demo.env (Demo.handler [⟨.NREM, 0, 2, 3⟩])
      (Demo.state [5, 6, 7, 0] 0) .NREM 0 2 3 (Or.inr rfl) rfl rfl).1⟩

/-- C5 (as stated, refuted): on the handler
`IMOV r0, 10; IMOV r1, 0; NDIV r2, r0, r1; EXIT r2` a freshly created runner
returns no verdict: the run faults. -/
theorem run_division_by_zero_is_fault :
    Runner.run Demo.env
        (Demo.handler [⟨.IMOV, 0, 10, 0⟩, ⟨.IMOV, 1, 0, 0⟩, ⟨.NDIV, 2, 0, 1⟩, ⟨.EXIT, 2, 0, 0⟩])
        (Runner.create Demo.env
          (Demo.handler [⟨.IMOV, 0, 10, 0⟩, ⟨.IMOV, 1, 0, 0⟩, ⟨.NDIV, 2, 0, 1⟩, ⟨.EXIT, 2, 0, 0⟩])) 4
      = .fault := by
  decide

/-- C5 (amended): for the handler
`IMOV r0, 10; IMOV r1, 0; NDIV r2, r0, r1; EXIT r2`, with at least three
registers, `Runner::run` on a freshly created runner does not return a
verdict: it faults at the NDIV, its third instruction, under every step budget
that reaches it. -/
theorem run_division_by_zero_faults (env : Env) (handler : Handler) (fuel : Nat)
    (hcode : handler.code
      = [⟨.IMOV, 0, 10, 0⟩, ⟨.IMOV, 1, 0, 0⟩, ⟨.NDIV, 2, 0, 1⟩, ⟨.EXIT, 2, 0, 0⟩])
    (hregs : 3 ≤ handler.registerCount) :
    Runner.run env handler (Runner.create env handler) (fuel + 3) = .fault := by
  obtain ⟨m, hm⟩ : ∃ m, handler.registerCount = m + 3 := ⟨handler.registerCount - 3, by omega⟩
  simp [Runner.run, runFrom, step, exec, initial, hcode, State.assign, Runner.create,
    Runner.newString, hm, List.replicate_succ, State.num, State.reg, toNumber, Outcome.ofOption]

theorem run_division_by_zero_faults_witness :
    (Demo.handler [⟨.IMOV, 0, 10, 0⟩, ⟨.IMOV, 1, 0, 0⟩, ⟨.NDIV, 2, 0, 1⟩, ⟨.EXIT, 2, 0, 0⟩]).code
      = [⟨.IMOV, 0, 10, 0⟩, ⟨.IMOV, 1, 0, 0⟩, ⟨.NDIV, 2, 0, 1⟩, ⟨.EXIT, 2, 0, 0⟩]
    ∧ 3 ≤ (Demo.handler
        [⟨.IMOV, 0, 10, 0⟩, ⟨.IMOV, 1, 0, 0⟩, ⟨.NDIV, 2, 0, 1⟩, ⟨.EXIT, 2, 0, 0⟩]).registerCount
    ∧ Runner.run Demo.env
        (Demo.handler [⟨.IMOV, 0, 10, 0⟩, ⟨.IMOV, 1, 0, 0⟩, ⟨.NDIV, 2, 0, 1⟩, ⟨.EXIT, 2, 0, 0⟩])
        (Runner.create Demo.env
          (Demo.handler [⟨.IMOV, 0, 10, 0⟩, ⟨.IMOV, 1, 0, 0⟩, ⟨.NDIV, 2, 0, 1⟩, ⟨.EXIT, 2, 0, 0⟩]))
        (9 + 3)
      = .fault :=
  ⟨rfl, by decide,
    run_division_by_zero_faults Demo.env
      (Demo.handler [⟨.IMOV, 0, 10, 0⟩, ⟨.IMOV, 1, 0, 0⟩, ⟨.NDIV, 2, 0, 1⟩, ⟨.EXIT, 2, 0, 0⟩]) 9 rfl
      (by decide)⟩

/-! ## Branches -/

/-- C6: `JN A,B` continues at the absolute index B of the code when register A
is non-zero and at the instruction after the jump otherwise; `JZ A,B` does so
when register A is zero; neither changes the runner, so no register is
modified. -/
theorem jn_jz_branch (env : Env) (handler : Handler) (s : State) (A B C : Nat) (a : Register)
    (ha : s.runner.data_[A]? = some a) :
    (handler.code[s.pc]? = some ⟨.JN, A, B, C⟩ →
      step env handler s = .next { s with
        pc := if a ≠ 0 then B else s.pc + 1, ticks := (s.ticks + 1) % 2 ^ 64 })
    ∧ (handler.code[s.pc]? = some ⟨.JZ, A, B, C⟩ →
      step env handler s = .next { s with
        pc := if a = 0 then B else s.pc + 1, ticks := (s.ticks + 1) % 2 ^ 64 }) := by
  constructor <;> intro hinstr <;> rw [step_of_fetch env handler s _ hinstr] <;>
    by_cases hz : a = 0 <;>
    simp [exec, State.reg, ha, hz, Outcome.ofOption, State.jump, State.advance]

theorem jn_jz_branch_witness :
    (Demo.state [0, 5, 0, 0] 0).runner.data_[1]? = some 5
    ∧ step Demo.env (Demo.handler [⟨.JN, 1, 2, 0⟩, ⟨.EXIT, 0, 0, 0⟩, ⟨.EXIT, 1, 0, 0⟩])
        (Demo.state [0, 5, 0, 0] 0)
      = .next { Demo.state [0, 5, 0, 0] 0 with pc := 2, ticks := 1 } :=
  ⟨rfl,
    (jn_jz_branch Demo.env (Demo.handler [⟨.JN, 1, 2, 0⟩, ⟨.EXIT, 0, 0, 0⟩, ⟨.EXIT, 1, 0, 0⟩])
      (Demo.state [0, 5, 0, 0] 0) 1 2 0 5 rfl).1 rfl⟩

/-! ## Match tables and native functions -/

/-- C7: every SMATCH instruction with operands A (string register) and B
(match-table index) continues at the absolute index that match table B of the
program returns when evaluated on the string pointer held in register A with
the runner as context; the runner is left exactly as the matcher left it, so
the instruction itself modifies no register: when the matcher keeps the
register file, the register file after the instruction is the one before. -/
theorem smatch_jumps_to_result (env : Env) (handler : Handler) (s : State)
    (op : Opcode) (A B C : Nat) (m : Match) (p : Register)
    (hop : op = .SMATCHEQ ∨ op = .SMATCHBEG ∨ op = .SMATCHEND ∨ op = .SMATCHR)
    (hinstr : handler.code[s.pc]? = some ⟨op, A, B, C⟩)
    (hm : handler.program.matchTables[B]? = some m)
    (hp : s.runner.data_[A]? = some p) :
    step env handler s = .next { s with
      runner := (m.evaluate p s.runner).2, pc := (m.evaluate p s.runner).1,
      ticks := (s.ticks + 1) % 2 ^ 64 }
    ∧ ((m.evaluate p s.runner).2.data_ = s.runner.data_ →
        ∀ s1, step env handler s = .next s1 → s1.runner.data_ = s.runner.data_) := by
  have hs : step env handler s = .next { s with
      runner := (m.evaluate p s.runner).2, pc := (m.evaluate p s.runner).1,
      ticks := (s.ticks + 1) % 2 ^ 64 } := by
    rw [step_of_fetch env handler s _ hinstr]
    rcases hop with h | h | h | h <;> subst h <;>
      simp [exec, State.reg, hm, hp, Outcome.ofOption, State.jump]
  refine ⟨hs, ?_⟩
  intro hkeep s1 h1
  rw [hs] at h1
  cases h1
  exact hkeep

theorem smatch_jumps_to_result_witness :
    (Opcode.SMATCHBEG = .SMATCHEQ ∨ Opcode.SMATCHBEG = .SMATCHBEG ∨ Opcode.SMATCHBEG = .SMATCHEND
      ∨ Opcode.SMATCHBEG = .SMATCHR)
    ∧ (Demo.handler [⟨.SMATCHBEG, 1, 0, 0⟩, ⟨.EXIT, 0, 0, 0⟩, ⟨.EXIT, 1, 0, 0⟩]).code[
        (Demo.state [0, 10, 0, 0] 0).pc]? = some ⟨.SMATCHBEG, 1, 0, 0⟩
    ∧ (Demo.state [0, 10, 0, 0] 0).runner.data_[1]? = some 10
    ∧ step Demo.env (Demo.handler [⟨.SMATCHBEG, 1, 0, 0⟩, ⟨.EXIT, 0, 0, 0⟩, ⟨.EXIT, 1, 0, 0⟩])
        (Demo.state [0, 10, 0, 0] 0)
      = .next { Demo.state [0, 10, 0, 0] 0 with pc := 2, ticks := 1 } :=
  ⟨Or.inr (Or.inl rfl), rfl, rfl,
    (smatch_jumps_to_result Demo.env
      (Demo.handler [⟨.SMATCHBEG, 1, 0, 0⟩, ⟨.EXIT, 0, 0, 0⟩, ⟨.EXIT, 1, 0, 0⟩])
      (Demo.state [0, 10, 0, 0] 0) .SMATCHBEG 1 0 0 { evaluate := fun _ r => (2, r) } 10
      (Or.inr (Or.inl rfl)) rfl rfl rfl).1⟩

/-- C8: a CALL instruction (A = native function id, B = argc, C = base
register) leaves the runner exactly as one invocation of native function A of
the program on the parameter view (argc = B, argv = the registers from index
C, the runner) leaves it, and the next instruction is dispatched whatever the
native left in register C. -/
theorem call_invokes_and_continues (env : Env) (handler : Handler) (s : State)
    (id argc base : Nat) (native : NativeCallback)
    (hinstr : handler.code[s.pc]? = some ⟨.CALL, id, argc, base⟩)
    (hnative : handler.program.nativeFunctions[id]? = some native) :
    step env handler s = .next { s with
      runner := native.invoke ⟨argc, base⟩ s.runner, pc := s.pc + 1,
      ticks := (s.ticks + 1) % 2 ^ 64 } := by
  rw [step_of_fetch env handler s _ hinstr]
  simp [exec, hnative, Outcome.ofOption, State.advance]

theorem call_invokes_and_continues_witness :
    (Demo.handler [⟨.CALL, 0, 2, 1⟩, ⟨.EXIT, 0, 0, 0⟩]).code[(Demo.state [0, 0, 0, 0] 0).pc]?
      = some ⟨.CALL, 0, 2, 1⟩
    ∧ (Demo.handler [⟨.CALL, 0, 2, 1⟩, ⟨.EXIT, 0, 0, 0⟩]).program.nativeFunctions[0]?
      = some { invoke := fun p r => { r with data_ := r.data_.set p.argv 4 } }
    ∧ step Demo.env (Demo.handler [⟨.CALL, 0, 2, 1⟩, ⟨.EXIT, 0, 0, 0⟩]) (Demo.state [0, 0, 0, 0] 0)
      = .next { Demo.state [0, 4, 0, 0] 0 with pc := 1, ticks := 1 } :=
  ⟨rfl, rfl,
    call_invokes_and_continues Demo.env (Demo.handler [⟨.CALL, 0, 2, 1⟩, ⟨.EXIT, 0, 0, 0⟩])
      (Demo.state [0, 0, 0, 0] 0) 0 2 1
      { invoke := fun p r => { r with data_ := r.data_.set p.argv 4 } } rfl rfl⟩

/-! ## Strings -/

theorem derefString_push_fresh (program : Program) (r : Runner) (p : Nat) (value : FlowString)
    (hfresh : Runner.derefString program r p = none) :
    Runner.derefString program { r with stringGarbage_ := r.stringGarbage_ ++ [(p, value)] } p
      = some value := by
  simp only [Runner.derefString, List.lookup_append] at hfresh ⊢
  cases hg : List.lookup p r.stringGarbage_ with
  | none => simp [List.lookup]
  | some x => simp [hg] at hfresh

theorem derefString_push_old (program : Program) (r : Runner) (p q : Nat) (value x : FlowString)
    (hfresh : Runner.derefString program r p = none)
    (hq : Runner.derefString program r q = some x) :
    Runner.derefString program { r with stringGarbage_ := r.stringGarbage_ ++ [(p, value)] } q
      = some x := by
  have hne : q ≠ p := by
    intro h
    rw [h, hfresh] at hq
    cases hq
  simp only [Runner.derefString, List.lookup_append] at hq ⊢
  cases hg : List.lookup q r.stringGarbage_ with
  | none =>
    rw [hg] at hq
    have hbeq : (q == p) = false := by simpa using hne
    simpa [List.lookup, hbeq] using hq
  | some y =>
    rw [hg] at hq
    simpa using hq

/-- C9: for all strings `a` and `b` held in registers B and C, `SADD A,B,C`
stores in register A the address of a newly created string, at which no string
lived before, holding the bytes of `a` followed by those of `b`, of length
`|a| + |b|`; the strings `a` and `b` are still found, unchanged, where
registers B and C pointed; execution continues with the next instruction. -/
theorem sadd_concatenates (env : Env) (handler : Handler) (s : State) (A B C : Nat)
    (pb pc : Register) (a b : FlowString)
    (hinstr : handler.code[s.pc]? = some ⟨.SADD, A, B, C⟩)
    (hA : A < s.runner.data_.length)
    (hB : s.runner.data_[B]? = some pb)
    (hC : s.runner.data_[C]? = some pc)
    (ha : Runner.derefString handler.program s.runner pb = some a)
    (hb : Runner.derefString handler.program s.runner pc = some b)
    (hfresh : Runner.derefString handler.program s.runner (env.alloc s.runner.allocCount) = none) :
    ∃ s1, step env handler s = .next s1
      ∧ s1.pc = s.pc + 1
      ∧ s1.runner.data_ = s.runner.data_.set A (env.alloc s.runner.allocCount)
      ∧ State.str handler.program s1 A = some (a ++ b)
      ∧ (a ++ b).length = a.length + b.length
      ∧ Runner.derefString handler.program s1.runner pb = some a
      ∧ Runner.derefString handler.program s1.runner pc = some b := by
  refine ⟨{ s with
      runner := { s.runner with
        data_ := s.runner.data_.set A (env.alloc s.runner.allocCount),
        stringGarbage_ := s.runner.stringGarbage_ ++ [(env.alloc s.runner.allocCount, a ++ b)] },
      pc := s.pc + 1, ticks := (s.ticks + 1) % 2 ^ 64 }, ?_, rfl, rfl, ?_, by simp, ?_, ?_⟩
  · rw [step_of_fetch env handler s _ hinstr]
    simp [exec, State.str, State.reg, hB, hC, ha, hb, Outcome.ofOption, Runner.catString,
      State.assign, hA]
  · have h := derefString_push_fresh handler.program s.runner _ (a ++ b) hfresh
    simp only [State.str, State.reg, List.getElem?_set_self hA, Option.bind_some]
    simpa [Runner.derefString] using h
  · have h := derefString_push_old handler.program s.runner _ pb (a ++ b) a hfresh ha
    simpa [Runner.derefString] using h
  · have h := derefString_push_old handler.program s.runner _ pc (a ++ b) b hfresh hb
    simpa [Runner.derefString] using h

theorem sadd_concatenates_witness :
    (Demo.handler [⟨.SADD, 2, 0, 1⟩, ⟨.EXIT, 0, 0, 0⟩]).code[(Demo.state [10, 11, 0, 0] 0).pc]?
      = some ⟨.SADD, 2, 0, 1⟩
    ∧ 2 < (Demo.state [10, 11, 0, 0] 0).runner.data_.length
    ∧ Runner.derefString Demo.program (Demo.state [10, 11, 0, 0] 0).runner 10
      = some [104, 101, 108, 108, 111]
    ∧ Runner.derefString Demo.program (Demo.state [10, 11, 0, 0] 0).runner 11 = some [104, 101]
    ∧ Runner.derefString Demo.program (Demo.state [10, 11, 0, 0] 0).runner
        (Demo.env.alloc (Demo.state [10, 11, 0, 0] 0).runner.allocCount) = none
    ∧ ∃ s1, step Demo.env (Demo.handler [⟨.SADD, 2, 0, 1⟩, ⟨.EXIT, 0, 0, 0⟩])
          (Demo.state [10, 11, 0, 0] 0) = .next s1
      ∧ s1.pc = (Demo.state [10, 11, 0, 0] 0).pc + 1
      ∧ s1.runner.data_ = (Demo.state [10, 11, 0, 0] 0).runner.data_.set 2
          (Demo.env.alloc (Demo.state [10, 11, 0, 0] 0).runner.allocCount)
      ∧ State.str Demo.program s1 2 = some ([104, 101, 108, 108, 111] ++ [104, 101])
      ∧ ([104, 101, 108, 108, 111] ++ [104, 101] : FlowString).length
          = ([104, 101, 108, 108, 111] : FlowString).length + ([104, 101] : FlowString).length
      ∧ Runner.derefString Demo.program s1.runner 10 = some [104, 101, 108, 108, 111]
      ∧ Runner.derefString Demo.program s1.runner 11 = some [104, 101] :=
  ⟨rfl, by decide, by decide, by decide, by decide,
    sadd_concatenates Demo.env (Demo.handler [⟨.SADD, 2, 0, 1⟩, ⟨.EXIT, 0, 0, 0⟩])
      (Demo.state [10, 11, 0, 0] 0) 2 0 1 10 11 [104, 101, 108, 108, 111] [104, 101]
      rfl (by decide) rfl rfl (by decide) (by decide) (by decide)⟩

/-- C10: for all strings `a` (in register B) and `b` (in register C),
`SCMPBEG A,B,C` stores 1 in register A if and only if `a` starts with `b`, and
0 otherwise; `SCMPEND A,B,C` stores 1 if and only if `a` ends with `b`, and 0
otherwise; both continue with the next instruction. -/
theorem scmpbeg_scmpend_test (env : Env) (handler : Handler) (s : State) (A B C : Nat)
    (a b : FlowString)
    (hA : A < s.runner.data_.length)
    (ha : State.str handler.program s B = some a)
    (hb : State.str handler.program s C = some b) :
    (handler.code[s.pc]? = some ⟨.SCMPBEG, A, B, C⟩ →
      ∃ v, step env handler s = .next { s with
          runner := { s.runner with data_ := s.runner.data_.set A v },
          pc := s.pc + 1, ticks := (s.ticks + 1) % 2 ^ 64 }
        ∧ (v = 1 ↔ ∃ t, a = b ++ t) ∧ (v = 0 ↔ ¬ ∃ t, a = b ++ t))
    ∧ (handler.code[s.pc]? = some ⟨.SCMPEND, A, B, C⟩ →
      ∃ v, step env handler s = .next { s with
          runner := { s.runner with data_ := s.runner.data_.set A v },
          pc := s.pc + 1, ticks := (s.ticks + 1) % 2 ^ 64 }
        ∧ (v = 1 ↔ ∃ t, a = t ++ b) ∧ (v = 0 ↔ ¬ ∃ t, a = t ++ b)) := by
  have hB : ∀ t, State.str handler.program { s with ticks := t } B = some a := fun _ => ha
  have hC : ∀ t, State.str handler.program { s with ticks := t } C = some b := fun _ => hb
  have hpre : (∃ t, a = b ++ t) ↔ b.isPrefixOf a = true := by
    rw [List.isPrefixOf_iff_prefix]
    constructor
    · rintro ⟨t, rfl⟩
      exact List.prefix_append b t
    · rintro ⟨t, rfl⟩
      exact ⟨t, rfl⟩
  have hsuf : (∃ t, a = t ++ b) ↔ b.isSuffixOf a = true := by
    rw [List.isSuffixOf_iff_suffix]
    constructor
    · rintro ⟨t, rfl⟩
      exact List.suffix_append t b
    · rintro ⟨t, rfl⟩
      exact ⟨t, rfl⟩
  constructor
  · intro hinstr
    refine ⟨boolToRegister (Buffer.begins a b), ?_, ?_, ?_⟩
    · rw [step_of_fetch env handler s _ hinstr]
      simp [exec, hB, hC, Outcome.ofOption, State.assign, hA]
    · rw [hpre]
      cases h : b.isPrefixOf a <;> simp [boolToRegister, Buffer.begins, h]
    · rw [hpre]
      cases h : b.isPrefixOf a <;> simp [boolToRegister, Buffer.begins, h]
  · intro hinstr
    refine ⟨boolToRegister (Buffer.ends a b), ?_, ?_, ?_⟩
    · rw [step_of_fetch env handler s _ hinstr]
      simp [exec, hB, hC, Outcome.ofOption, State.assign, hA]
    · rw [hsuf]
      cases h : b.isSuffixOf a <;> simp [boolToRegister, Buffer.ends, h]
    · rw [hsuf]
      cases h : b.isSuffixOf a <;> simp [boolToRegister, Buffer.ends, h]

theorem scmpbeg_scmpend_test_witness :
    2 < (Demo.state [10, 11, 7, 0] 0).runner.data_.length
    ∧ State.str Demo.program (Demo.state [10, 11, 7, 0] 0) 0 = some [104, 101, 108, 108, 111]
    ∧ State.str Demo.program (Demo.state [10, 11, 7, 0] 0) 1 = some [104, 101]
    ∧ (Demo.handler [⟨.SCMPBEG, 2, 0, 1⟩, ⟨.EXIT, 0, 0, 0⟩]).code[
        (Demo.state [10, 11, 7, 0] 0).pc]? = some ⟨.SCMPBEG, 2, 0, 1⟩
    ∧ ∃ v, step Demo.env (Demo.handler [⟨.SCMPBEG, 2, 0, 1⟩, ⟨.EXIT, 0, 0, 0⟩])
          (Demo.state [10, 11, 7, 0] 0)
        = .next { Demo.state [10, 11, 7, 0] 0 with
            runner := { (Demo.state [10, 11, 7, 0] 0).runner with
              data_ := (Demo.state [10, 11, 7, 0] 0).runner.data_.set 2 v },
            pc := (Demo.state [10, 11, 7, 0] 0).pc + 1,
            ticks := ((Demo.state [10, 11, 7, 0] 0).ticks + 1) % 2 ^ 64 }
      ∧ (v = 1 ↔ ∃ t, ([104, 101, 108, 108, 111] : FlowString) = [104, 101] ++ t)
      ∧ (v = 0 ↔ ¬ ∃ t, ([104, 101, 108, 108, 111] : FlowString) = [104, 101] ++ t) :=
  ⟨by decide, by decide, by decide, rfl,
    (scmpbeg_scmpend_test Demo.env (Demo.handler [⟨.SCMPBEG, 2, 0, 1⟩, ⟨.EXIT, 0, 0, 0⟩])
      (Demo.state [10, 11, 7, 0] 0) 2 0 1 [104, 101, 108, 108, 111] [104, 101]
      (by decide) (by decide) (by decide)).1 rfl⟩

theorem digit_byte (d : Nat) (h : d < 10) :
    (48 ≤ UInt8.ofNat (48 + d) && UInt8.ofNat (48 + d) ≤ 57) = true
    ∧ (UInt8.ofNat (48 + d)).toNat - 48 = d
    ∧ (UInt8.ofNat (48 + d) == 45) = false
    ∧ (UInt8.ofNat (48 + d) == 43) = false
    ∧ Buffer.isSpace (UInt8.ofNat (48 + d)) = false := by
  interval_cases d <;> decide

theorem digitsValue_decimalDigits (fuel : Nat) :
    ∀ (n : Nat) (rest : FlowString) (acc : Nat), n < fuel →
      Buffer.digitsValue (decimalDigits fuel n ++ rest) acc
        = Buffer.digitsValue rest (acc * 10 ^ (decimalDigits fuel n).length + n) := by
  induction fuel with
  | zero => intro n rest acc h; omega
  | succ f ih =>
    intro n rest acc h
    by_cases hn : n < 10
    · have hd := digit_byte n hn
      simp [decimalDigits, hn, Buffer.digitsValue, hd.1, hd.2.1]
    · have hd := digit_byte (n % 10) (Nat.mod_lt _ (by norm_num))
      have hlt : n / 10 < f := by omega
      simp only [decimalDigits, hn, if_false, List.append_assoc, List.length_append,
        List.length_singleton]
      rw [ih (n / 10) _ acc hlt]
      simp only [List.singleton_append, Buffer.digitsValue, hd.1, hd.2.1, if_true]
      congr 1
      rw [pow_succ]
      have := Nat.div_add_mod n 10
      nlinarith [Nat.div_add_mod n 10]

theorem decimalDigits_head (fuel : Nat) :
    ∀ n : Nat, n < fuel → ∃ d cs, d < 10 ∧ decimalDigits fuel n = UInt8.ofNat (48 + d) :: cs := by
  induction fuel with
  | zero => intro n h; omega
  | succ f ih =>
    intro n h
    by_cases hn : n < 10
    · exact ⟨n, [], hn, by simp [decimalDigits, hn]⟩
    · obtain ⟨d, cs, hd, hcs⟩ := ih (n / 10) (by omega)
      exact ⟨d, cs ++ [UInt8.ofNat (48 + n % 10)], hd, by simp [decimalDigits, hn, hcs]⟩

theorem toInt_fmtInt (n : Int) (hlo : -(2 ^ 63) ≤ n) (hhi : n < 2 ^ 63) :
    Buffer.toInt (fmtInt n) = n := by
  have hval : ∀ m : Nat, Buffer.digitsValue (fmtNat m) 0 = m := by
    intro m
    have h := digitsValue_decimalDigits (m + 1) m [] 0 (by omega)
    simpa [fmtNat, Buffer.digitsValue] using h
  have hsat : Buffer.saturate n = n := by
    unfold Buffer.saturate
    rw [if_neg (not_lt.mpr hlo), if_neg (not_lt.mpr (Int.le_sub_one_of_lt hhi))]
  obtain ⟨d, cs, hd, hcs⟩ := decimalDigits_head (n.natAbs + 1) n.natAbs (by omega)
  have hb := digit_byte d hd
  by_cases hneg : n < 0
  · have h45 : Buffer.isSpace 45 = false := by decide
    have hn : -((n.natAbs : Nat) : Int) = n := by omega
    simp [fmtInt, hneg, Buffer.toInt, List.dropWhile, h45, hval]
    rw [abs_of_neg hneg, neg_neg, hsat]
  · have hn : ((n.natAbs : Nat) : Int) = n := by omega
    have hv := hval n.natAbs
    rw [fmtNat, hcs] at hv
    simp only [fmtInt, hneg, if_false, fmtNat, hcs, Buffer.toInt, List.dropWhile, hb.2.2.2.2,
      hb.2.2.1, hb.2.2.2.1, hv, hn, hsat]
    simp

theorem fmtInt_length_pos (n : Int) : 0 < (fmtInt n).length := by
  obtain ⟨d, cs, _, hcs⟩ := decimalDigits_head (n.natAbs + 1) n.natAbs (by omega)
  unfold fmtInt fmtNat
  split_ifs <;> simp [hcs]

theorem toRegister_of_modEq (n : Int) (m : Nat) (h : n ≡ (m : Int) [ZMOD 2 ^ 64]) :
    toRegister n = m % 2 ^ 64 := by
  unfold toRegister
  rw [h]
  have : ((m : Int) % 2 ^ 64) = ((m % 2 ^ 64 : Nat) : Int) := by push_cast; rfl
  rw [this, Int.toNat_natCast]

theorem toNumber_toRegister (n : Int) (hlo : -(2 ^ 63) ≤ n) (hhi : n < 2 ^ 63) :
    toNumber (toRegister n) = n := by
  have hm0 : 0 ≤ n % 2 ^ 64 := Int.emod_nonneg _ (by norm_num)
  have hm1 : n % 2 ^ 64 < 2 ^ 64 := Int.emod_lt_of_pos _ (by norm_num)
  have hcast : ((n % 2 ^ 64).toNat : Int) = n % 2 ^ 64 := Int.toNat_of_nonneg hm0
  have hmod : (n % 2 ^ 64).toNat % 2 ^ 64 = (n % 2 ^ 64).toNat := Nat.mod_eq_of_lt (by omega)
  have key : ∀ m : Nat, (m : Int) = n % 2 ^ 64 →
      (if m < 2 ^ 63 then (m : Int) else (m : Int) - 2 ^ 64) = n := by
    intro m hm
    split_ifs with h <;> omega
  unfold toNumber toRegister
  rw [hmod]
  exact key _ hcast

/-- C11: for every 64-bit signed integer `n` (zero, negative, INT64_MIN and
INT64_MAX included), `I2S A,B` on a register B holding `n` followed by
`S2I D,A` leaves `n` in register D: after the two instructions register A
points to the decimal text of `n` and register D holds `n` again. -/
theorem i2s_s2i_roundtrip (env : Env) (handler : Handler) (s : State) (A B D C1 C2 : Nat)
    (n : Int)
    (hlo : -(2 ^ 63) ≤ n) (hhi : n < 2 ^ 63)
    (hI2S : handler.code[s.pc]? = some ⟨.I2S, A, B, C1⟩)
    (hS2I : handler.code[s.pc + 1]? = some ⟨.S2I, D, A, C2⟩)
    (hB : s.runner.data_[B]? = some (toRegister n))
    (hA : A < s.runner.data_.length) (hD : D < s.runner.data_.length)
    (hfresh : Runner.derefString handler.program s.runner (env.alloc s.runner.allocCount) = none) :
    ∃ s1 s2, step env handler s = .next s1 ∧ step env handler s1 = .next s2
      ∧ reach env handler 2 s = some s2
      ∧ s2.pc = s.pc + 2
      ∧ State.str handler.program s1 A = some (fmtInt n)
      ∧ s2.runner.data_[D]? = some (toRegister n)
      ∧ State.num s2 D = some n := by
  have hnum := toNumber_toRegister n hlo hhi
  have hpos := fmtInt_length_pos n
  let r1 : Runner := { s.runner with
    data_ := s.runner.data_.set A (env.alloc s.runner.allocCount),
    stringGarbage_ := s.runner.stringGarbage_ ++ [(env.alloc s.runner.allocCount, fmtInt n)] }
  let s1 : State := { s with runner := r1, pc := s.pc + 1, ticks := (s.ticks + 1) % 2 ^ 64 }
  let s2 : State := { s1 with
    runner := { r1 with data_ := r1.data_.set D (toRegister n) },
    pc := s.pc + 2, ticks := (s1.ticks + 1) % 2 ^ 64 }
  have h1 : step env handler s = .next s1 := by
    rw [step_of_fetch env handler s _ hI2S]
    simp [exec, State.num, State.reg, hB, hnum, hpos, Outcome.ofOption, State.assignString,
      Runner.newString, State.assign, hA, s1, r1]
  have hstr : ∀ t, State.str handler.program { s1 with ticks := t } A = some (fmtInt n) := by
    intro t
    have h := derefString_push_fresh handler.program s.runner _ (fmtInt n) hfresh
    simp only [State.str, State.reg, s1, r1, List.getElem?_set_self hA, Option.bind_some]
    simpa [Runner.derefString] using h
  have hD1 : D < s1.runner.data_.length := by simpa [s1, r1] using hD
  have h2 : step env handler s1 = .next s2 := by
    have hf : handler.code[s1.pc]? = some ⟨.S2I, D, A, C2⟩ := hS2I
    rw [step_of_fetch env handler s1 _ hf]
    simp [exec, hstr, toInt_fmtInt n hlo hhi, Outcome.ofOption, State.assign, hD1, s2]
    simp [s1, r1] at hD1 ⊢
    exact hD1
  refine ⟨s1, s2, h1, h2, ?_, rfl, hstr s1.ticks, ?_, ?_⟩
  · simp [reach, h1, h2]
  · simp [s2, List.getElem?_set_self hD1]
  · simp [State.num, State.reg, s2, List.getElem?_set_self hD1, hnum]

theorem i2s_s2i_roundtrip_witness :
    -(2 ^ 63) ≤ (-9223372036854775808 : Int) ∧ (-9223372036854775808 : Int) < 2 ^ 63
    ∧ (Demo.handler [⟨.I2S, 1, 0, 0⟩, ⟨.S2I, 2, 1, 0⟩, ⟨.EXIT, 0, 0, 0⟩]).code[
        (Demo.state [9223372036854775808, 0, 0, 0] 0).pc]? = some ⟨.I2S, 1, 0, 0⟩
    ∧ (Demo.handler [⟨.I2S, 1, 0, 0⟩, ⟨.S2I, 2, 1, 0⟩, ⟨.EXIT, 0, 0, 0⟩]).code[
        (Demo.state [9223372036854775808, 0, 0, 0] 0).pc + 1]? = some ⟨.S2I, 2, 1, 0⟩
    ∧ (Demo.state [9223372036854775808, 0, 0, 0] 0).runner.data_[0]?
        = some (toRegister (-9223372036854775808))
    ∧ ∃ s1 s2,
        step Demo.env (Demo.handler [⟨.I2S, 1, 0, 0⟩, ⟨.S2I, 2, 1, 0⟩, ⟨.EXIT, 0, 0, 0⟩])
          (Demo.state [9223372036854775808, 0, 0, 0] 0) = .next s1
      ∧ step Demo.env (Demo.handler [⟨.I2S, 1, 0, 0⟩, ⟨.S2I, 2, 1, 0⟩, ⟨.EXIT, 0, 0, 0⟩]) s1
          = .next s2
      ∧ reach Demo.env (Demo.handler [⟨.I2S, 1, 0, 0⟩, ⟨.S2I, 2, 1, 0⟩, ⟨.EXIT, 0, 0, 0⟩]) 2
          (Demo.state [9223372036854775808, 0, 0, 0] 0) = some s2
      ∧ s2.pc = (Demo.state [9223372036854775808, 0, 0, 0] 0).pc + 2
      ∧ State.str Demo.program s1 1 = some (fmtInt (-9223372036854775808))
      ∧ s2.runner.data_[2]? = some (toRegister (-9223372036854775808))
      ∧ State.num s2 2 = some (-9223372036854775808) :=
  ⟨by decide, by decide, rfl, rfl, by decide,
    i2s_s2i_roundtrip Demo.env (Demo.handler [⟨.I2S, 1, 0, 0⟩, ⟨.S2I, 2, 1, 0⟩, ⟨.EXIT, 0, 0, 0⟩])
      (Demo.state [9223372036854775808, 0, 0, 0] 0) 1 0 2 0 0 (-9223372036854775808)
      (by decide) (by decide) rfl rfl (by decide) (by decide) (by decide) (by decide)⟩

/-! ## Arithmetic and shifts -/

theorem toNumber_small (m : Nat) (h : m < 2 ^ 63) : toNumber m = (m : Int) := by
  have h64 : m < 2 ^ 64 := lt_of_lt_of_le h (by norm_num)
  unfold toNumber
  rw [Nat.mod_eq_of_lt h64, if_pos h]

theorem toRegister_natCast (m : Nat) (h : m < 2 ^ 64) : toRegister (m : Int) = m := by
  have h1 := toRegister_of_modEq (m : Int) m rfl
  rwa [Nat.mod_eq_of_lt h] at h1

/-- C14 (as stated, refuted): with a regular-expression context that holds no
capture group (no SREGMATCH has matched) and the group index 0 in register 1,
`SREGGROUP r2, r1` does not store the empty string and go on: it faults; so
it does with the single group "he" and the group index 1. -/
theorem sreggroup_out_of_bounds_fault_at_zero :
    step Demo.env (Demo.handler [⟨.SREGGROUP, 2, 1, 0⟩, ⟨.EXIT, 0, 0, 0⟩])
        (Demo.regexState [] [0, 0, 0, 0] 0) = .fault
    ∧ step Demo.env (Demo.handler [⟨.SREGGROUP, 2, 1, 0⟩, ⟨.EXIT, 0, 0, 0⟩])
        (Demo.regexState [[104, 101]] [0, 1, 0, 0] 0) = .fault := by
  constructor <;> decide

/-- C14 (amended): for every group index N in register B that is out of bounds
for the match result of the runner's regular-expression context (as it is for
every N while no group has been captured), `SREGGROUP A,B` stores nothing in
register A and does not continue: `at(N)` throws and the run ends in a fault;
for an index within bounds it stores a new string holding the bytes of group N
and continues with the next instruction. -/
theorem sreggroup_at_throws (env : Env) (handler : Handler) (s : State) (A B C : Nat)
    (N : Register) (cx : RegExpContext)
    (hinstr : handler.code[s.pc]? = some ⟨.SREGGROUP, A, B, C⟩)
    (hN : s.runner.data_[B]? = some N)
    (hcx : s.runner.userdata_ = some cx) :
    (cx.regexMatch.length ≤ N →
      step env handler s = .fault ∧ ∀ fuel, runFrom env handler (fuel + 1) s = .fault)
    ∧ (∀ group, cx.regexMatch[N]? = some group →
      step env handler s
        = State.assignString env { s with ticks := (s.ticks + 1) % 2 ^ 64 } A group) := by
  have hf := step_of_fetch env handler s _ hinstr
  constructor
  · intro hoob
    have hnone : cx.regexMatch[N]? = none := List.getElem?_eq_none hoob
    have hs : step env handler s = .fault := by
      rw [hf]
      simp [exec, State.reg, hN, hcx, hnone, Outcome.ofOption]
    refine ⟨hs, ?_⟩
    intro fuel
    simp [runFrom, hs]
  · intro group hgroup
    rw [hf]
    simp [exec, State.reg, hN, hcx, hgroup, Outcome.ofOption]

theorem sreggroup_at_throws_witness :
    (Demo.handler [⟨.SREGGROUP, 2, 1, 0⟩, ⟨.EXIT, 0, 0, 0⟩]).code[
        (Demo.regexState [[104, 101]] [0, 5, 0, 0] 0).pc]? = some ⟨.SREGGROUP, 2, 1, 0⟩
    ∧ (Demo.regexState [[104, 101]] [0, 5, 0, 0] 0).runner.data_[1]? = some 5
    ∧ (Demo.regexState [[104, 101]] [0, 5, 0, 0] 0).runner.userdata_
        = some { regexMatch := [[104, 101]] }
    ∧ ({ regexMatch := [[104, 101]] } : RegExpContext).regexMatch.length ≤ 5
    ∧ step Demo.env (Demo.handler [⟨.SREGGROUP, 2, 1, 0⟩, ⟨.EXIT, 0, 0, 0⟩])
        (Demo.regexState [[104, 101]] [0, 5, 0, 0] 0) = .fault :=
  ⟨rfl, rfl, rfl, by decide,
    ((sreggroup_at_throws Demo.env (Demo.handler [⟨.SREGGROUP, 2, 1, 0⟩, ⟨.EXIT, 0, 0, 0⟩])
      (Demo.regexState [[104, 101]] [0, 5, 0, 0] 0) 2 1 0 5 { regexMatch := [[104, 101]] }
      rfl rfl rfl).1 (by decide)).1⟩

end FlowVM

/-! ## The native callback registry -/

namespace FlowBackend

theorem toInt32_small (n : Nat) (h : n < 2 ^ 31) : (toInt32 n).toNat = n := by
  unfold toInt32
  have : ((n : Int) + 2 ^ 31) % 2 ^ 32 - 2 ^ 31 = n := by omega
  rw [this, Int.toNat_natCast]

theorem find_eq_findFrom (self : FlowBackend) (name : String)
    (hsmall : self.callbacks_.length < 2 ^ 31) :
    self.find name = findFrom name self.callbacks_ 0 := by
  unfold find
  simp only [toInt32_small _ hsmall, List.take_length]

theorem findFrom_spec (name : String) :
    ∀ (l : List Callback) (start : Nat),
      (∀ i : Nat, findFrom name l start = ((start + i : Nat) : Int) ↔
        ∃ cb, l[i]? = some cb ∧ cb.name = name
          ∧ ∀ j cb', j < i → l[j]? = some cb' → cb'.name ≠ name)
      ∧ (findFrom name l start = -1 ↔ ∀ cb ∈ l, cb.name ≠ name) := by
  intro l
  induction l with
  | nil =>
    intro start
    constructor
    · intro i
      simp only [findFrom, List.getElem?_nil]
      constructor
      · intro h
        omega
      · rintro ⟨cb, h, _⟩
        cases h
    · simp [findFrom]
  | cons c rest ih =>
    intro start
    by_cases hc : c.name = name
    · constructor
      · intro i
        simp only [findFrom, hc, if_true]
        constructor
        · intro h
          have hi : i = 0 := by omega
          subst hi
          exact ⟨c, by simp, hc, by intro j cb' hj; omega⟩
        · rintro ⟨cb, _, _, hmin⟩
          rcases i with _ | i
          · rfl
          · exact absurd hc (hmin 0 c (by omega) (by simp))
      · simp only [findFrom, hc, if_true]
        constructor
        · intro h
          omega
        · intro h
          exact absurd hc (h c (List.mem_cons_self _ _))
    · obtain ⟨ih1, ih2⟩ := ih (start + 1)
      constructor
      · intro i
        simp only [findFrom, hc, if_false]
        rcases i with _ | i
        · constructor
          · intro h
            exfalso
            by_cases hm : ∀ cb ∈ rest, cb.name ≠ name
            · rw [ih2.mpr hm] at h
              omega
            · have hbound : ∀ (l : List Callback) (k : Nat),
                  findFrom name l k = -1 ∨ (k : Int) ≤ findFrom name l k := by
                intro l
                induction l with
                | nil => intro k; left; rfl
                | cons d l ihl =>
                  intro k
                  simp only [findFrom]
                  split_ifs
                  · right; exact le_refl _
                  · rcases ihl (k + 1) with h1 | h1
                    · left; exact h1
                    · right; omega
              rcases hbound rest (start + 1) with h1 | h1
              · rw [h1] at h; omega
              · rw [h] at h1; omega
          · rintro ⟨cb, h1, h2, _⟩
            simp only [List.getElem?_cons_zero, Option.some.injEq] at h1
            subst h1
            exact absurd h2 hc
        · have := ih1 i
          have e : ((start + (i + 1) : Nat) : Int) = ((start + 1 + i : Nat) : Int) := by
            congr 1; omega
          rw [e, this]
          constructor
          · rintro ⟨cb, h1, h2, h3⟩
            refine ⟨cb, by simpa using h1, h2, ?_⟩
            intro j cb' hj hcb'
            rcases j with _ | j
            · simp only [List.getElem?_cons_zero, Option.some.injEq] at hcb'
              subst hcb'
              exact hc
            · exact h3 j cb' (by omega) (by simpa using hcb')
          · rintro ⟨cb, h1, h2, h3⟩
            refine ⟨cb, by simpa using h1, h2, ?_⟩
            intro j cb' hj hcb'
            exact h3 (j + 1) cb' (by omega) (by simpa using hcb')
      · simp only [findFrom, hc, if_false]
        rw [ih2]
        constructor
        · intro h cb hcb
          rcases List.mem_cons.mp hcb with h1 | h1
          · subst h1; exact hc
          · exact h cb h1
        · intro h cb hcb
          exact h cb (List.mem_cons_of_mem _ hcb)


theorem findFrom_cases (name : String) :
    ∀ (l : List Callback) (k : Nat),
      findFrom name l k = -1 ∨ ∃ i, i < l.length ∧ findFrom name l k = ((k + i : Nat) : Int) := by
  intro l
  induction l with
  | nil => intro k; left; rfl
  | cons c rest ih =>
    intro k
    simp only [findFrom]
    split_ifs
    · right
      exact ⟨0, by simp, by simp⟩
    · rcases ih (k + 1) with h | ⟨i, hi, h⟩
      · left; exact h
      · right
        refine ⟨i + 1, by simp [hi], ?_⟩
        rw [h]
        congr 1
        omega

theorem typeFrom_of_first (name : String) :
    ∀ (l : List Callback) (i : Nat) (cb : Callback), l[i]? = some cb → cb.name = name →
      (∀ j cb', j < i → l[j]? = some cb' → cb'.name ≠ name) → typeFrom name l = cb.type := by
  intro l
  induction l with
  | nil => intro i cb h; simp at h
  | cons c rest ih =>
    intro i cb h hn hmin
    rcases i with _ | i
    · simp only [List.getElem?_cons_zero, Option.some.injEq] at h
      subst h
      simp [typeFrom, hn]
    · have hc : c.name ≠ name := hmin 0 c (by omega) (by simp)
      simp only [typeFrom, hc, if_false]
      exact ih i cb (by simpa using h) hn
        (fun j cb' hj hcb' => hmin (j + 1) cb' (by omega) (by simpa using hcb'))

theorem typeFrom_of_absent (name : String) :
    ∀ l : List Callback, (∀ cb ∈ l, cb.name ≠ name) → typeFrom name l = .UNKNOWN := by
  intro l
  induction l with
  | nil => intro _; rfl
  | cons c rest ih =>
    intro h
    have hc : c.name ≠ name := h c (List.mem_cons_self _ _)
    simp only [typeFrom, hc, if_false]
    exact ih (fun cb hcb => h cb (List.mem_cons_of_mem _ hcb))

/-- C17: for every registry (with fewer than `2 ^ 31` callbacks, the range of
the `int` index) and every name, `find(name)` answers the smallest index whose
callback has that name, and -1 if and only if no registered callback has it;
`callbackTypeOf(name)` answers the kind of the callback at that index, and,
the registered kinds being FUNCTION, HANDLER or VARIABLE, UNKNOWN exactly when
`find` answers -1. -/
theorem find_first_index (self : FlowBackend) (name : String)
    (hsmall : self.callbacks_.length < 2 ^ 31) :
    (∀ i : Nat, self.find name = (i : Int) ↔
        ∃ cb, self.callbacks_[i]? = some cb ∧ cb.name = name
          ∧ ∀ j cb', j < i → self.callbacks_[j]? = some cb' → cb'.name ≠ name)
    ∧ (self.find name = -1 ↔ ∀ cb ∈ self.callbacks_, cb.name ≠ name)
    ∧ (self.find name = -1 ∨ ∃ i : Nat, i < self.callbacks_.length ∧ self.find name = (i : Int))
    ∧ (∀ cb, self.at_ (self.find name) = some cb → self.callbackTypeOf name = cb.type)
    ∧ ((∀ cb ∈ self.callbacks_, cb.type ≠ .UNKNOWN) →
        (self.callbackTypeOf name = .UNKNOWN ↔ self.find name = -1)) := by
  have hfind := find_eq_findFrom self name hsmall
  obtain ⟨h1, h2⟩ := findFrom_spec name self.callbacks_ 0
  have hidx : ∀ i : Nat, self.find name = (i : Int) ↔
      ∃ cb, self.callbacks_[i]? = some cb ∧ cb.name = name
        ∧ ∀ j cb', j < i → self.callbacks_[j]? = some cb' → cb'.name ≠ name := by
    intro i
    rw [hfind]
    have := h1 i
    simpa using this
  have hcases : self.find name = -1
      ∨ ∃ i : Nat, i < self.callbacks_.length ∧ self.find name = (i : Int) := by
    rw [hfind]
    rcases findFrom_cases name self.callbacks_ 0 with h | ⟨i, hi, h⟩
    · left; exact h
    · right; exact ⟨i, hi, by simpa using h⟩
  have htype : ∀ cb, self.at_ (self.find name) = some cb → self.callbackTypeOf name = cb.type := by
    intro cb hat
    rcases hcases with h | ⟨i, _, h⟩
    · rw [h] at hat
      simp [at_] at hat
    · obtain ⟨cb0, hcb0, hn, hmin⟩ := (hidx i).mp h
      rw [h] at hat
      simp only [at_, Int.natCast_nonneg, if_true, Int.toNat_natCast] at hat
      rw [hcb0] at hat
      rw [← Option.some.inj hat]
      exact typeFrom_of_first name self.callbacks_ i cb0 hcb0 hn hmin
  refine ⟨hidx, by rw [hfind]; exact h2, hcases, htype, ?_⟩
  intro hkinds
  constructor
  · intro hu
    rcases hcases with h | ⟨i, _, h⟩
    · exact h
    · exfalso
      obtain ⟨cb0, hcb0, hn, hmin⟩ := (hidx i).mp h
      have ht := typeFrom_of_first name self.callbacks_ i cb0 hcb0 hn hmin
      have hmem : cb0 ∈ self.callbacks_ := List.getElem?_mem hcb0
      exact hkinds cb0 hmem (by rw [← ht]; exact hu)
  · intro hm
    rw [hfind] at hm
    exact typeFrom_of_absent name self.callbacks_ (h2.mp hm)

theorem find_first_index_witness :
    ((init 5).registerHandler "b" 7 0).2.callbacks_.length < 2 ^ 31
    ∧ (((init 5).registerHandler "b" 7 0).2.find "b" = ((1 : Nat) : Int) ↔
        ∃ cb, ((init 5).registerHandler "b" 7 0).2.callbacks_[1]? = some cb ∧ cb.name = "b"
          ∧ ∀ j cb', j < 1 → ((init 5).registerHandler "b" 7 0).2.callbacks_[j]? = some cb' →
            cb'.name ≠ "b")
    ∧ ((init 5).registerHandler "b" 7 0).2.find "b" = 1
    ∧ ((init 5).registerHandler "b" 7 0).2.callbackTypeOf "b" = .HANDLER :=
  ⟨by decide, (find_first_index ((init 5).registerHandler "b" 7 0).2 "b" (by decide)).1 1,
    by decide, by decide⟩

theorem registerAll_callbacks (cbs : List Callback) :
    ∀ self : FlowBackend, (self.registerAll cbs).callbacks_ = self.callbacks_ ++ cbs := by
  induction cbs with
  | nil => intro self; simp [registerAll]
  | cons cb rest ih =>
    intro self
    simp [registerAll, ih, registerNative]

/-- C16 (as stated, refuted): registration does not return the id; after the
constructor and the registration of `a`, registering the handler `b` returns
`true` (1 when read as an integer), while `b` is the callback with id 2: the
one `find` answers and `at(2)` reaches. -/
theorem register_returns_true_not_id :
    (((init 5).registerFunction "a" .NUMBER 6 0).2.registerHandler "b" 7 0).1 = true
    ∧ (((init 5).registerFunction "a" .NUMBER 6 0).2.registerHandler "b" 7 0).2.find "b" = 2
    ∧ (((init 5).registerFunction "a" .NUMBER 6 0).2.registerHandler "b" 7 0).2.at_ 2
      = some { type := .HANDLER, returnType := .BOOLEAN, name := "b", callback := 7,
               userdata := 0 } := by
  decide

/-- C16 (amended): registerFunction, registerHandler and registerVariable
return `true`, not an id; the id of a callback is implicit and dense: the
callback registered on a registry of `n` callbacks is stored at index `n`, the
index under which `at(n)` and `invoke(n, ...)` reach it, the callbacks at the
indices below `n` stay where they are, and in a registry on which callbacks
were only registered (the constructor's `__print` first) the k-th callback
registered, counting from 0, is the one at index k. -/
theorem register_dense_index (self : FlowBackend) (type : CallbackType) (name : String)
    (returnType : FlowValueType) (callback userdata : Nat) :
    (self.registerNative type name returnType callback userdata).1 = true
    ∧ (self.registerNative type name returnType callback userdata).2.at_ self.callbacks_.length
      = some { type := type, returnType := returnType, name := name, callback := callback,
               userdata := userdata }
    ∧ (∀ (α : Type) (call : Callback → α),
        invoke call (self.registerNative type name returnType callback userdata).2
            self.callbacks_.length
          = some (call { type := type, returnType := returnType, name := name,
                         callback := callback, userdata := userdata }))
    ∧ (∀ i : Nat, i < self.callbacks_.length →
        (self.registerNative type name returnType callback userdata).2.at_ i = self.at_ i)
    ∧ self.registerHandler name callback userdata
        = self.registerNative .HANDLER name .BOOLEAN callback userdata
    ∧ self.registerFunction name returnType callback userdata
        = self.registerNative .FUNCTION name returnType callback userdata
    ∧ self.registerVariable name returnType callback userdata
        = self.registerNative .VARIABLE name returnType callback userdata
    ∧ (∀ (flow_print : Nat) (cbs : List Callback) (k : Nat),
        ((init flow_print).registerAll cbs).at_ k
          = (({ type := .FUNCTION, returnType := .VOID, name := "__print",
                callback := flow_print, userdata := 0 } : Callback) :: cbs)[k]?) := by
  have hat : (self.registerNative type name returnType callback userdata).2.at_
      self.callbacks_.length
      = some { type := type, returnType := returnType, name := name, callback := callback,
               userdata := userdata } := by
    simp [registerNative, at_]
  refine ⟨rfl, hat, ?_, ?_, rfl, rfl, rfl, ?_⟩
  · intro α call
    simp [invoke, hat]
  · intro i hi
    simp [registerNative, at_, List.getElem?_append_left hi]
  · intro flow_print cbs k
    simp [at_, registerAll_callbacks, init, registerFunction, registerNative]

/-! ### Unregistration -/

theorem eraseFirst_absent (name : String) :
    ∀ l : List Callback, (∀ cb ∈ l, cb.name ≠ name) → eraseFirst name l = (false, l) := by
  intro l
  induction l with
  | nil => intro _; rfl
  | cons c rest ih =>
    intro h
    have hc : c.name ≠ name := h c (List.mem_cons_self _ _)
    have hr := ih (fun cb hcb => h cb (List.mem_cons_of_mem _ hcb))
    simp [eraseFirst, hc, hr]

theorem eraseFirst_present (name : String) :
    ∀ l : List Callback, (∃ cb ∈ l, cb.name = name) →
      (eraseFirst name l).1 = true
      ∧ ∃ l1 cb l2, l = l1 ++ cb :: l2 ∧ cb.name = name ∧ (∀ c ∈ l1, c.name ≠ name)
        ∧ (eraseFirst name l).2 = l1 ++ l2 := by
  intro l
  induction l with
  | nil => rintro ⟨cb, h, _⟩; cases h
  | cons c rest ih =>
    rintro ⟨cb, hmem, hn⟩
    by_cases hc : c.name = name
    · refine ⟨by simp [eraseFirst, hc], [], c, rest, rfl, hc, by simp, by simp [eraseFirst, hc]⟩
    · have hrest : ∃ cb ∈ rest, cb.name = name := by
        rcases List.mem_cons.mp hmem with h | h
        · subst h; exact absurd hn hc
        · exact ⟨cb, h, hn⟩
      obtain ⟨h1, l1, cb1, l2, hl, hn1, hmin, he⟩ := ih hrest
      refine ⟨by simp [eraseFirst, hc, h1], c :: l1, cb1, l2, by simp [hl], hn1, ?_, ?_⟩
      · intro x hx
        rcases List.mem_cons.mp hx with h | h
        · subst h; exact hc
        · exact hmin x h
      · simp [eraseFirst, hc, he]

/-- C18: for every registry and name: if some callback has that name,
`unregisterNative(name)` returns true and removes exactly the first such
callback, all others keeping their relative order; otherwise it returns false
and leaves the registry unchanged. -/
theorem unregister_removes_first (self : FlowBackend) (name : String) :
    ((∃ cb ∈ self.callbacks_, cb.name = name) →
      (self.unregisterNative name).1 = true
      ∧ ∃ l1 cb l2, self.callbacks_ = l1 ++ cb :: l2 ∧ cb.name = name
        ∧ (∀ c ∈ l1, c.name ≠ name)
        ∧ (self.unregisterNative name).2.callbacks_ = l1 ++ l2)
    ∧ ((∀ cb ∈ self.callbacks_, cb.name ≠ name) →
      self.unregisterNative name = (false, self)) := by
  constructor
  · intro h
    exact eraseFirst_present name self.callbacks_ h
  · intro h
    simp [unregisterNative, eraseFirst_absent name self.callbacks_ h]

end FlowBackend

namespace FlowVM

/-! ## Boolean opcodes, match opcodes and the frame of the register file -/

theorem compl_eq_xor (z : Nat) (hz : z < 2 ^ 64) : 2 ^ 64 - 1 - z = (2 ^ 64 - 1) ^^^ z := by
  apply Nat.eq_of_testBit_eq
  intro i
  have h1 : 2 ^ 64 - 1 - z = 2 ^ 64 - (z + 1) := by omega
  rw [h1, Nat.testBit_two_pow_sub_succ hz, Nat.testBit_xor, Nat.testBit_two_pow_sub_one]
  by_cases hi : i < 64
  · simp [hi]
  · have hzi : z.testBit i = false := by
      apply Nat.testBit_lt_two_pow
      exact lt_of_lt_of_le hz (Nat.pow_le_pow_right (by norm_num) (by omega))
    simp [hi, hzi]

theorem toNumber_negSucc (x : Nat) (h1 : 2 ^ 63 ≤ x) (h2 : x < 2 ^ 64) :
    toNumber x = Int.negSucc (2 ^ 64 - 1 - x) := by
  have key : (if x < 2 ^ 63 then (x : Int) else (x : Int) - 2 ^ 64)
      = Int.negSucc (2 ^ 64 - 1 - x) := by
    rw [if_neg (by omega), Int.negSucc_eq]
    omega
  unfold toNumber
  rw [Nat.mod_eq_of_lt h2]
  exact key

theorem toRegister_negSucc (k : Nat) (hk : k < 2 ^ 64) :
    toRegister (Int.negSucc k) = 2 ^ 64 - 1 - k := by
  have h : (Int.negSucc k) % 2 ^ 64 = ((2 ^ 64 - 1 - k : Nat) : Int) := by
    rw [Int.negSucc_eq]
    omega
  unfold toRegister
  rw [h]
  rfl

/-- The cell that `toNumber(B) ^ toNumber(C)` leaves: the bitwise exclusive or
of the two cells. -/
theorem bxor_cell (x y : Nat) (hx : x < 2 ^ 64) (hy : y < 2 ^ 64) :
    toRegister (Int.xor (toNumber x) (toNumber y)) = x ^^^ y := by
  have hxy : x ^^^ y < 2 ^ 64 := Nat.xor_lt_two_pow hx hy
  have hcx := compl_eq_xor x hx
  have hcy := compl_eq_xor y hy
  have hcxlt : 2 ^ 64 - 1 - x < 2 ^ 64 := by omega
  have hcylt : 2 ^ 64 - 1 - y < 2 ^ 64 := by omega
  rcases Nat.lt_or_ge x (2 ^ 63) with hx63 | hx63 <;>
    rcases Nat.lt_or_ge y (2 ^ 63) with hy63 | hy63
  · rw [toNumber_small x hx63, toNumber_small y hy63]
    exact toRegister_natCast _ hxy
  · rw [toNumber_small x hx63, toNumber_negSucc y hy63 hy]
    have h : Int.xor (x : Int) (Int.negSucc (2 ^ 64 - 1 - y))
        = Int.negSucc (x ^^^ (2 ^ 64 - 1 - y)) := rfl
    rw [h, toRegister_negSucc _ (Nat.xor_lt_two_pow hx hcylt), hcy,
      compl_eq_xor _ (Nat.xor_lt_two_pow hx (by rw [← hcy]; exact hcylt))]
    rw [← Nat.xor_assoc, Nat.xor_comm (2 ^ 64 - 1) x, Nat.xor_assoc, ← Nat.xor_assoc (2 ^ 64 - 1),
      Nat.xor_self, Nat.zero_xor]
  · rw [toNumber_negSucc x hx63 hx, toNumber_small y hy63]
    have h : Int.xor (Int.negSucc (2 ^ 64 - 1 - x)) (y : Int)
        = Int.negSucc ((2 ^ 64 - 1 - x) ^^^ y) := rfl
    rw [h, toRegister_negSucc _ (Nat.xor_lt_two_pow hcxlt hy), hcx,
      compl_eq_xor _ (Nat.xor_lt_two_pow (by rw [← hcx]; exact hcxlt) hy)]
    rw [← Nat.xor_assoc, ← Nat.xor_assoc, Nat.xor_self, Nat.zero_xor]
  · rw [toNumber_negSucc x hx63 hx, toNumber_negSucc y hy63 hy]
    have h : Int.xor (Int.negSucc (2 ^ 64 - 1 - x)) (Int.negSucc (2 ^ 64 - 1 - y))
        = (((2 ^ 64 - 1 - x) ^^^ (2 ^ 64 - 1 - y) : Nat) : Int) := rfl
    rw [h, toRegister_natCast _ (Nat.xor_lt_two_pow hcxlt hcylt), hcx, hcy]
    rw [Nat.xor_assoc, ← Nat.xor_assoc x, Nat.xor_comm x (2 ^ 64 - 1), Nat.xor_assoc,
      ← Nat.xor_assoc (2 ^ 64 - 1), Nat.xor_self, Nat.zero_xor]

/-- C29 (as stated, refuted): with 2 in register 0 and 1 in register 1,
`BXOR r2, r0, r1` stores 3, which is not in {0,1}. -/
theorem bxor_stores_three :
    step Demo.env (Demo.handler [⟨.BXOR, 2, 0, 1⟩, ⟨.EXIT, 0, 0, 0⟩]) (Demo.state [2, 1, 0, 0] 0)
      = .next { Demo.state [2, 1, 3, 0] 0 with pc := 1, ticks := 1 } := by
  decide

/-- C29 (amended): BNOT, BAND and BOR write a value in {0,1} to their
destination register for every content of their operand registers (BNOT: 1
iff the operand is 0; BAND and BOR: the logical and / or of the operands'
truth values); BXOR writes, for every content of its operand registers, the
bitwise exclusive or of the two cells, which is their logical exclusive or,
in {0,1}, when both operands are in {0,1}. -/
theorem boolean_opcodes (env : Env) (handler : Handler) (s : State) (A B C : Nat)
    (x y : Register)
    (hA : A < s.runner.data_.length)
    (hx : s.runner.data_[B]? = some x) (hxlt : x < 2 ^ 64) :
    (handler.code[s.pc]? = some ⟨.BNOT, A, B, C⟩ →
      step env handler s = .next { s with
        runner := { s.runner with data_ := s.runner.data_.set A (if x = 0 then 1 else 0) },
        pc := s.pc + 1, ticks := (s.ticks + 1) % 2 ^ 64 })
    ∧ (s.runner.data_[C]? = some y → y < 2 ^ 64 →
      (handler.code[s.pc]? = some ⟨.BAND, A, B, C⟩ →
        step env handler s = .next { s with
          runner := { s.runner with
            data_ := s.runner.data_.set A (if x ≠ 0 ∧ y ≠ 0 then 1 else 0) },
          pc := s.pc + 1, ticks := (s.ticks + 1) % 2 ^ 64 })
      ∧ (handler.code[s.pc]? = some ⟨.BOR, A, B, C⟩ →
        step env handler s = .next { s with
          runner := { s.runner with
            data_ := s.runner.data_.set A (if x ≠ 0 ∨ y ≠ 0 then 1 else 0) },
          pc := s.pc + 1, ticks := (s.ticks + 1) % 2 ^ 64 })
      ∧ (handler.code[s.pc]? = some ⟨.BXOR, A, B, C⟩ →
        step env handler s = .next { s with
          runner := { s.runner with data_ := s.runner.data_.set A (x ^^^ y) },
          pc := s.pc + 1, ticks := (s.ticks + 1) % 2 ^ 64 })
      ∧ (handler.code[s.pc]? = some ⟨.BXOR, A, B, C⟩ → x ≤ 1 → y ≤ 1 →
        step env handler s = .next { s with
          runner := { s.runner with
            data_ := s.runner.data_.set A (if (x ≠ 0) ≠ (y ≠ 0) then 1 else 0) },
          pc := s.pc + 1, ticks := (s.ticks + 1) % 2 ^ 64 })) := by
  have hzero : ∀ z : Register, z < 2 ^ 64 → (toNumber z = 0 ↔ z = 0) := by
    intro z hz
    have key : ∀ m : Nat, m < 2 ^ 64 →
        ((if m < 2 ^ 63 then (m : Int) else (m : Int) - 2 ^ 64) = 0 ↔ m = 0) := by
      intro m hm
      split_ifs <;> omega
    unfold toNumber
    rw [Nat.mod_eq_of_lt hz]
    exact key z hz
  have t0 : toNumber 0 = 0 := by decide
  have hx0 := hzero x hxlt
  refine ⟨?_, ?_⟩
  · intro hinstr
    rw [step_of_fetch env handler s _ hinstr]
    by_cases h : x = 0
    · simp [exec, State.num, State.reg, hx, hx0, h, Outcome.ofOption, State.assign, hA,
        boolToRegister, t0]
    · simp [exec, State.num, State.reg, hx, hx0, h, Outcome.ofOption, State.assign, hA,
        boolToRegister]
  · intro hy hylt
    have hy0 := hzero y hylt
    refine ⟨?_, ?_, ?_, ?_⟩
    · intro hinstr
      rw [step_of_fetch env handler s _ hinstr]
      by_cases h : x = 0 <;> by_cases h2 : y = 0 <;>
        simp [exec, State.num, State.reg, hx, hy, hx0, hy0, h, h2, Outcome.ofOption, State.assign,
          hA, boolToRegister, t0]
    · intro hinstr
      rw [step_of_fetch env handler s _ hinstr]
      by_cases h : x = 0 <;> by_cases h2 : y = 0 <;>
        simp [exec, State.num, State.reg, hx, hy, hx0, hy0, h, h2, Outcome.ofOption, State.assign,
          hA, boolToRegister, t0]
    · intro hinstr
      rw [step_of_fetch env handler s _ hinstr, ← bxor_cell x y hxlt hylt]
      simp [exec, State.num, State.reg, hx, hy, Outcome.ofOption, State.assign, hA]
    · intro hinstr hx1 hy1
      rw [step_of_fetch env handler s _ hinstr]
      have hxc : x = 0 ∨ x = 1 := by
        rcases Nat.lt_or_ge x 1 with h | h
        · left; exact Nat.lt_one_iff.mp h
        · right; exact le_antisymm hx1 h
      have hyc : y = 0 ∨ y = 1 := by
        rcases Nat.lt_or_ge y 1 with h | h
        · left; exact Nat.lt_one_iff.mp h
        · right; exact le_antisymm hy1 h
      have x00 : toRegister (Int.xor (toNumber 0) (toNumber 0)) = 0 := by decide
      have x01 : toRegister (Int.xor (toNumber 0) (toNumber 1)) = 1 := by decide
      have x10 : toRegister (Int.xor (toNumber 1) (toNumber 0)) = 1 := by decide
      have x11 : toRegister (Int.xor (toNumber 1) (toNumber 1)) = 0 := by decide
      rcases hxc with h | h <;> rcases hyc with h2 | h2 <;> subst h <;> subst h2 <;>
        simp [exec, State.num, State.reg, hx, hy, Outcome.ofOption, State.assign, hA, x00, x01,
          x10, x11]

theorem boolean_opcodes_witness :
    2 < (Demo.state [6, 3, 0, 0] 0).runner.data_.length
    ∧ (Demo.state [6, 3, 0, 0] 0).runner.data_[0]? = some 6
    ∧ (6 : Register) < 2 ^ 64
    ∧ (Demo.state [6, 3, 0, 0] 0).runner.data_[1]? = some 3
    ∧ (3 : Register) < 2 ^ 64
    ∧ (Demo.handler [⟨.BXOR, 2, 0, 1⟩, ⟨.EXIT, 0, 0, 0⟩]).code[(Demo.state [6, 3, 0, 0] 0).pc]?
      = some ⟨.BXOR, 2, 0, 1⟩
    ∧ step Demo.env (Demo.handler [⟨.BXOR, 2, 0, 1⟩, ⟨.EXIT, 0, 0, 0⟩]) (Demo.state [6, 3, 0, 0] 0)
      = .next { Demo.state [6, 3, 5, 0] 0 with pc := 1, ticks := 1 } :=
  ⟨by decide, rfl, by decide, rfl, by decide, rfl,
    ((boolean_opcodes Demo.env (Demo.handler [⟨.BXOR, 2, 0, 1⟩, ⟨.EXIT, 0, 0, 0⟩])
      (Demo.state [6, 3, 0, 0] 0) 2 0 1 6 3 (by decide) rfl (by decide)).2 rfl
        (by decide)).2.2.1 rfl⟩

/-- C31: the four opcodes SMATCHEQ, SMATCHBEG, SMATCHEND and SMATCHR are
executed identically: for the same operands and the same state and program
each of them yields the same outcome (next program counter and state), which
is the one match table B produces; the opcode selects no match operation. -/
theorem smatch_opcodes_identical (env : Env) (program : Program) (s : State)
    (op1 op2 : Opcode) (A B C : Nat)
    (h1 : op1 = .SMATCHEQ ∨ op1 = .SMATCHBEG ∨ op1 = .SMATCHEND ∨ op1 = .SMATCHR)
    (h2 : op2 = .SMATCHEQ ∨ op2 = .SMATCHBEG ∨ op2 = .SMATCHEND ∨ op2 = .SMATCHR) :
    exec env program s ⟨op1, A, B, C⟩ = exec env program s ⟨op2, A, B, C⟩
    ∧ (∀ code1 code2 : List Instruction, ∀ registerCount : Nat,
        code1[s.pc]? = some ⟨op1, A, B, C⟩ → code2[s.pc]? = some ⟨op2, A, B, C⟩ →
        step env { program := program, registerCount := registerCount, code := code1 } s
          = step env { program := program, registerCount := registerCount, code := code2 } s)
    ∧ (∀ (m : Match) (p : Register), program.matchTables[B]? = some m →
        s.runner.data_[A]? = some p →
        exec env program s ⟨op1, A, B, C⟩
          = .next { s with runner := (m.evaluate p s.runner).2, pc := (m.evaluate p s.runner).1 }) := by
  have he : exec env program s ⟨op1, A, B, C⟩ = exec env program s ⟨op2, A, B, C⟩ := by
    rcases h1 with h | h | h | h <;> rcases h2 with h' | h' | h' | h' <;> subst h <;> subst h' <;>
      rfl
  refine ⟨he, ?_, ?_⟩
  · intro code1 code2 registerCount hc1 hc2
    simp only [step, hc1, hc2]
    rcases h1 with h | h | h | h <;> rcases h2 with h' | h' | h' | h' <;> subst h <;> subst h' <;>
      rfl
  · intro m p hm hp
    rcases h1 with h | h | h | h <;> subst h <;>
      simp [exec, State.reg, hm, hp, Outcome.ofOption, State.jump]

theorem smatch_opcodes_identical_witness :
    (Opcode.SMATCHEQ = .SMATCHEQ ∨ Opcode.SMATCHEQ = .SMATCHBEG ∨ Opcode.SMATCHEQ = .SMATCHEND
      ∨ Opcode.SMATCHEQ = .SMATCHR)
    ∧ (Opcode.SMATCHR = .SMATCHEQ ∨ Opcode.SMATCHR = .SMATCHBEG ∨ Opcode.SMATCHR = .SMATCHEND
      ∨ Opcode.SMATCHR = .SMATCHR)
    ∧ exec Demo.env Demo.program (Demo.state [0, 10, 0, 0] 0) ⟨.SMATCHEQ, 1, 0, 0⟩
      = exec Demo.env Demo.program (Demo.state [0, 10, 0, 0] 0) ⟨.SMATCHR, 1, 0, 0⟩
    ∧ exec Demo.env Demo.program (Demo.state [0, 10, 0, 0] 0) ⟨.SMATCHEQ, 1, 0, 0⟩
      = .next { Demo.state [0, 10, 0, 0] 0 with pc := 2 } :=
  ⟨Or.inl rfl, Or.inr (Or.inr (Or.inr rfl)),
    (smatch_opcodes_identical Demo.env Demo.program (Demo.state [0, 10, 0, 0] 0) .SMATCHEQ
      .SMATCHR 1 0 0 (Or.inl rfl) (Or.inr (Or.inr (Or.inr rfl)))).1, rfl⟩

end FlowVM

namespace FlowBackend

/-! ## Callback ids under unregistration -/

theorem findFrom_append_of_absent (name : String) (r : List Callback) :
    ∀ (l : List Callback) (k : Nat), (∀ c ∈ l, c.name ≠ name) →
      findFrom name (l ++ r) k = findFrom name r (k + l.length) := by
  intro l
  induction l with
  | nil => intro k _; simp
  | cons c rest ih =>
    intro k h
    have hc : c.name ≠ name := h c (List.mem_cons_self _ _)
    have hrest : ∀ d ∈ rest, d.name ≠ name := fun d hd => h d (List.mem_cons_of_mem _ hd)
    have hk : k + 1 + rest.length = k + (rest.length + 1) := by omega
    simp only [List.cons_append, findFrom, hc, if_false, List.length_cons]
    rw [← hk]
    exact ih (k + 1) hrest

theorem findFrom_append_of_mem (name : String) (r : List Callback) :
    ∀ (l : List Callback) (k : Nat), (∃ c ∈ l, c.name = name) →
      findFrom name (l ++ r) k = findFrom name l k := by
  intro l
  induction l with
  | nil => intro k h; obtain ⟨c, hc, _⟩ := h; cases hc
  | cons c rest ih =>
    intro k h
    simp only [List.cons_append, findFrom]
    by_cases hc : c.name = name
    · simp [hc]
    · simp only [hc, if_false]
      obtain ⟨d, hd, hdn⟩ := h
      rcases List.mem_cons.mp hd with h1 | h1
      · subst h1; exact absurd hdn hc
      · exact ih (k + 1) ⟨d, h1, hdn⟩

theorem eraseFirst_append (name : String) (x : Callback) (r : List Callback) (hx : x.name = name) :
    ∀ l : List Callback, (∀ c ∈ l, c.name ≠ name) →
      eraseFirst name (l ++ x :: r) = (true, l ++ r) := by
  intro l
  induction l with
  | nil => intro _; simp [eraseFirst, hx]
  | cons c rest ih =>
    intro h
    have hc : c.name ≠ name := h c (List.mem_cons_self _ _)
    have hrest : ∀ d ∈ rest, d.name ≠ name := fun d hd => h d (List.mem_cons_of_mem _ hd)
    simp [eraseFirst, hc, ih hrest]

/-- C33: for every registry (of fewer than 2^31 callbacks) in which callback
`x` was registered before callback `y`, the two names being distinct and each
occurring once: `unregisterNative(x.name)` returns true, after it
`find(y.name)` is exactly one less than before (before it is the position of
`y`), and `find` of the name of every callback registered before `x` is
unchanged. -/
theorem unregister_shifts_find (self : FlowBackend) (x y : Callback)
    (l1 l2 l3 : List Callback)
    (hreg : self.callbacks_ = l1 ++ x :: (l2 ++ y :: l3))
    (hsmall : self.callbacks_.length < 2 ^ 31)
    (hx : ∀ c ∈ l1 ++ (l2 ++ y :: l3), c.name ≠ x.name)
    (hy : ∀ c ∈ l1 ++ x :: (l2 ++ l3), c.name ≠ y.name) :
    (self.unregisterNative x.name).1 = true
    ∧ self.find y.name = ((l1.length + 1 + l2.length : Nat) : Int)
    ∧ (self.unregisterNative x.name).2.find y.name = self.find y.name - 1
    ∧ ∀ z ∈ l1, (self.unregisterNative x.name).2.find z.name = self.find z.name := by
  have hx1 : ∀ c ∈ l1, c.name ≠ x.name := fun c hc => hx c (List.mem_append_left _ hc)
  have hy1 : ∀ c ∈ l1, c.name ≠ y.name := fun c hc => hy c (List.mem_append_left _ hc)
  have hyx : x.name ≠ y.name :=
    hy x (List.mem_append_right _ (List.mem_cons_self _ _))
  have hy2 : ∀ c ∈ l2, c.name ≠ y.name := fun c hc =>
    hy c (List.mem_append_right _ (List.mem_cons_of_mem _ (List.mem_append_left _ hc)))
  have he := eraseFirst_append x.name x (l2 ++ y :: l3) rfl l1 hx1
  have hafter : (self.unregisterNative x.name).2.callbacks_ = l1 ++ (l2 ++ y :: l3) := by
    simp [unregisterNative, hreg, he]
  have hlen : (self.unregisterNative x.name).2.callbacks_.length < 2 ^ 31 := by
    rw [hafter]
    rw [hreg] at hsmall
    simp only [List.length_append, List.length_cons] at hsmall ⊢
    omega
  have hbefore : self.find y.name = ((l1.length + 1 + l2.length : Nat) : Int) := by
    rw [find_eq_findFrom self _ hsmall, hreg, findFrom_append_of_absent _ _ l1 0 hy1]
    simp only [findFrom, hyx, if_false]
    rw [findFrom_append_of_absent _ _ l2 _ hy2]
    simp only [findFrom, if_true]
    congr 1
    omega
  refine ⟨by simp [unregisterNative, hreg, he], hbefore, ?_, ?_⟩
  · rw [hbefore, find_eq_findFrom _ _ hlen, hafter, findFrom_append_of_absent _ _ l1 0 hy1,
      findFrom_append_of_absent _ _ l2 _ hy2]
    simp only [findFrom, if_true]
    push_cast
    omega
  · intro z hz
    rw [find_eq_findFrom _ _ hlen, find_eq_findFrom self _ hsmall, hafter, hreg,
      findFrom_append_of_mem _ _ l1 0 ⟨z, hz, rfl⟩, findFrom_append_of_mem _ _ l1 0 ⟨z, hz, rfl⟩]

theorem unregister_shifts_find_witness :
    (((init 5).registerHandler "b" 7 0).2.registerHandler "c" 8 0).2.find "c" = 2
    ∧ ((((init 5).registerHandler "b" 7 0).2.registerHandler "c" 8 0).2.unregisterNative
        "b").2.find "c" = 1
    ∧ ((((init 5).registerHandler "b" 7 0).2.registerHandler "c" 8 0).2.unregisterNative
        "b").2.find "__print" = 0
    ∧ ((((init 5).registerHandler "b" 7 0).2.registerHandler "c" 8 0).2.unregisterNative
        "b").2.find "c"
      = (((init 5).registerHandler "b" 7 0).2.registerHandler "c" 8 0).2.find "c" - 1 :=
  ⟨by decide, by decide, by decide,
    (unregister_shifts_find (((init 5).registerHandler "b" 7 0).2.registerHandler "c" 8 0).2
      ⟨.HANDLER, .BOOLEAN, "b", 7, 0⟩ ⟨.HANDLER, .BOOLEAN, "c", 8, 0⟩
      [⟨.FUNCTION, .VOID, "__print", 5, 0⟩] [] [] rfl (by decide) (by decide) (by decide)).2.2.1⟩

end FlowBackend
namespace IRGenerator

/-! ## The IR generator -/

theorem Gen.bind_eq_ok {α β : Type} (x : Gen α) (f : α → Gen β) (b : β) :
    x.bind f = .ok b ↔ ∃ a, x = .ok a ∧ f a = .ok b := by
  cases x <;> simp [Gen.bind]

theorem insert_eq_ok (g : IRGenerator) (type : FlowValueType) (name : String) (kind : InstrKind)
    (r : Value × IRGenerator) :
    insert g type name kind = .ok r ↔
      ∃ p bb, g.program_ = some p ∧ g.insertPoint_ = some bb
        ∧ r = (.instr g.nextId type,
            { g with program_ := some ⟨appendInstr bb ⟨g.nextId, type, name, kind⟩ p.handlers⟩,
                     nextId := g.nextId + 1 }) := by
  unfold insert
  cases hp : g.program_ with
  | none => simp
  | some p =>
    cases hb : g.insertPoint_ with
    | none => simp
    | some bb =>
      simp only [Gen.ok.injEq, Option.some.injEq, exists_and_left, exists_eq_left']
      exact eq_comm

theorem appendInstr_last (bb : Nat) (instr : Instr) (handlers : List IRHandler) :
    ∀ h ∈ appendInstr bb instr handlers, ∀ b ∈ h.blocks, b.id = bb →
      b.instrs.getLast? = some instr := by
  intro h hh b hb hid
  simp only [appendInstr, List.mem_map] at hh
  obtain ⟨h0, _, rfl⟩ := hh
  simp only [List.mem_map] at hb
  obtain ⟨b0, _, rfl⟩ := hb
  by_cases hb0 : b0.id = bb
  · simp [hb0, List.getLast?_concat]
  · simp only [hb0, if_false] at hid

theorem codegenSymbol_handler (ndebug : Bool) (name : String) (scope : List Symbol)
    (body : Option Stmt) (g : IRGenerator) :
    codegenSymbol ndebug (.Handler name scope body) g =
      (getHandler g name).bind fun a =>
      (createBlock (setHandler a.2 a.1) "EntryPoint").bind fun b =>
      (setEntryPoint (setInsertPoint b.2 b.1)).bind fun g5 =>
      (codegenSymbols ndebug scope g5).bind fun g6 =>
      (codegenOptStmt ndebug body g6).bind fun g7 =>
      (createRet g7 (.const (.boolean false))).bind fun r => .ok r.2 := rfl

theorem createBlock_ok (g : IRGenerator) (name : String) (p : IRProgram) (h : Nat)
    (hd : IRHandler) (hp : g.program_ = some p) (hh : g.handler_ = some h)
    (hhd : p.handlers[h]? = some hd) :
    createBlock g name = .ok (g.nextId,
      { g with program_ := some ⟨p.handlers.set h
                 { hd with blocks := hd.blocks ++ [⟨g.nextId, name, []⟩] }⟩,
               nextId := g.nextId + 1 }) := by
  simp [createBlock, hp, hh, hhd]

theorem codegenOptStmt_none (ndebug : Bool) (g : IRGenerator) :
    codegenOptStmt ndebug none g = .ok { g with result_ := none } := rfl

theorem codegenStmt_cond (ndebug : Bool) (c : Expr) (t e : Option Stmt) (g : IRGenerator) :
    codegenStmt ndebug (.CondStmt c t e) g =
      (createBlock g "trueBlock").bind fun b1 =>
      (createBlock b1.2 "falseBlock").bind fun b2 =>
      (createBlock b2.2 "contBlock").bind fun b3 =>
      (codegenExpr ndebug c b3.2).bind fun g4 =>
      (createCondBr g4 g4.result_ b1.1 b2.1 "if.cond").bind fun b5 =>
      (codegenOptStmt ndebug t (setInsertPoint b5.2 b1.1)).bind fun g6 =>
      (createBr g6 b3.1).bind fun b7 =>
      (codegenOptStmt ndebug e (setInsertPoint b7.2 b2.1)).bind fun g8 =>
      (createBr g8 b3.1).bind fun b9 =>
      .ok (setInsertPoint b9.2 b3.1) := rfl

theorem createBlock_eq_ok (g : IRGenerator) (name : String) (r : Nat × IRGenerator) :
    createBlock g name = .ok r ↔
      ∃ p h hd, g.program_ = some p ∧ g.handler_ = some h ∧ p.handlers[h]? = some hd
        ∧ r = (g.nextId,
          { g with program_ := some ⟨p.handlers.set h
                     { hd with blocks := hd.blocks ++ [⟨g.nextId, name, []⟩] }⟩,
                   nextId := g.nextId + 1 }) := by
  constructor
  · intro hc
    unfold createBlock at hc
    cases hp : g.program_ with
    | none => simp [hp] at hc
    | some p =>
      cases hh : g.handler_ with
      | none => simp [hp, hh] at hc
      | some h =>
        cases hhd : p.handlers[h]? with
        | none => simp [hp, hh, hhd] at hc
        | some hd =>
          simp only [hp, hh, hhd, Gen.ok.injEq] at hc
          exact ⟨p, h, hd, rfl, rfl, hhd, hc.symm⟩
  · rintro ⟨p, h, hd, hp, hh, hhd, rfl⟩
    exact createBlock_ok g name p h hd hp hh hhd

/-- The three `createBlock` calls of `accept(CondStmt&)`: they succeed exactly
in a generator with a current handler, and put the blocks `trueBlock`,
`falseBlock` and `contBlock`, with the next three ids, at the back of it. -/
theorem three_blocks (g : IRGenerator) (n1 n2 n3 : String) (b1 b2 b3 : Nat × IRGenerator) :
    (createBlock g n1 = .ok b1 ∧ createBlock b1.2 n2 = .ok b2 ∧ createBlock b2.2 n3 = .ok b3) ↔
      ∃ p h hd, g.program_ = some p ∧ g.handler_ = some h ∧ p.handlers[h]? = some hd
        ∧ b1.1 = g.nextId ∧ b2.1 = g.nextId + 1 ∧ b3.1 = g.nextId + 2
        ∧ b1.2 = { g with
            program_ := some ⟨p.handlers.set h
              { hd with blocks := hd.blocks ++ [⟨g.nextId, n1, []⟩] }⟩,
            nextId := g.nextId + 1 }
        ∧ b2.2 = { g with
            program_ := some ⟨p.handlers.set h
              { hd with blocks := hd.blocks ++ [⟨g.nextId, n1, []⟩, ⟨g.nextId + 1, n2, []⟩] }⟩,
            nextId := g.nextId + 2 }
        ∧ b3.2 = { g with
            program_ := some ⟨p.handlers.set h
              { hd with blocks := hd.blocks ++ [⟨g.nextId, n1, []⟩, ⟨g.nextId + 1, n2, []⟩,
                  ⟨g.nextId + 2, n3, []⟩] }⟩,
            nextId := g.nextId + 3 } := by
  constructor
  · rintro ⟨h1, h2, h3⟩
    obtain ⟨p, h, hd, hp, hh, hhd, rfl⟩ := (createBlock_eq_ok g n1 b1).mp h1
    have hlt : h < p.handlers.length := by
      rcases Nat.lt_or_ge h p.handlers.length with hl | hl
      · exact hl
      · rw [List.getElem?_eq_none hl] at hhd
        cases hhd
    obtain ⟨p2, h2', hd2, hp2, hh2, hhd2, rfl⟩ := (createBlock_eq_ok _ n2 b2).mp h2
    simp only [Option.some.injEq] at hp2
    subst hp2
    rw [hh] at hh2
    simp only [Option.some.injEq] at hh2
    subst hh2
    simp only [List.getElem?_set, hlt, if_true, Option.some.injEq] at hhd2
    subst hhd2
    obtain ⟨p3, h3', hd3, hp3, hh3, hhd3, rfl⟩ := (createBlock_eq_ok _ n3 b3).mp h3
    simp only [Option.some.injEq] at hp3
    subst hp3
    rw [hh] at hh3
    simp only [Option.some.injEq] at hh3
    subst hh3
    simp only [List.getElem?_set, hlt, if_true, Option.some.injEq, List.length_set,
      List.set_set] at hhd3
    subst hhd3
    refine ⟨p, h, hd, hp, hh, hhd, rfl, rfl, rfl, rfl, ?_, ?_⟩
    · simp [List.set_set]
    · simp [List.set_set, Nat.add_assoc]
  · rintro ⟨p, h, hd, hp, hh, hhd, e1, e2, e3, e4, e5, e6⟩
    have hlt : h < p.handlers.length := by
      rcases Nat.lt_or_ge h p.handlers.length with hl | hl
      · exact hl
      · rw [List.getElem?_eq_none hl] at hhd
        cases hhd
    refine ⟨?_, ?_, ?_⟩
    · rw [createBlock_eq_ok]
      exact ⟨p, h, hd, hp, hh, hhd, Prod.ext e1 e4⟩
    · rw [createBlock_eq_ok, e4]
      refine ⟨_, h, _, rfl, hh, by simp only [List.getElem?_set, hlt, if_true]; rfl,
        Prod.ext e2 ?_⟩
      rw [e5]
      simp [List.set_set]
    · rw [createBlock_eq_ok, e5]
      refine ⟨_, h, _, rfl, hh, by simp only [List.getElem?_set, hlt, if_true]; rfl,
        Prod.ext e3 ?_⟩
      rw [e6]
      simp [List.set_set, Nat.add_assoc]

theorem codegenOptStmt_some (ndebug : Bool) (stmt : Stmt) (g : IRGenerator) :
    codegenOptStmt ndebug (some stmt) g = codegenStmt ndebug stmt g := rfl

theorem codegenExpr_bool (ndebug : Bool) (value : Bool) (g : IRGenerator) :
    codegenExpr ndebug (.BoolExpr value) g
      = .ok { g with result_ := some (.const (.int (if value then 1 else 0))) } := rfl

theorem codegenExpr_number (ndebug : Bool) (value : Int) (g : IRGenerator) :
    codegenExpr ndebug (.NumberExpr value) g
      = .ok { g with result_ := some (.const (.int value)) } := rfl

theorem codegenExpr_string (ndebug : Bool) (value : String) (g : IRGenerator) :
    codegenExpr ndebug (.StringExpr value) g
      = .ok { g with result_ := some (.const (.string value)) } := rfl

theorem codegenExpr_unary (ndebug : Bool) (op : FlowVM.Opcode) (subExpr : Expr)
    (g : IRGenerator) :
    codegenExpr ndebug (.UnaryExpr op subExpr) g =
      (codegenExpr ndebug subExpr g).bind fun g1 =>
        if op ∈ unaryOps then
          (createVm g1 op [g1.result_]).bind fun r => .ok { r.2 with result_ := some r.1 }
        else if ndebug then
          (createVm g1 op [g1.result_]).bind fun r => .ok { r.2 with result_ := some r.1 }
        else .fail .assertion := rfl

theorem codegenExpr_binary (ndebug : Bool) (op : FlowVM.Opcode) (leftExpr rightExpr : Expr)
    (g : IRGenerator) :
    codegenExpr ndebug (.BinaryExpr op leftExpr rightExpr) g =
      (codegenExpr ndebug leftExpr g).bind fun g1 =>
      (codegenExpr ndebug rightExpr g1).bind fun g2 =>
        if op ∈ binaryOps then
          (createVm g2 op [g1.result_, g2.result_]).bind fun r =>
            .ok { r.2 with result_ := some r.1 }
        else
          (createVm g2 op [g1.result_, g2.result_]).bind fun r =>
            .ok { r.2 with result_ := some r.1 } := rfl

theorem codegenExpr_array_nil (ndebug : Bool) (type : FlowValueType) (g : IRGenerator) :
    codegenExpr ndebug (.ArrayExpr type []) g =
      (createAlloca g type (.const (.int 1)) "").bind fun a =>
      (createArraySet a.2 a.1 (.const (.int 0)) (some (.const (.int 0)))).bind fun b =>
        .ok { b.2 with result_ := some a.1 } := rfl

theorem codegenExpr_array_cons (ndebug : Bool) (type : FlowValueType) (v : Expr)
    (rest : List Expr) (g : IRGenerator) :
    codegenExpr ndebug (.ArrayExpr type (v :: rest)) g =
      (createAlloca g type (.const (.int (1 + ((v :: rest).length : Nat)))) "").bind fun a =>
      (createArraySet a.2 a.1 (.const (.int 0))
        (some (.const (.int ((v :: rest).length : Nat))))).bind fun b =>
      (codegenElements ndebug a.1 rest 1 b.2).bind fun _ => .fail .undefined := rfl

theorem codegenElements_nil (ndebug : Bool) (array : Value) (i : Nat) (g : IRGenerator) :
    codegenElements ndebug array [] i g = .ok g := rfl

theorem codegenElements_cons (ndebug : Bool) (array : Value) (element : Expr)
    (rest : List Expr) (i : Nat) (g : IRGenerator) :
    codegenElements ndebug array (element :: rest) i g =
      (codegenExpr ndebug element g).bind fun g1 =>
      (createArraySet g1 array (.const (.int i)) g1.result_).bind fun r =>
      codegenElements ndebug array rest (i + 1) r.2 := rfl

theorem codegenStmt_expr (ndebug : Bool) (expression : Expr) (g : IRGenerator) :
    codegenStmt ndebug (.ExprStmt expression) g = codegenExpr ndebug expression g := rfl

theorem codegenStmt_compound (ndebug : Bool) (stmts : List Stmt) (g : IRGenerator) :
    codegenStmt ndebug (.CompoundStmt stmts) g = codegenStmts ndebug stmts g := rfl

theorem codegenStmts_nil (ndebug : Bool) (g : IRGenerator) :
    codegenStmts ndebug [] g = .ok g := rfl

theorem codegenStmt_assign (ndebug : Bool) (var : String) (expression : Expr)
    (g : IRGenerator) :
    codegenStmt ndebug (.AssignStmt var expression) g =
      (codegenExpr ndebug expression g).bind fun g1 =>
        if ndebug then
          (createStore g1 (lookup g var) g1.result_ "assignment").bind fun r =>
            .ok { r.2 with result_ := some r.1 }
        else
          match lookup g var, g1.result_ with
          | some l, some r =>
            if l.type = r.type then
              (createStore g1 (lookup g var) g1.result_ "assignment").bind fun x =>
                .ok { x.2 with result_ := some x.1 }
            else .fail .assertion
          | _, _ => .fail .undefined := rfl

theorem codegenStmt_match_none (ndebug : Bool) (op : MatchClass) (condition : Expr)
    (cases : List (Expr × Stmt)) (g : IRGenerator) :
    codegenStmt ndebug (.MatchStmt op condition cases none) g =
      (createBlock g "match.cont").bind fun a =>
      (codegenExpr ndebug condition a.2).bind fun g2 =>
      (codegenCases ndebug a.1 cases g2).bind fun c =>
        if c.2.1 then
          .ok (setInsertPoint
            { c.2.2 with detached := c.2.2.detached ++
                [.matchInstr op g2.result_ c.1 none] } a.1)
        else .ok { c.2.2 with detached := c.2.2.detached ++
                    [.matchInstr op g2.result_ c.1 none] } := rfl

theorem codegenStmt_match_some (ndebug : Bool) (op : MatchClass) (condition : Expr)
    (cases : List (Expr × Stmt)) (stmt : Stmt) (g : IRGenerator) :
    codegenStmt ndebug (.MatchStmt op condition cases (some stmt)) g =
      (createBlock g "match.cont").bind fun a =>
      (codegenExpr ndebug condition a.2).bind fun g2 =>
      (codegenCases ndebug a.1 cases g2).bind fun c =>
        if c.2.1 then
          (createBlock c.2.2 "match.else").bind fun b =>
          (codegenStmt ndebug stmt (setInsertPoint b.2 b.1)).bind fun g5 =>
          (createBr g5 a.1).bind fun r =>
            .ok (setInsertPoint
              { r.2 with detached := r.2.detached ++
                  [.matchInstr op g2.result_ c.1 (some b.1)] } a.1)
        else .ok { c.2.2 with detached := c.2.2.detached ++
                    [.matchInstr op g2.result_ c.1 none] } := rfl

theorem codegenCases_nil (ndebug : Bool) (contBlock : Nat) (g : IRGenerator) :
    codegenCases ndebug contBlock [] g = .ok ([], true, g) := rfl

theorem codegenCases_string (ndebug : Bool) (contBlock : Nat) (value : String) (body : Stmt)
    (rest : List (Expr × Stmt)) (g : IRGenerator) :
    codegenCases ndebug contBlock ((.StringExpr value, body) :: rest) g =
      (createBlock g "match.case").bind fun a =>
      (codegenStmt ndebug body (setInsertPoint a.2 a.1)).bind fun g2 =>
      (createBr g2 contBlock).bind fun r =>
      (codegenCases ndebug contBlock rest r.2).bind fun c =>
        .ok ((.const (.string value), a.1) :: c.1, c.2.1, c.2.2) := rfl

theorem codegenSymbols_nil (ndebug : Bool) (g : IRGenerator) :
    codegenSymbols ndebug [] g = .ok g := rfl

theorem codegenSymbols_cons (ndebug : Bool) (symbol : Symbol) (rest : List Symbol)
    (g : IRGenerator) :
    codegenSymbols ndebug (symbol :: rest) g =
      (codegenSymbol ndebug symbol g).bind fun g1 => codegenSymbols ndebug rest g1 := rfl

theorem codegenSymbol_variable (ndebug : Bool) (name : String) (initializer : Expr)
    (g : IRGenerator) :
    codegenSymbol ndebug (.Variable name initializer) g =
      (codegenExpr ndebug initializer g).bind fun g1 =>
        match g1.result_ with
        | none => .ok g1
        | some initValue =>
          (createAlloca g1 initValue.type (.const (.int 1)) name).bind fun a =>
          (createStore (update a.2 name a.1) (some a.1) (some initValue) "").bind fun r =>
            .ok { r.2 with result_ := some a.1 } := rfl

theorem generate_eq (ndebug : Bool) (unit : List Symbol) :
    generate ndebug unit =
      (codegenSymbols ndebug unit (setProgram init ⟨[]⟩)).bind fun g => .ok g.program_ := by
  unfold generate acceptUnit
  cases codegenSymbols ndebug unit (setProgram init ⟨[]⟩) <;> rfl

/-- C20 (as stated, refuted): in `if true { if false { } }` the block
`trueBlock` of the outer statement (id 1) does not end with a branch to the
continuation block (id 3): its only instruction is the conditional branch of
the inner statement, and the branch to block 3 is the last instruction of the
inner continuation block (id 7). -/
theorem nested_if_then_block :
    codegenStmt false IRDemo.nestedIf IRDemo.inHandler
      = .ok { program_ := some ⟨[⟨"main",
                [⟨0, "EntryPoint", [⟨4, .VOID, "if.cond", .condBr (some (.const (.int 1))) 1 2⟩]⟩,
                 ⟨1, "trueBlock", [⟨8, .VOID, "if.cond", .condBr (some (.const (.int 0))) 5 6⟩]⟩,
                 ⟨2, "falseBlock", [⟨12, .VOID, "", .br 3⟩]⟩,
                 ⟨3, "contBlock", []⟩,
                 ⟨5, "trueBlock", [⟨9, .VOID, "", .br 7⟩]⟩,
                 ⟨6, "falseBlock", [⟨10, .VOID, "", .br 7⟩]⟩,
                 ⟨7, "contBlock", [⟨11, .VOID, "", .br 3⟩]⟩], some 0⟩]⟩,
              handler_ := some 0, insertPoint_ := some 3, scope_ := [], result_ := none,
              nextId := 13, detached := [], stderr := [] } := by
  simp [IRDemo.nestedIf, IRDemo.inHandler, codegenStmt_cond, codegenOptStmt_some,
    codegenOptStmt_none, codegenExpr_bool, createBlock, createCondBr, createBr, insert,
    setInsertPoint, appendInstr, Gen.bind]

/-- C20 (amended): lowering an `if` statement succeeds exactly when the
generator has a current handler and the following steps succeed: three new
blocks `trueBlock`, `falseBlock`, `contBlock` (the next three ids) are put at
the back of the current handler; the condition is lowered; a conditional
branch on its value to then/else is inserted at the insertion point current
after that; the then statement is lowered from the then block on and a branch
to cont is inserted at the insertion point current after it; the same for the
else statement from the else block on (an absent statement inserts nothing).
The insertion point is left at cont, and without an else statement the else
block ends with the branch to cont. -/
theorem cond_lowering (ndebug : Bool) (c : Expr) (t e : Option Stmt) (g g' : IRGenerator) :
    (codegenStmt ndebug (.CondStmt c t e) g = .ok g' ↔
      ∃ p h hd g4 g5 g6 g7 g8 g9,
        g.program_ = some p ∧ g.handler_ = some h ∧ p.handlers[h]? = some hd
        ∧ codegenExpr ndebug c { g with
            program_ := some ⟨p.handlers.set h
              { hd with blocks := hd.blocks ++ [⟨g.nextId, "trueBlock", []⟩,
                  ⟨g.nextId + 1, "falseBlock", []⟩, ⟨g.nextId + 2, "contBlock", []⟩] }⟩,
            nextId := g.nextId + 3 } = .ok g4
        ∧ createCondBr g4 g4.result_ g.nextId (g.nextId + 1) "if.cond"
            = .ok (.instr g4.nextId .VOID, g5)
        ∧ codegenOptStmt ndebug t (setInsertPoint g5 g.nextId) = .ok g6
        ∧ createBr g6 (g.nextId + 2) = .ok (.instr g6.nextId .VOID, g7)
        ∧ codegenOptStmt ndebug e (setInsertPoint g7 (g.nextId + 1)) = .ok g8
        ∧ createBr g8 (g.nextId + 2) = .ok (.instr g8.nextId .VOID, g9)
        ∧ g' = setInsertPoint g9 (g.nextId + 2))
    ∧ (codegenStmt ndebug (.CondStmt c t e) g = .ok g' →
        g'.insertPoint_ = some (g.nextId + 2))
    ∧ (e = none → codegenStmt ndebug (.CondStmt c t e) g = .ok g' →
        ∃ p', g'.program_ = some p' ∧ ∀ h ∈ p'.handlers, ∀ b ∈ h.blocks,
          b.id = g.nextId + 1 → ∃ i, b.instrs.getLast? = some i ∧ i.kind = .br (g.nextId + 2)) := by
  have key : codegenStmt ndebug (.CondStmt c t e) g = .ok g' ↔
      ∃ p h hd g4 g5 g6 g7 g8 g9,
        g.program_ = some p ∧ g.handler_ = some h ∧ p.handlers[h]? = some hd
        ∧ codegenExpr ndebug c { g with
            program_ := some ⟨p.handlers.set h
              { hd with blocks := hd.blocks ++ [⟨g.nextId, "trueBlock", []⟩,
                  ⟨g.nextId + 1, "falseBlock", []⟩, ⟨g.nextId + 2, "contBlock", []⟩] }⟩,
            nextId := g.nextId + 3 } = .ok g4
        ∧ createCondBr g4 g4.result_ g.nextId (g.nextId + 1) "if.cond"
            = .ok (.instr g4.nextId .VOID, g5)
        ∧ codegenOptStmt ndebug t (setInsertPoint g5 g.nextId) = .ok g6
        ∧ createBr g6 (g.nextId + 2) = .ok (.instr g6.nextId .VOID, g7)
        ∧ codegenOptStmt ndebug e (setInsertPoint g7 (g.nextId + 1)) = .ok g8
        ∧ createBr g8 (g.nextId + 2) = .ok (.instr g8.nextId .VOID, g9)
        ∧ g' = setInsertPoint g9 (g.nextId + 2) := by
    rw [codegenStmt_cond]
    constructor
    · intro h
      obtain ⟨b1, h1, h⟩ := (Gen.bind_eq_ok _ _ _).mp h
      obtain ⟨b2, h2, h⟩ := (Gen.bind_eq_ok _ _ _).mp h
      obtain ⟨b3, h3, h⟩ := (Gen.bind_eq_ok _ _ _).mp h
      obtain ⟨g4, h4, h⟩ := (Gen.bind_eq_ok _ _ _).mp h
      obtain ⟨b5, h5, h⟩ := (Gen.bind_eq_ok _ _ _).mp h
      obtain ⟨g6, h6, h⟩ := (Gen.bind_eq_ok _ _ _).mp h
      obtain ⟨b7, h7, h⟩ := (Gen.bind_eq_ok _ _ _).mp h
      obtain ⟨g8, h8, h⟩ := (Gen.bind_eq_ok _ _ _).mp h
      obtain ⟨b9, h9, h⟩ := (Gen.bind_eq_ok _ _ _).mp h
      obtain ⟨p, hh, hd, hp, hhh, hhd, e1, e2, e3, _, _, e6⟩ :=
        (three_blocks g _ _ _ b1 b2 b3).mp ⟨h1, h2, h3⟩
      rw [e1, e2] at h5
      rw [e1] at h6
      rw [e3] at h7 h9 h
      rw [e2] at h8
      rw [e6] at h4
      have v5 : b5 = (.instr g4.nextId .VOID, b5.2) := by
        obtain ⟨_, _, _, _, rfl⟩ := (insert_eq_ok _ _ _ _ _).mp h5
        rfl
      have v7 : b7 = (.instr g6.nextId .VOID, b7.2) := by
        obtain ⟨_, _, _, _, rfl⟩ := (insert_eq_ok _ _ _ _ _).mp h7
        rfl
      have v9 : b9 = (.instr g8.nextId .VOID, b9.2) := by
        obtain ⟨_, _, _, _, rfl⟩ := (insert_eq_ok _ _ _ _ _).mp h9
        rfl
      rw [v5] at h5
      rw [v7] at h7
      rw [v9] at h9
      simp only [Gen.ok.injEq] at h
      exact ⟨p, hh, hd, g4, b5.2, g6, b7.2, g8, b9.2, hp, hhh, hhd, h4, h5, h6, h7, h8, h9,
        h.symm⟩
    · rintro ⟨p, h, hd, g4, g5, g6, g7, g8, g9, hp, hh, hhd, h4, h5, h6, h7, h8, h9, rfl⟩
      obtain ⟨h1, h2, h3⟩ := (three_blocks g "trueBlock" "falseBlock" "contBlock"
        (g.nextId, _) (g.nextId + 1, _) (g.nextId + 2, _)).mpr
        ⟨p, h, hd, hp, hh, hhd, rfl, rfl, rfl, rfl, rfl, rfl⟩
      rw [h1]
      simp only [Gen.bind]
      rw [h2]
      simp only [Gen.bind]
      rw [h3]
      simp only [Gen.bind]
      rw [h4]
      simp only [Gen.bind]
      rw [h5]
      simp only [Gen.bind]
      rw [h6]
      simp only [Gen.bind]
      rw [h7]
      simp only [Gen.bind]
      rw [h8]
      simp only [Gen.bind]
      rw [h9]
  refine ⟨key, ?_, ?_⟩
  · intro h
    obtain ⟨_, _, _, _, _, _, _, _, _, _, _, _, _, _, _, _, _, _, rfl⟩ := key.mp h
    rfl
  · intro he h
    subst he
    obtain ⟨_, _, _, _, _, _, g7, g8, g9, _, _, _, _, _, _, _, h8, h9, rfl⟩ := key.mp h
    rw [codegenOptStmt_none] at h8
    simp only [Gen.ok.injEq] at h8
    subst h8
    obtain ⟨p8, bb, hp8, hbb, e9⟩ := (insert_eq_ok _ _ _ _ _).mp h9
    simp only [setInsertPoint, Option.some.injEq] at hbb
    subst hbb
    simp only [Prod.mk.injEq] at e9
    obtain ⟨_, rfl⟩ := e9
    refine ⟨_, rfl, ?_⟩
    intro h hh b hb hid
    exact ⟨_, appendInstr_last _ _ _ h hh b hb hid, rfl⟩

theorem cond_lowering_witness :
    codegenStmt false (.CondStmt (.BoolExpr true) none none) IRDemo.inHandler
      = .ok { program_ := some ⟨[⟨"main",
                [⟨0, "EntryPoint", [⟨4, .VOID, "if.cond", .condBr (some (.const (.int 1))) 1 2⟩]⟩,
                 ⟨1, "trueBlock", [⟨5, .VOID, "", .br 3⟩]⟩,
                 ⟨2, "falseBlock", [⟨6, .VOID, "", .br 3⟩]⟩,
                 ⟨3, "contBlock", []⟩], some 0⟩]⟩,
              handler_ := some 0, insertPoint_ := some 3, scope_ := [], result_ := none,
              nextId := 7, detached := [], stderr := [] }
    ∧ (some 3 : Option Nat) = some (IRDemo.inHandler.nextId + 2) := by
  have h : codegenStmt false (.CondStmt (.BoolExpr true) none none) IRDemo.inHandler
      = .ok { program_ := some ⟨[⟨"main",
                [⟨0, "EntryPoint", [⟨4, .VOID, "if.cond", .condBr (some (.const (.int 1))) 1 2⟩]⟩,
                 ⟨1, "trueBlock", [⟨5, .VOID, "", .br 3⟩]⟩,
                 ⟨2, "falseBlock", [⟨6, .VOID, "", .br 3⟩]⟩,
                 ⟨3, "contBlock", []⟩], some 0⟩]⟩,
              handler_ := some 0, insertPoint_ := some 3, scope_ := [], result_ := none,
              nextId := 7, detached := [], stderr := [] } := by
    simp [IRDemo.inHandler, codegenStmt_cond, codegenOptStmt_none, codegenExpr_bool,
      createBlock, createCondBr, createBr, insert, setInsertPoint, appendInstr, Gen.bind]
  exact ⟨h, (cond_lowering false (.BoolExpr true) none none IRDemo.inHandler _).2.1 h⟩

/-- C21: on `match "a" { on "x" { } }` the generator builds the match
instruction (condition "a", the pair of the label "x" and block 2, no else
block) but inserts it into no block: the block that evaluates the condition
(`EntryPoint`, id 0) stays empty, and the only instruction of the handler is
the branch of the case block to the continuation block. -/
theorem match_instr_not_inserted :
    codegenStmt false IRDemo.oneCaseMatch IRDemo.inHandler
      = .ok { program_ := some ⟨[⟨"main", [⟨0, "EntryPoint", []⟩, ⟨1, "match.cont", []⟩,
                  ⟨2, "match.case", [⟨3, .VOID, "", .br 1⟩]⟩], some 0⟩]⟩,
              handler_ := some 0, insertPoint_ := some 1, scope_ := [],
              result_ := some (.const (.string "a")), nextId := 4,
              detached := [.matchInstr .Same (some (.const (.string "a")))
                [(.const (.string "x"), 2)] none],
              stderr := [] } := by
  simp [IRDemo.oneCaseMatch, IRDemo.inHandler, codegenStmt_match_none, codegenCases_string,
    codegenCases_nil, codegenStmt_compound, codegenStmts_nil, codegenExpr_string, createBlock,
    createBr, insert, setInsertPoint, appendInstr, Gen.bind]

/-- C22 (as stated, refuted): for the handler `main` whose body is the
expression `"ab" SCONTAINS "a"`, an operator that is not in the table of
`accept(BinaryExpr&)`, `generate` produces a program, and its entry block
holds a VM instruction that carries the operator. -/
theorem binary_unsupported_operator_inserted :
    FlowVM.Opcode.SCONTAINS ∉ binaryOps
    ∧ generate false [.Handler "main" []
        (some (.ExprStmt (.BinaryExpr .SCONTAINS (.StringExpr "ab") (.StringExpr "a"))))]
      = .ok (some ⟨[⟨"main", [⟨0, "EntryPoint",
          [⟨1, .BOOLEAN, "", .vm .SCONTAINS
              [some (.const (.string "ab")), some (.const (.string "a"))]⟩,
           ⟨2, .VOID, "", .ret (.const (.boolean false))⟩]⟩], some 0⟩]⟩) := by
  refine ⟨by decide, ?_⟩
  simp [generate_eq, codegenSymbols_cons, codegenSymbols_nil, codegenSymbol_handler,
    codegenOptStmt_some, codegenStmt_expr, codegenExpr_binary, codegenExpr_string, getHandler,
    setHandler, createBlock, setEntryPoint, setInsertPoint, createRet, createVm, insert,
    appendInstr, setProgram, init, resultType, Gen.bind]

/-- C22 (amended): a binary expression whose operator is not in the table
is lowered all the same: after its operands, a generic VM instruction carrying
the operator is inserted at the insertion point and is the value of the
expression. For a unary expression whose operator is not in the table, after
the operand is lowered, the assertion fails when assertions are enabled (the
run is aborted and produces no program), and when they are compiled out a
generic VM instruction carrying the operator is inserted. -/
theorem unsupported_operator (ndebug : Bool) (op : FlowVM.Opcode) (g : IRGenerator) :
    (op ∉ binaryOps → ∀ l r g1 g2 p bb, codegenExpr ndebug l g = .ok g1 →
      codegenExpr ndebug r g1 = .ok g2 → g2.program_ = some p → g2.insertPoint_ = some bb →
      codegenExpr ndebug (.BinaryExpr op l r) g
        = .ok { g2 with
            program_ := some ⟨appendInstr bb
              ⟨g2.nextId, resultType op, "", .vm op [g1.result_, g2.result_]⟩ p.handlers⟩,
            nextId := g2.nextId + 1,
            result_ := some (.instr g2.nextId (resultType op)) })
    ∧ (op ∉ unaryOps → ∀ sub g1, codegenExpr ndebug sub g = .ok g1 →
      (ndebug = false → codegenExpr ndebug (.UnaryExpr op sub) g = .fail .assertion)
      ∧ (ndebug = true → ∀ p bb, g1.program_ = some p → g1.insertPoint_ = some bb →
        codegenExpr ndebug (.UnaryExpr op sub) g
          = .ok { g1 with
              program_ := some ⟨appendInstr bb
                ⟨g1.nextId, resultType op, "", .vm op [g1.result_]⟩ p.handlers⟩,
              nextId := g1.nextId + 1,
              result_ := some (.instr g1.nextId (resultType op)) })) := by
  constructor
  · intro hop l r g1 g2 p bb h1 h2 hp hbb
    rw [codegenExpr_binary, h1]
    simp only [Gen.bind, h2, hop, if_false]
    have h3 := (insert_eq_ok g2 (resultType op) "" (.vm op [g1.result_, g2.result_]) _).mpr
      ⟨p, bb, hp, hbb, rfl⟩
    simp only [createVm, h3]
  · intro hop sub g1 h1
    constructor
    · intro hn
      subst hn
      rw [codegenExpr_unary, h1]
      simp [Gen.bind, hop]
    · intro hn p bb hp hbb
      subst hn
      rw [codegenExpr_unary, h1]
      have h3 := (insert_eq_ok g1 (resultType op) "" (.vm op [g1.result_]) _).mpr
        ⟨p, bb, hp, hbb, rfl⟩
      simp only [Gen.bind, hop, if_false, if_true, createVm, h3]

theorem unsupported_operator_witness :
    FlowVM.Opcode.SCONTAINS ∉ binaryOps
    ∧ codegenExpr false (.BinaryExpr .SCONTAINS (.StringExpr "ab") (.StringExpr "a"))
        IRDemo.inHandler
      = .ok { IRDemo.inHandler with
          program_ := some ⟨appendInstr 0 ⟨1, .BOOLEAN, "", .vm .SCONTAINS
            [some (.const (.string "ab")), some (.const (.string "a"))]⟩
            [⟨"main", [⟨0, "EntryPoint", []⟩], some 0⟩]⟩,
          nextId := 2,
          result_ := some (.instr 1 .BOOLEAN) } :=
  ⟨by decide,
    (unsupported_operator false .SCONTAINS IRDemo.inHandler).1 (by decide)
      (.StringExpr "ab") (.StringExpr "a")
      { IRDemo.inHandler with result_ := some (.const (.string "ab")) }
      { IRDemo.inHandler with result_ := some (.const (.string "a")) }
      ⟨[⟨"main", [⟨0, "EntryPoint", []⟩], some 0⟩]⟩ 0 rfl rfl rfl rfl⟩

/-- C23: for the handler `main` with the local variable `v` initialised to
the number 1 and the body `v = "s"`, the generator asserts that the type of
the slot and the type of the value are equal; with assertions enabled the
assertion fails, and with assertions compiled out the store of the string
into the slot of type NUMBER is emitted all the same (instruction 3): nothing
but the assertion stands between differing types and `createStore`. -/
theorem assign_store_emitted_on_type_mismatch :
    generate true [.Handler "main" [.Variable "v" (.NumberExpr 1)]
        (some (.AssignStmt "v" (.StringExpr "s")))]
      = .ok (some ⟨[⟨"main", [⟨0, "EntryPoint",
          [⟨1, .NUMBER, "v", .alloca (.const (.int 1))⟩,
           ⟨2, .VOID, "", .store (some (.instr 1 .NUMBER)) (some (.const (.int 1)))⟩,
           ⟨3, .VOID, "assignment",
              .store (some (.instr 1 .NUMBER)) (some (.const (.string "s")))⟩,
           ⟨4, .VOID, "", .ret (.const (.boolean false))⟩]⟩], some 0⟩]⟩)
    ∧ generate false [.Handler "main" [.Variable "v" (.NumberExpr 1)]
        (some (.AssignStmt "v" (.StringExpr "s")))]
      = .fail .assertion := by
  constructor <;>
  simp [generate_eq, codegenSymbols_cons, codegenSymbols_nil, codegenSymbol_handler,
    codegenSymbol_variable, codegenOptStmt_some, codegenStmt_assign, codegenExpr_number,
    codegenExpr_string, getHandler, setHandler, createBlock, setEntryPoint, setInsertPoint,
    createRet, createAlloca, createStore, update, lookup, insert, appendInstr, setProgram, init,
    Value.type, List.lookup, Gen.bind]

/-- The lowering of an assignment whose variable has a slot and whose
right-hand side is lowered to a value: with assertions enabled, when the type
of the slot and the type of the value differ the assertion fails (the run is
aborted, no store is emitted), and when they are identical the store of the
value into the slot is inserted at the insertion point; with assertions
compiled out the store is inserted whatever the two types are. -/
theorem assign_lowering (ndebug : Bool) (var : String) (expression : Expr)
    (g g1 : IRGenerator) (l r : Value)
    (hl : lookup g var = some l) (he : codegenExpr ndebug expression g = .ok g1)
    (hr : g1.result_ = some r) :
    (ndebug = false → l.type ≠ r.type →
      codegenStmt ndebug (.AssignStmt var expression) g = .fail .assertion)
    ∧ (ndebug = true ∨ l.type = r.type → ∀ p bb, g1.program_ = some p →
      g1.insertPoint_ = some bb →
      codegenStmt ndebug (.AssignStmt var expression) g
        = .ok { g1 with
            program_ := some ⟨appendInstr bb
              ⟨g1.nextId, .VOID, "assignment", .store (some l) (some r)⟩ p.handlers⟩,
            nextId := g1.nextId + 1,
            result_ := some (.instr g1.nextId .VOID) }) := by
  constructor
  · intro hn hne
    subst hn
    rw [codegenStmt_assign, he]
    simp [Gen.bind, hl, hr, hne]
  · intro hor p bb hp hbb
    rw [codegenStmt_assign, he]
    have h3 := (insert_eq_ok g1 .VOID "assignment" (.store (some l) (some r)) _).mpr
      ⟨p, bb, hp, hbb, rfl⟩
    cases ndebug with
    | true => simp only [Gen.bind, hl, hr, if_true, createStore, h3]
    | false =>
      rcases hor with h | h
      · cases h
      · simp [Gen.bind, hl, hr, h, createStore, h3]

theorem assign_lowering_witness :
    lookup { IRDemo.inHandler with scope_ := [("v", .instr 9 .NUMBER)] } "v"
      = some (.instr 9 .NUMBER)
    ∧ codegenStmt false (.AssignStmt "v" (.StringExpr "s"))
        { IRDemo.inHandler with scope_ := [("v", .instr 9 .NUMBER)] } = .fail .assertion :=
  ⟨rfl,
    (assign_lowering false "v" (.StringExpr "s")
      { IRDemo.inHandler with scope_ := [("v", .instr 9 .NUMBER)] }
      { IRDemo.inHandler with scope_ := [("v", .instr 9 .NUMBER)],
                              result_ := some (.const (.string "s")) }
      (.instr 9 .NUMBER) (.const (.string "s")) rfl rfl rfl).1 rfl (by decide)⟩

/-- C30: on the array literal `[7, 8]` (N = 2) the loop of
`accept(ArrayExpr&)` runs with i = 1 and i = 2: after the size, the element
`values()[1]` = 8 is stored at slot 1, the element 7 at index 0 is never
lowered or stored, and the iteration i = 2 reads `values()[2]`, outside the
literal. The empty literal is lowered to the array of the size alone. -/
theorem array_literal_off_by_one :
    ((createAlloca IRDemo.inHandler .ARRAY_NUMBER (.const (.int 3)) "").bind fun a =>
      (createArraySet a.2 a.1 (.const (.int 0)) (some (.const (.int 2)))).bind fun b =>
        codegenElements false a.1 [.NumberExpr 8] 1 b.2)
      = .ok { IRDemo.inHandler with
          program_ := some ⟨[⟨"main", [⟨0, "EntryPoint",
            [⟨1, .ARRAY_NUMBER, "", .alloca (.const (.int 3))⟩,
             ⟨2, .VOID, "", .arraySet (.instr 1 .ARRAY_NUMBER) (.const (.int 0))
                (some (.const (.int 2)))⟩,
             ⟨3, .VOID, "", .arraySet (.instr 1 .ARRAY_NUMBER) (.const (.int 1))
                (some (.const (.int 8)))⟩]⟩], some 0⟩]⟩,
          result_ := some (.const (.int 8)),
          nextId := 4 }
    ∧ codegenExpr false (.ArrayExpr .ARRAY_NUMBER [.NumberExpr 7, .NumberExpr 8])
        IRDemo.inHandler = .fail .undefined
    ∧ codegenExpr false (.ArrayExpr .ARRAY_NUMBER [.NumberExpr 7]) IRDemo.inHandler
        = .fail .undefined
    ∧ codegenExpr false (.ArrayExpr .ARRAY_NUMBER []) IRDemo.inHandler
        = .ok { IRDemo.inHandler with
            program_ := some ⟨[⟨"main", [⟨0, "EntryPoint",
              [⟨1, .ARRAY_NUMBER, "", .alloca (.const (.int 1))⟩,
               ⟨2, .VOID, "", .arraySet (.instr 1 .ARRAY_NUMBER) (.const (.int 0))
                  (some (.const (.int 0)))⟩]⟩], some 0⟩]⟩,
            result_ := some (.instr 1 .ARRAY_NUMBER),
            nextId := 3 } := by
  refine ⟨?_, ?_, ?_, ?_⟩
  · simp [IRDemo.inHandler, codegenElements_cons, codegenElements_nil, codegenExpr_number,
      createAlloca, createArraySet, insert, appendInstr, Gen.bind]
  · simp [IRDemo.inHandler, codegenExpr_array_cons, codegenElements_cons, codegenElements_nil,
      codegenExpr_number, createAlloca, createArraySet, insert, appendInstr, Gen.bind]
  · simp [IRDemo.inHandler, codegenExpr_array_cons, codegenElements_nil,
      createAlloca, createArraySet, insert, appendInstr, Gen.bind]
  · simp [IRDemo.inHandler, codegenExpr_array_nil,
      createAlloca, createArraySet, insert, appendInstr, Gen.bind]

end IRGenerator
namespace DirectorPlugin

/-! ## The director plugin: `urldecode` and `parseArgs` -/

theorem urldecodeLoop_total (s : List UInt8) :
    ∀ (fuel i : Nat) (sb : List UInt8), s.length - i < fuel →
      ∃ out, urldecodeLoop s fuel i sb = some out ∧ out.length ≤ sb.length + (s.length - i) := by
  intro fuel
  induction fuel with
  | zero => intro i sb h; omega
  | succ fuel ih =>
    intro i sb h
    unfold urldecodeLoop
    cases hc : s[i]? with
    | none => exact ⟨sb, rfl, by omega⟩
    | some c =>
      have hi : i < s.length := by
        rcases Nat.lt_or_ge i s.length with h1 | h1
        · exact h1
        · rw [List.getElem?_eq_none h1] at hc
          cases hc
      simp only
      split_ifs with h37 h43
      · have hsub : substr s (i + 1) 2 = some ((s.drop (i + 1)).take 2) := by
          simp [substr, Nat.succ_le_of_lt hi]
        rw [hsub]
        obtain ⟨out, ho, hl⟩ := ih (i + 3)
          (sb ++ [UInt8.ofNat (strtol16 ((s.drop (i + 1)).take 2) % 256).toNat]) (by omega)
        refine ⟨out, ho, ?_⟩
        simp only [List.length_append, List.length_singleton] at hl
        omega
      · obtain ⟨out, ho, hl⟩ := ih (i + 1) (sb ++ [32]) (by omega)
        refine ⟨out, ho, ?_⟩
        simp only [List.length_append, List.length_singleton] at hl
        omega
      · obtain ⟨out, ho, hl⟩ := ih (i + 1) (sb ++ [c]) (by omega)
        refine ⟨out, ho, ?_⟩
        simp only [List.length_append, List.length_singleton] at hl
        omega

theorem hexDigit_range (h : UInt8) (d : Nat) (hd : hexDigit h = some d) :
    d < 16 ∧ 48 ≤ h.toNat ∧ h.toNat ≤ 102 := by
  unfold hexDigit at hd
  split_ifs at hd <;> simp only [Option.some.injEq] at hd <;> omega

theorem hexDigit_facts (h : UInt8) (d : Nat) (hd : hexDigit h = some d) :
    h ≠ 0 ∧ isspace h = false ∧ h ≠ 45 ∧ h ≠ 43 ∧ h ≠ 37 := by
  obtain ⟨_, hlo, hhi⟩ := hexDigit_range h d hd
  refine ⟨?_, ?_, ?_, ?_, ?_⟩
  · intro e
    rw [e] at hlo
    exact absurd hlo (by decide)
  · simp only [isspace, Bool.or_eq_false_iff, decide_eq_false_iff_not, Bool.and_eq_false_iff]
    omega
  · intro e
    rw [e] at hlo
    exact absurd hlo (by decide)
  · intro e
    rw [e] at hlo
    exact absurd hlo (by decide)
  · intro e
    rw [e] at hlo
    exact absurd hlo (by decide)

theorem strtol16_hex (h1 h2 : UInt8) (d1 d2 : Nat) (e1 : hexDigit h1 = some d1)
    (e2 : hexDigit h2 = some d2) : strtol16 [h1, h2] = ((16 * d1 + d2 : Nat) : Int) := by
  obtain ⟨a1, a2, a3, a4, _⟩ := hexDigit_facts h1 d1 e1
  obtain ⟨b1, _, _, _, _⟩ := hexDigit_facts h2 d2 e2
  obtain ⟨r1, _, _⟩ := hexDigit_range h1 d1 e1
  obtain ⟨r2, _, _⟩ := hexDigit_range h2 d2 e2
  have hv : hexValue [h1, h2] 0 = 16 * d1 + d2 := by
    simp [hexValue, e1, e2]
  have hsmall : ¬ (16 * d1 + d2 > 2 ^ 63 - 1) := by omega
  simp only [strtol16, List.takeWhile, a1, b1, ne_eq, not_false_eq_true, decide_True,
    List.dropWhile, a2, List.head?, Option.some.injEq, a3, a4, or_self, if_false, hv,
    decide_False, Bool.false_eq_true]
  simp only [gt_iff_lt, Nat.reducePow, Nat.add_one_sub_one, Nat.cast_add, Nat.cast_mul,
    Nat.cast_ofNat]
  split_ifs with hbig
  · omega
  · rfl

theorem getElem?_append_length (pre : List UInt8) (x : UInt8) (rest : List UInt8) :
    (pre ++ x :: rest)[pre.length]? = some x := by
  rw [List.getElem?_append_right (Nat.le_refl _)]
  simp

/-- The loop of `urldecode` on well-formed pieces: from the index at which the
pieces start, the bytes they stand for are pushed to the buffer. -/
theorem urldecodeLoop_tokens :
    ∀ (toks : List Token) (pre sb : List UInt8) (fuel : Nat),
      (∀ t ∈ toks, t.decoded.isSome) → (toks.flatMap Token.encoded).length < fuel →
      urldecodeLoop (pre ++ toks.flatMap Token.encoded) fuel pre.length sb
        = some (sb ++ toks.filterMap Token.decoded) := by
  intro toks
  induction toks with
  | nil =>
    intro pre sb fuel _ hf
    cases fuel with
    | zero => simp at hf
    | succ fuel => simp [urldecodeLoop]
  | cons t rest ih =>
    intro pre sb fuel hwf hf
    have hrest : ∀ t ∈ rest, t.decoded.isSome := fun t ht => hwf t (List.mem_cons_of_mem _ ht)
    have ht := hwf t (List.mem_cons_self _ _)
    cases fuel with
    | zero => simp at hf
    | succ fuel =>
      cases t with
      | plus =>
        simp only [List.flatMap_cons, Token.encoded, List.singleton_append, List.length_cons,
          Nat.add_lt_add_iff_right] at hf ⊢
        have := ih (pre ++ [43]) (sb ++ [32]) fuel hrest hf
        simp only [List.append_assoc, List.singleton_append, List.length_append,
          List.length_singleton] at this
        simp only [urldecodeLoop, getElem?_append_length]
        simp [this, Token.decoded]
      | other c =>
        simp only [Token.decoded] at ht
        split_ifs at ht with hc
        · simp at ht
        · simp only [not_or] at hc
          simp only [List.flatMap_cons, Token.encoded, List.singleton_append, List.length_cons,
            Nat.add_lt_add_iff_right] at hf ⊢
          have := ih (pre ++ [c]) (sb ++ [c]) fuel hrest hf
          simp only [List.append_assoc, List.singleton_append, List.length_append,
            List.length_singleton] at this
          simp only [urldecodeLoop, getElem?_append_length]
          simp [this, Token.decoded, hc.1, hc.2]
      | escape h1 h2 =>
        simp only [Token.decoded] at ht
        cases e1 : hexDigit h1 with
        | none => simp [e1] at ht
        | some d1 =>
          cases e2 : hexDigit h2 with
          | none => simp [e1, e2] at ht
          | some d2 =>
            obtain ⟨r1, _, _⟩ := hexDigit_range h1 d1 e1
            obtain ⟨r2, _, _⟩ := hexDigit_range h2 d2 e2
            simp only [List.flatMap_cons, Token.encoded, List.cons_append, List.nil_append,
              List.length_cons] at hf ⊢
            have := ih (pre ++ [37, h1, h2]) (sb ++ [UInt8.ofNat (16 * d1 + d2)]) fuel hrest
              (by omega)
            simp only [List.append_assoc, List.cons_append, List.nil_append, List.length_append,
              List.length_cons, List.length_nil] at this
            have hsub : substr (pre ++ 37 :: h1 :: h2 :: rest.flatMap Token.encoded)
                (pre.length + 1) 2 = some [h1, h2] := by
              simp [substr, List.drop_append]
            have hbyte : (((16 * d1 + d2 : Nat) : Int) % 256).toNat = 16 * d1 + d2 := by
              omega
            simp only [urldecodeLoop, getElem?_append_length, hsub, if_true,
              strtol16_hex h1 h2 d1 d2 e1 e2, hbyte]
            simp [this, Token.decoded, e1, e2]

/-- C37: for every input string, `urldecode` returns (its `substr` never
throws) and its output is no longer than its input, a `%` in the last or
second-to-last position included; and for every input made of pieces `+`,
`%HH` with two hexadecimal digits, and bytes other than `%` and `+` (that is,
every input in which each `%` is followed by two hexadecimal digits) it
returns the string of the bytes the pieces stand for: a space for `+`, the
byte of value HH for `%HH`, and every other byte unchanged. -/
theorem urldecode_decodes (AString : List UInt8) :
    (∃ out, urldecode AString = some out ∧ out.length ≤ AString.length)
    ∧ ∀ toks : List Token, (∀ t ∈ toks, t.decoded.isSome) →
        AString = toks.flatMap Token.encoded →
        urldecode AString = some (toks.filterMap Token.decoded) := by
  constructor
  · obtain ⟨out, h, hl⟩ := urldecodeLoop_total AString (AString.length + 1) 0 [] (by omega)
    exact ⟨out, h, by simpa using hl⟩
  · intro toks hwf he
    subst he
    have := urldecodeLoop_tokens toks [] [] ((toks.flatMap Token.encoded).length + 1) hwf
      (by omega)
    simpa [urldecode] using this

theorem urldecode_decodes_witness :
    (∀ t ∈ [Token.other 97, .escape 52 49, .plus, .escape 102 70], t.decoded.isSome)
    ∧ urldecode [97, 37, 52, 49, 43, 37, 102, 70] = some [97, 65, 32, 255]
    ∧ urldecode [97, 37] = some [97, 0]
    ∧ urldecode [37, 52] = some [4] :=
  ⟨by decide,
    (urldecode_decodes [97, 37, 52, 49, 43, 37, 102, 70]).2
      [Token.other 97, .escape 52 49, .plus, .escape 102 70] (by decide) (by decide),
    by decide, by decide⟩

theorem flatMap_other (s : List UInt8) :
    (s.map Token.other).flatMap Token.encoded = s := by
  induction s with
  | nil => rfl
  | cons c rest ih =>
    simp only [List.map_cons, List.flatMap_cons, Token.encoded, List.singleton_append, ih]

theorem filterMap_other (s : List UInt8) (h : ∀ c ∈ s, c ≠ 37 ∧ c ≠ 43) :
    (s.map Token.other).filterMap Token.decoded = s := by
  induction s with
  | nil => rfl
  | cons c rest ih =>
    have hc := h c (List.mem_cons_self _ _)
    have hrest : ∀ c ∈ rest, c ≠ 37 ∧ c ≠ 43 := fun c hc => h c (List.mem_cons_of_mem _ hc)
    simp only [List.map_cons, List.filterMap_cons, Token.decoded, hc.1, hc.2, or_self,
      if_false, ih hrest]

theorem urldecode_plain (s : List UInt8) (h : ∀ c ∈ s, c ≠ 37 ∧ c ≠ 43) :
    urldecode s = some s := by
  have h1 := flatMap_other s
  have h2 := filterMap_other s h
  have h3 := urldecodeLoop_tokens (s.map Token.other) [] []
    (((s.map Token.other).flatMap Token.encoded).length + 1)
    (by
      intro t ht
      obtain ⟨c, hc, rfl⟩ := List.mem_map.mp ht
      have := h c hc
      simp [Token.decoded, this.1, this.2])
    (by omega)
  rw [h1, h2] at h3
  simpa [urldecode] using h3

theorem takeWhile_append_stop {α : Type} (p : α → Bool) (x : α) (r : List α) :
    ∀ l : List α, (∀ a ∈ l, p a = true) → p x = false → (l ++ x :: r).takeWhile p = l := by
  intro l
  induction l with
  | nil => intro _ hx; simp [List.takeWhile, hx]
  | cons a l ih =>
    intro hl hx
    have ha := hl a (List.mem_cons_self _ _)
    simp [List.takeWhile, ha, ih (fun b hb => hl b (List.mem_cons_of_mem _ hb)) hx]

theorem takeWhile_all {α : Type} (p : α → Bool) :
    ∀ l : List α, (∀ a ∈ l, p a = true) → l.takeWhile p = l := by
  intro l
  induction l with
  | nil => intro _; rfl
  | cons a l ih =>
    intro hl
    have ha := hl a (List.mem_cons_self _ _)
    simp [List.takeWhile, ha, ih (fun b hb => hl b (List.mem_cons_of_mem _ hb))]

theorem find_assign (args : ArgMap) (k v key : List UInt8) :
    (args.assign k v).find key = if k = key then some v else args.find key := by
  have hmap : ∀ l : ArgMap,
      ((l.map (fun kv => if kv.1 = k then (kv.1, v) else kv)).find?
        (fun kv => kv.1 = key)).map (fun kv => kv.2)
      = if k = key then (if l.any (fun kv => kv.1 = k) then some v else none)
        else (l.find? (fun kv => kv.1 = key)).map (fun kv => kv.2) := by
    intro l
    induction l with
    | nil => simp
    | cons a l ih =>
      simp only [List.map_cons, List.find?_cons, List.any_cons]
      by_cases hak : a.1 = k
      · by_cases hkk : k = key
        · simp [hak, hkk]
        · have h1 : ¬ a.1 = key := by rw [hak]; exact hkk
          simp only [hkk, if_false] at ih
          simp only [hak, if_true, hkk, if_false, decide_False, h1]
          exact ih
      · by_cases hkk : k = key
        · have h1 : ¬ a.1 = key := by rw [← hkk]; exact hak
          simp only [hkk, if_true] at ih
          simp only [hak, if_false, h1, decide_False, hkk, if_true, Bool.false_or]
          rw [← hkk]
          rw [← hkk] at ih
          exact ih
        · simp only [hkk, if_false] at ih
          simp only [hak, if_false, hkk]
          by_cases hakey : a.1 = key
          · simp [hakey]
          · simp only [hakey, decide_False]
            exact ih
  unfold ArgMap.assign ArgMap.find
  by_cases hany : args.any (fun kv => kv.1 = k) = true
  · rw [if_pos hany, hmap]
    by_cases hkk : k = key
    · simp [hkk]
      subst hkk
      simpa using hany
    · simp [hkk]
  · rw [if_neg hany]
    simp only [List.find?_append]
    by_cases hkk : k = key
    · subst hkk
      have : args.find? (fun kv => kv.1 = k) = none := by
        simp only [List.find?_eq_none]
        intro x hx hxk
        apply hany
        simp only [List.any_eq_true]
        exact ⟨x, hx, hxk⟩
      simp [this]
    · simp [hkk]

theorem keys_assign (args : ArgMap) (k v : List UInt8)
    (h : (args.map (fun kv => kv.1)).Nodup) :
    ((args.assign k v).map (fun kv => kv.1)).Nodup := by
  unfold ArgMap.assign
  by_cases hany : args.any (fun kv => kv.1 = k) = true
  · rw [if_pos hany]
    have : (args.map (fun kv => if kv.1 = k then (kv.1, v) else kv)).map (fun kv => kv.1)
        = args.map (fun kv => kv.1) := by
      rw [List.map_map]
      apply List.map_congr_left
      intro a _
      simp only [Function.comp]
      split_ifs <;> rfl
    rw [this]
    exact h
  · rw [if_neg hany]
    simp only [List.map_append, List.map_cons, List.map_nil]
    rw [List.nodup_append]
    refine ⟨h, List.nodup_singleton _, ?_⟩
    intro a ha hb
    simp only [List.mem_singleton] at hb
    subst hb
    apply hany
    obtain ⟨x, hx, hxa⟩ := List.mem_map.mp ha
    simp only [List.any_eq_true]
    exact ⟨x, hx, by simpa using hxa⟩

theorem plain_facts (c : UInt8) (h : plain c = true) :
    c ≠ 61 ∧ c ≠ 38 ∧ c ≠ 37 ∧ c ≠ 43 ∧ c ≠ 0 := by
  simpa [plain, and_assoc] using h

theorem parseArgsLoop_pair (fuel : Nat) (k v t : List UInt8) (args : ArgMap)
    (hk : k ≠ []) (hv : v ≠ []) (hkp : ∀ c ∈ k, plain c = true) (hvp : ∀ c ∈ v, plain c = true)
    (ht : t = [] ∨ ∃ t', t = 38 :: t')
    (hlen : (k ++ 61 :: (v ++ t)).length < 2 ^ 32) :
    parseArgsLoop (fuel + 1) (k ++ 61 :: (v ++ t)) args
      = parseArgsLoop fuel (t.dropWhile (fun c => c = 38)) (args.assign k v) := by
  have hq : ((k ++ 61 :: (v ++ t)).takeWhile (fun c => c ≠ 61 && c ≠ 38)) = k := by
    apply takeWhile_append_stop
    · intro a ha
      have := plain_facts a (hkp a ha)
      simp [this.1, this.2.1]
    · simp
  have hq2 : ((v ++ t).takeWhile (fun c => c ≠ 38)) = v := by
    rcases ht with rfl | ⟨t', rfl⟩
    · rw [List.append_nil]
      apply takeWhile_all
      intro a ha
      have := plain_facts a (hvp a ha)
      simp [this.2.1]
    · apply takeWhile_append_stop
      · intro a ha
        have := plain_facts a (hvp a ha)
        simp [this.2.1]
      · simp
  have hkl : k.length ≠ 0 := by
    intro h
    exact hk (List.length_eq_zero.mp h)
  have hvl : v.length ≠ 0 := by
    intro h
    exact hv (List.length_eq_zero.mp h)
  simp only [List.length_append, List.length_cons] at hlen
  have hm1 : k.length % 2 ^ 32 = k.length := Nat.mod_eq_of_lt (by omega)
  have hm2 : (k.length + 1) % 2 ^ 32 = k.length + 1 := Nat.mod_eq_of_lt (by omega)
  have hm3 : v.length % 2 ^ 32 = v.length := Nat.mod_eq_of_lt (by omega)
  have hdk : urldecode k = some k := urldecode_plain k (fun c hc =>
    ⟨(plain_facts c (hkp c hc)).2.2.1, (plain_facts c (hkp c hc)).2.2.2.1⟩)
  have hdv : urldecode v = some v := urldecode_plain v (fun c hc =>
    ⟨(plain_facts c (hvp c hc)).2.2.1, (plain_facts c (hvp c hc)).2.2.2.1⟩)
  have hp : ∃ c r, k ++ 61 :: (v ++ t) = c :: r := by
    obtain ⟨c, k', rfl⟩ := List.exists_cons_of_ne_nil hk
    exact ⟨c, _, rfl⟩
  obtain ⟨c, r, hp⟩ := hp
  have hq3 : (c :: r)[k.length]? = some 61 := by
    rw [← hp]
    exact getElem?_append_length k 61 (v ++ t)
  have hd1 : (c :: r).drop (k.length + 1) = v ++ t := by
    rw [← hp]
    simp
  have hd2 : (c :: r).take k.length = k := by
    rw [← hp]
    simp
  rw [hp] at hq
  rw [hp]
  conv_lhs => unfold parseArgsLoop
  simp only [hq, hm1, hm2, hq3, hd1, hd2, if_true, hq2, hm3, ne_eq, hkl, hvl, not_false_eq_true,
    hdk, hdv, List.take_left, List.drop_left]

theorem wellFormed_cons (kv : List UInt8 × List UInt8) (rest : List (List UInt8 × List UInt8))
    (h : wellFormed (kv :: rest) = true) :
    kv.1 ≠ [] ∧ kv.2 ≠ [] ∧ (∀ c ∈ kv.1, plain c = true) ∧ (∀ c ∈ kv.2, plain c = true)
    ∧ wellFormed rest = true := by
  simp only [wellFormed, List.all_cons, Bool.and_eq_true, Bool.not_eq_true',
    List.isEmpty_eq_false, List.all_eq_true] at h
  obtain ⟨⟨⟨⟨h1, h2⟩, h3⟩, h4⟩, h5⟩ := h
  refine ⟨h1, h2, h3, h4, ?_⟩
  simp only [wellFormed, List.all_eq_true, Bool.and_eq_true, Bool.not_eq_true',
    List.isEmpty_eq_false]
  exact h5

theorem query_cons_cons (kv kv' : List UInt8 × List UInt8)
    (rest : List (List UInt8 × List UInt8)) :
    query (kv :: kv' :: rest) = kv.1 ++ 61 :: (kv.2 ++ 38 :: query (kv' :: rest)) := by
  simp [query]

theorem query_single (kv : List UInt8 × List UInt8) :
    query [kv] = kv.1 ++ 61 :: (kv.2 ++ []) := by
  simp [query]

theorem dropWhile_query (ps : List (List UInt8 × List UInt8)) (h : wellFormed ps = true) :
    (query ps).dropWhile (fun c => c = 38) = query ps := by
  cases ps with
  | nil => rfl
  | cons kv rest =>
    obtain ⟨hk, _, hkp, _, _⟩ := wellFormed_cons kv rest h
    obtain ⟨c, k', hck⟩ := List.exists_cons_of_ne_nil hk
    have hc : c ≠ 38 := (plain_facts c (hkp c (by rw [hck]; exact List.mem_cons_self _ _))).2.1
    cases rest with
    | nil => rw [query_single, hck]; simp [List.dropWhile, hc]
    | cons kv' rest => rw [query_cons_cons, hck]; simp [List.dropWhile, hc]

/-- The loop of `parseArgs` on `k1=v1&...&kn=vn`: the pairs are assigned to
the map in order. -/
theorem parseArgsLoop_query :
    ∀ (ps : List (List UInt8 × List UInt8)) (fuel : Nat) (args : ArgMap),
      wellFormed ps = true → (query ps).length < fuel → (query ps).length < 2 ^ 32 →
      parseArgsLoop fuel (query ps) args
        = some (ps.foldl (fun m kv => m.assign kv.1 kv.2) args) := by
  intro ps
  induction ps with
  | nil =>
    intro fuel args _ hf _
    cases fuel with
    | zero => simp at hf
    | succ fuel => simp [query, parseArgsLoop]
  | cons kv rest ih =>
    intro fuel args hwf hf hlen
    obtain ⟨hk, hv, hkp, hvp, hrest⟩ := wellFormed_cons kv rest hwf
    cases fuel with
    | zero => simp at hf
    | succ fuel =>
      cases rest with
      | nil =>
        rw [query_single] at hf hlen ⊢
        rw [parseArgsLoop_pair fuel kv.1 kv.2 [] args hk hv hkp hvp (Or.inl rfl) hlen]
        cases fuel with
        | zero =>
          simp only [List.length_append, List.length_cons] at hf
          have : kv.1.length ≠ 0 := fun h => hk (List.length_eq_zero.mp h)
          omega
        | succ fuel => simp [parseArgsLoop]
      | cons kv' rest =>
        rw [query_cons_cons] at hf hlen ⊢
        rw [parseArgsLoop_pair fuel kv.1 kv.2 (38 :: query (kv' :: rest)) args hk hv hkp hvp
          (Or.inr ⟨_, rfl⟩) hlen]
        have hd : (38 :: query (kv' :: rest)).dropWhile (fun c => c = 38)
            = query (kv' :: rest) := by
          simp only [List.dropWhile, decide_True]
          exact dropWhile_query (kv' :: rest) hrest
        rw [hd]
        simp only [List.length_append, List.length_cons] at hf hlen
        rw [ih fuel (args.assign kv.1 kv.2) hrest (by omega) (by omega)]
        rfl

theorem find_foldl_assign (key : List UInt8) :
    ∀ (ps : List (List UInt8 × List UInt8)) (args : ArgMap),
      (ps.foldl (fun m kv => m.assign kv.1 kv.2) args).find key
        = match ps.reverse.find? (fun kv => kv.1 = key) with
          | some kv => some kv.2
          | none => args.find key := by
  intro ps
  induction ps with
  | nil => intro args; simp
  | cons kv rest ih =>
    intro args
    simp only [List.foldl_cons, ih, List.reverse_cons, List.find?_append]
    cases hr : rest.reverse.find? (fun kv => kv.1 = key) with
    | some kv' => simp
    | none =>
      simp only [Option.none_or, find_assign, List.find?_cons, List.find?_nil]
      by_cases hkk : kv.1 = key
      · simp [hkk]
      · simp [hkk]

theorem keys_foldl_assign :
    ∀ (ps : List (List UInt8 × List UInt8)) (args : ArgMap),
      (args.map (fun kv => kv.1)).Nodup →
      ((ps.foldl (fun m kv => m.assign kv.1 kv.2) args).map (fun kv => kv.1)).Nodup := by
  intro ps
  induction ps with
  | nil => intro args h; exact h
  | cons kv rest ih =>
    intro args h
    exact ih _ (keys_assign args kv.1 kv.2 h)

theorem takeWhile_query (ps : List (List UInt8 × List UInt8)) (h : wellFormed ps = true) :
    (query ps).takeWhile (fun c => c ≠ 0) = query ps := by
  apply takeWhile_all
  intro a ha
  suffices hne : a ≠ 0 by simp [hne]
  induction ps with
  | nil => simp [query] at ha
  | cons kv rest ih =>
    obtain ⟨_, _, hkp, hvp, hrest⟩ := wellFormed_cons kv rest h
    cases rest with
    | nil =>
      rw [query_single] at ha
      simp only [List.append_nil, List.mem_append, List.mem_cons] at ha
      rcases ha with ha | rfl | ha
      · exact (plain_facts a (hkp a ha)).2.2.2.2
      · decide
      · exact (plain_facts a (hvp a ha)).2.2.2.2
    | cons kv' rest =>
      rw [query_cons_cons] at ha
      simp only [List.mem_append, List.mem_cons] at ha
      rcases ha with ha | rfl | ha | rfl | ha
      · exact (plain_facts a (hkp a ha)).2.2.2.2
      · decide
      · exact (plain_facts a (hvp a ha)).2.2.2.2
      · decide
      · exact ih hrest ha

/-- C38: for every query string `k1=v1&k2=v2&...&kn=vn` (shorter than 2^32
bytes) in which all keys and values are non-empty and contain none of `=`,
`&`, `%`, `+` and NUL, `parseArgs` returns a map (one entry per key) that
sends each key to the value of its last occurrence and has no other key. -/
theorem parseArgs_last_occurrence (ps : List (List UInt8 × List UInt8))
    (hwf : wellFormed ps = true) (hlen : (query ps).length < 2 ^ 32) :
    ∃ m : ArgMap, parseArgs (query ps) = some m
      ∧ (m.map (fun kv => kv.1)).Nodup
      ∧ ∀ key, m.find key = (ps.reverse.find? (fun kv => kv.1 = key)).map (fun kv => kv.2) := by
  refine ⟨ps.foldl (fun m kv => m.assign kv.1 kv.2) [], ?_, ?_, ?_⟩
  · unfold parseArgs
    rw [takeWhile_query ps hwf]
    exact parseArgsLoop_query ps _ [] hwf (by omega) hlen
  · exact keys_foldl_assign ps [] List.nodup_nil
  · intro key
    rw [find_foldl_assign]
    cases ps.reverse.find? (fun kv => kv.1 = key) with
    | some kv => rfl
    | none => rfl

theorem parseArgs_last_occurrence_witness :
    wellFormed [([97], [49]), ([98], [50]), ([97], [51])] = true
    ∧ query [([97], [49]), ([98], [50]), ([97], [51])]
        = [97, 61, 49, 38, 98, 61, 50, 38, 97, 61, 51]
    ∧ parseArgs [97, 61, 49, 38, 98, 61, 50, 38, 97, 61, 51] = some [([97], [51]), ([98], [50])]
    ∧ ∃ m : ArgMap, parseArgs (query [([97], [49]), ([98], [50]), ([97], [51])]) = some m
        ∧ (m.map (fun kv => kv.1)).Nodup
        ∧ ∀ key, m.find key
            = ([([97], [49]), ([98], [50]), ([97], [51])].reverse.find?
                (fun kv => kv.1 = key)).map (fun kv => kv.2) :=
  ⟨by decide, by decide, by decide,
    parseArgs_last_occurrence [([97], [49]), ([98], [50]), ([97], [51])] (by decide)
      (by decide)⟩

end DirectorPlugin
namespace TaggedPtr

/-! ## The tagged pointer -/

theorem pack_parts (p t : Nat) (hp : p < 2 ^ 48) (ht : t < 2 ^ 16) :
    pack p t = 2 ^ 48 * t + p := by
  unfold pack
  rw [Nat.shiftLeft_eq, Nat.mul_comm, ← Nat.mul_add_lt_is_or hp]
  apply Nat.mod_eq_of_lt
  omega

theorem ptr_pack (p t : Nat) (hp : p < 2 ^ 48) (ht : t < 2 ^ 16) :
    (pack p t) &&& (2 ^ 48 - 1) = p := by
  rw [pack_parts p t hp ht, Nat.and_pow_two_sub_one_eq_mod]
  omega

theorem tag_pack (p t : Nat) (hp : p < 2 ^ 48) (ht : t < 2 ^ 16) :
    (pack p t) >>> 48 = t := by
  rw [pack_parts p t hp ht, Nat.shiftRight_eq_div_pow]
  omega

/-- C26: for every pointer `p` (an address below 2^48) and 16-bit tag `t`: a
TaggedPtr constructed from (p, t), or on which `set(p, t)` was called last,
returns `p` from `ptr()` and `get()` and `t` from `tag()`; a
default-constructed TaggedPtr has the null pointer and the tag 0; and the
conversion to bool is true exactly when the pointer is not null, whatever the
tag. -/
theorem taggedptr_get_set (p t : Nat) (hp : p < 2 ^ 48) (ht : t < 2 ^ 16) (old : TaggedPtr) :
    (make p t).ptr = p ∧ (make p t).get = p ∧ (make p t).tag = t
    ∧ (old.set p t).ptr = p ∧ (old.set p t).get = p ∧ (old.set p t).tag = t
    ∧ null.ptr = 0 ∧ null.get = 0 ∧ null.tag = 0
    ∧ ((make p t).toBool = true ↔ p ≠ 0)
    ∧ ((old.set p t).toBool = true ↔ p ≠ 0) := by
  have h1 := ptr_pack p t hp ht
  have h2 := tag_pack p t hp ht
  refine ⟨h1, h1, h2, h1, h1, h2, by decide, by decide, by decide, ?_, ?_⟩
  · simp only [toBool, ptr, make, h1, decide_eq_true_eq]
  · simp only [toBool, ptr, set, h1, decide_eq_true_eq]

theorem taggedptr_get_set_witness :
    (4096 : Nat) < 2 ^ 48 ∧ (42 : Nat) < 2 ^ 16
    ∧ (make 4096 42).ptr = 4096 ∧ (make 4096 42).tag = 42
    ∧ ((make 4096 42).set 8192 13).get = 8192 ∧ ((make 4096 42).set 8192 13).tag = 13
    ∧ (make 0 42).toBool = false ∧ (make 4096 42).toBool = true :=
  ⟨by decide, by decide,
    (taggedptr_get_set 4096 42 (by decide) (by decide) null).1,
    (taggedptr_get_set 4096 42 (by decide) (by decide) null).2.2.1,
    (taggedptr_get_set 8192 13 (by decide) (by decide) (make 4096 42)).2.2.2.2.1,
    (taggedptr_get_set 8192 13 (by decide) (by decide) (make 4096 42)).2.2.2.2.2.1,
    by decide, by decide⟩

/-- C27: two TaggedPtr values compare equal if and only if they hold the same
pointer and the same tag (pointers are addresses below 2^48, tags 16-bit): so
(p, t) == (p, t), (p, t) != (p, t') for t != t', and (p, t) != (q, t) for
distinct pointers p and q, whatever they point to. -/
theorem taggedptr_eq_iff (p q t u : Nat) (hp : p < 2 ^ 48) (hq : q < 2 ^ 48)
    (ht : t < 2 ^ 16) (hu : u < 2 ^ 16) :
    (eq (make p t) (make q u) = true ↔ p = q ∧ t = u) := by
  simp only [eq, make, decide_eq_true_eq]
  constructor
  · intro h
    have h1 := ptr_pack p t hp ht
    have h2 := tag_pack p t hp ht
    rw [h] at h1 h2
    rw [ptr_pack q u hq hu] at h1
    rw [tag_pack q u hq hu] at h2
    exact ⟨h1.symm, h2.symm⟩
  · rintro ⟨rfl, rfl⟩
    rfl

theorem taggedptr_eq_iff_witness :
    (4096 : Nat) < 2 ^ 48 ∧ (8192 : Nat) < 2 ^ 48 ∧ (42 : Nat) < 2 ^ 16 ∧ (43 : Nat) < 2 ^ 16
    ∧ eq (make 4096 42) (make 4096 42) = true
    ∧ eq (make 4096 42) (make 4096 43) = false
    ∧ eq (make 4096 42) (make 8192 42) = false
    ∧ (eq (make 4096 42) (make 8192 42) = true ↔ 4096 = 8192 ∧ 42 = 42) :=
  ⟨by decide, by decide, by decide, by decide, by decide, by decide, by decide,
    taggedptr_eq_iff 4096 8192 42 42 (by decide) (by decide) (by decide) (by decide)⟩

end TaggedPtr

namespace HttpWorker

/-! ## The worker: `release` -/

theorem isActiveList_cons (heap : Nat → HttpConnection) (prev head : Option Nat) (c : Nat)
    (rest : List Nat) :
    isActiveList heap prev (c :: rest) head = true ↔
      head = some c ∧ (heap c).prev_ = prev
        ∧ isActiveList heap (some c) rest (heap c).next_ = true := by
  simp [isActiveList, and_assoc]

theorem isFreeList_cons (heap : Nat → HttpConnection) (head : Option Nat) (c : Nat)
    (rest : List Nat) :
    isFreeList heap (c :: rest) head = true ↔
      head = some c ∧ isFreeList heap rest (heap c).next_ = true := by
  simp [isFreeList]

theorem isActiveList_congr (h1 h2 : Nat → HttpConnection) :
    ∀ (l : List Nat) (prev head : Option Nat),
      (∀ x ∈ l, (h1 x).prev_ = (h2 x).prev_ ∧ (h1 x).next_ = (h2 x).next_) →
      isActiveList h1 prev l head = true → isActiveList h2 prev l head = true := by
  intro l
  induction l with
  | nil => intro prev head _ h; simpa [isActiveList] using h
  | cons c rest ih =>
    intro prev head hag h
    obtain ⟨e1, e2, e3⟩ := (isActiveList_cons h1 prev head c rest).mp h
    have hc := hag c (List.mem_cons_self _ _)
    rw [isActiveList_cons]
    refine ⟨e1, by rw [← hc.1]; exact e2, ?_⟩
    rw [← hc.2]
    exact ih (some c) _ (fun x hx => hag x (List.mem_cons_of_mem _ hx)) e3

theorem isFreeList_congr (h1 h2 : Nat → HttpConnection) :
    ∀ (l : List Nat) (head : Option Nat),
      (∀ x ∈ l, (h1 x).next_ = (h2 x).next_) →
      isFreeList h1 l head = true → isFreeList h2 l head = true := by
  intro l
  induction l with
  | nil => intro head _ h; simpa [isFreeList] using h
  | cons c rest ih =>
    intro head hag h
    obtain ⟨e1, e2⟩ := (isFreeList_cons h1 head c rest).mp h
    rw [isFreeList_cons]
    refine ⟨e1, ?_⟩
    rw [← hag c (List.mem_cons_self _ _)]
    exact ih _ (fun x hx => hag x (List.mem_cons_of_mem _ hx)) e2

theorem setNext_next (h : Nat → HttpConnection) (a : Nat) (v : Option Nat) (x : Nat) :
    (setNext h a v x).next_ = if x = a then v else (h x).next_ := by
  unfold setNext
  split_ifs <;> rfl

theorem setNext_prev (h : Nat → HttpConnection) (a : Nat) (v : Option Nat) (x : Nat) :
    (setNext h a v x).prev_ = (h x).prev_ := by
  unfold setNext
  split_ifs with e
  · rw [e]
  · rfl

theorem setPrev_prev (h : Nat → HttpConnection) (a : Nat) (v : Option Nat) (x : Nat) :
    (setPrev h a v x).prev_ = if x = a then v else (h x).prev_ := by
  unfold setPrev
  split_ifs <;> rfl

theorem setPrev_next (h : Nat → HttpConnection) (a : Nat) (v : Option Nat) (x : Nat) :
    (setPrev h a v x).next_ = (h x).next_ := by
  unfold setPrev
  split_ifs with e
  · rw [e]
  · rfl

theorem unlink_prev (heap : Nat → HttpConnection) (c x : Nat) :
    ((unlink heap c) x).prev_
      = if (heap c).next_ = some x then (heap c).prev_ else (heap x).prev_ := by
  unfold unlink
  cases hp : (heap c).prev_ with
  | none =>
    cases hn : (heap c).next_ with
    | none => simp
    | some b =>
      simp only [setPrev_prev, Option.some.injEq]
      by_cases hx : x = b
      · simp [hx]
      · have : ¬ b = x := fun h => hx h.symm
        simp [hx, this]
  | some a =>
    cases hn : (heap c).next_ with
    | none => simp [setNext_prev]
    | some b =>
      simp only [setPrev_prev, setNext_prev, Option.some.injEq]
      by_cases hx : x = b
      · simp [hx]
      · have : ¬ b = x := fun h => hx h.symm
        simp [hx, this]

theorem unlink_next (heap : Nat → HttpConnection) (c x : Nat) :
    ((unlink heap c) x).next_
      = if (heap c).prev_ = some x then (heap c).next_ else (heap x).next_ := by
  unfold unlink
  cases hp : (heap c).prev_ with
  | none =>
    cases hn : (heap c).next_ with
    | none => simp
    | some b => simp [setPrev_next]
  | some a =>
    cases hn : (heap c).next_ with
    | none =>
      simp only [setNext_next, Option.some.injEq]
      by_cases hx : x = a
      · simp [hx]
      · have : ¬ a = x := fun h => hx h.symm
        simp [hx, this]
    | some b =>
      simp only [setPrev_next, setNext_next, Option.some.injEq]
      by_cases hx : x = a
      · simp [hx]
      · have : ¬ a = x := fun h => hx h.symm
        simp [hx, this]

theorem mid_next (heap : Nat → HttpConnection) (c : Nat) (B : List Nat) :
    ∀ (A : List Nat) (prev head : Option Nat),
      isActiveList heap prev (A ++ c :: B) head = true →
      ∀ b, (heap c).next_ = some b → b ∈ B := by
  intro A
  induction A with
  | nil =>
    intro prev head h b hb
    obtain ⟨_, _, e3⟩ := (isActiveList_cons heap prev head c B).mp h
    cases B with
    | nil =>
      simp only [isActiveList, decide_eq_true_eq] at e3
      rw [e3] at hb
      cases hb
    | cons b' B' =>
      obtain ⟨e, _, _⟩ := (isActiveList_cons heap _ _ b' B').mp e3
      rw [e] at hb
      simp only [Option.some.injEq] at hb
      subst hb
      exact List.mem_cons_self _ _
  | cons x A ih =>
    intro prev head h b hb
    obtain ⟨_, _, e3⟩ := (isActiveList_cons heap prev head x (A ++ c :: B)).mp h
    exact ih _ _ e3 b hb

theorem mid_prev (heap : Nat → HttpConnection) (c : Nat) (B : List Nat) :
    ∀ (A : List Nat) (prev head : Option Nat),
      isActiveList heap prev (A ++ c :: B) head = true →
      (A = [] → (heap c).prev_ = prev) ∧ (A ≠ [] → ∃ z ∈ A, (heap c).prev_ = some z) := by
  intro A
  induction A with
  | nil =>
    intro prev head h
    obtain ⟨_, e2, _⟩ := (isActiveList_cons heap prev head c B).mp h
    exact ⟨fun _ => e2, fun h => absurd rfl h⟩
  | cons x A ih =>
    intro prev head h
    obtain ⟨_, _, e3⟩ := (isActiveList_cons heap prev head x (A ++ c :: B)).mp h
    obtain ⟨i1, i2⟩ := ih _ _ e3
    refine ⟨fun h => (by cases h), fun _ => ?_⟩
    cases A with
    | nil => exact ⟨x, List.mem_cons_self _ _, i1 rfl⟩
    | cons y A' =>
      obtain ⟨z, hz, e⟩ := i2 (by simp)
      exact ⟨z, List.mem_cons_of_mem _ hz, e⟩

/-- Unlinking `c` from a doubly linked list leaves the doubly linked list of
the other connections. -/
theorem unlink_list (heap : Nat → HttpConnection) (c : Nat) (B : List Nat) :
    ∀ (A : List Nat) (prev head : Option Nat),
      isActiveList heap prev (A ++ c :: B) head = true → (A ++ c :: B).Nodup →
      (∀ a, prev = some a → a ∉ A ++ c :: B) →
      isActiveList (unlink heap c) prev (A ++ B)
        (if head = some c then (heap c).next_ else head) = true := by
  intro A
  induction A with
  | nil =>
    intro prev head h hnd hprev
    obtain ⟨e1, e2, e3⟩ := (isActiveList_cons heap prev head c B).mp h
    simp only [List.nil_append] at hnd hprev ⊢
    rw [if_pos e1]
    cases B with
    | nil => simpa [isActiveList] using e3
    | cons b B' =>
      obtain ⟨f1, f2, f3⟩ := (isActiveList_cons heap _ _ b B').mp e3
      have hbc : b ≠ c := by
        intro e
        subst e
        simp at hnd
      have hpb : prev ≠ some b := fun e => hprev b e (by simp)
      rw [isActiveList_cons]
      refine ⟨f1, ?_, ?_⟩
      · rw [unlink_prev, if_pos f1, e2]
      · rw [unlink_next, e2, if_neg hpb]
        apply isActiveList_congr heap (unlink heap c) B' (some b) _ _ f3
        intro x hx
        have hxb : x ≠ b := by
          intro e
          subst e
          simp only [List.nodup_cons] at hnd
          exact hnd.2.1 hx
        have hpx : prev ≠ some x := fun e => hprev x e (by simp [hx])
        constructor
        · rw [unlink_prev, f1, if_neg (by simpa using fun e => hxb e.symm)]
        · rw [unlink_next, e2, if_neg hpx]
  | cons x A ih =>
    intro prev head h hnd hprev
    obtain ⟨e1, e2, e3⟩ := (isActiveList_cons heap prev head x (A ++ c :: B)).mp h
    simp only [List.cons_append, List.nodup_cons] at hnd
    obtain ⟨hx, hnd'⟩ := hnd
    have hxc : x ≠ c := by
      intro e
      subst e
      exact hx (by simp)
    have hxB : x ∉ B := fun hm => hx (by simp [hm])
    have hhead : ¬ head = some c := by
      rw [e1]
      simpa using hxc
    rw [if_neg hhead]
    simp only [List.cons_append]
    rw [isActiveList_cons]
    refine ⟨e1, ?_, ?_⟩
    · rw [unlink_prev]
      have : ¬ (heap c).next_ = some x := fun e => hxB (mid_next heap c B A _ _ e3 x e)
      rw [if_neg this]
      exact e2
    · have hih := ih (some x) (heap x).next_ e3 hnd' (by
        intro a ha
        simp only [Option.some.injEq] at ha
        subst ha
        exact hx)
      have hS : ((heap c).prev_ = some x) ↔ ((heap x).next_ = some c) := by
        obtain ⟨i1, i2⟩ := mid_prev heap c B A (some x) (heap x).next_ e3
        cases A with
        | nil =>
          obtain ⟨g1, _, _⟩ := (isActiveList_cons heap _ _ c B).mp e3
          exact ⟨fun _ => g1, fun _ => i1 rfl⟩
        | cons y A' =>
          obtain ⟨g1, _, _⟩ := (isActiveList_cons heap _ _ y (A' ++ c :: B)).mp e3
          obtain ⟨z, hz, ez⟩ := i2 (by simp)
          constructor
          · intro e
            rw [ez] at e
            have hzx : z = x := Option.some.inj e
            rw [hzx] at hz
            exact absurd (List.mem_append.mpr (Or.inl hz)) hx
          · intro e
            rw [g1] at e
            have hyc : y = c := Option.some.inj e
            have hcm : c ∈ y :: A' := by rw [hyc]; exact List.mem_cons_self _ _
            have := (List.nodup_append.mp hnd').2.2 hcm (List.mem_cons_self _ _)
            exact absurd this id
      rw [unlink_next]
      by_cases hp : (heap c).prev_ = some x
      · rw [if_pos hp]
        rw [if_pos (hS.mp hp)] at hih
        exact hih
      · rw [if_neg hp]
        rw [if_neg (fun e => hp (hS.mpr e))] at hih
        exact hih

theorem linkFree_next (heap : Nat → HttpConnection) (free : Option Nat) (c x : Nat) :
    ((linkFree heap free c) x).next_ = if x = c then free else (heap x).next_ := by
  unfold linkFree
  cases free with
  | none => simp only [setPrev_next, setNext_next]
  | some f =>
    simp only
    split_ifs <;> simp only [setPrev_next, setNext_next, *, if_true, if_false]

theorem linkFree_prev (heap : Nat → HttpConnection) (free : Option Nat) (c x : Nat)
    (hc : x ≠ c) (hf : free ≠ some x) :
    ((linkFree heap free c) x).prev_ = (heap x).prev_ := by
  unfold linkFree
  cases free with
  | none => simp only [setPrev_prev, setNext_prev, hc, if_false]
  | some f =>
    have hxf : x ≠ f := fun e => hf (by rw [e])
    simp only
    split_ifs <;> simp only [setPrev_prev, setNext_prev, hc, hxf, if_false]

/-- C28: for every worker whose active connections form a doubly linked
list (of distinct connections, apart from the free list) and every connection
`c` of that list, `release(c)` decrements `connectionLoad_` by exactly one,
leaves the doubly linked list of the other active connections in the same
order, with consistent `prev_` and `next_` links, and makes `c` the head of
the free list, in front of the connections that were free before. -/
theorem release_unlinks (w : HttpWorker) (L F : List Nat) (c : Nat)
    (hL : isActiveList w.heap none L w.connections_ = true) (hnd : L.Nodup)
    (hF : isFreeList w.heap F w.freeConnections_ = true) (hdisj : ∀ x ∈ F, x ∉ L)
    (hc : c ∈ L) :
    (release w c).connectionLoad_ = w.connectionLoad_ - 1
    ∧ isActiveList (release w c).heap none (L.erase c) (release w c).connections_ = true
    ∧ (release w c).freeConnections_ = some c
    ∧ isFreeList (release w c).heap (c :: F) (release w c).freeConnections_ = true := by
  obtain ⟨A, B, rfl⟩ := List.append_of_mem hc
  have hcA : c ∉ A := by
    intro h
    have := List.nodup_append.mp hnd
    exact this.2.2 h (List.mem_cons_self _ _)
  have hcB : c ∉ B := by
    have := (List.nodup_append.mp hnd).2.1
    simp only [List.nodup_cons] at this
    exact this.1
  have herase : (A ++ c :: B).erase c = A ++ B := by
    rw [List.erase_append_right _ hcA, List.erase_cons_head]
  have hU := unlink_list w.heap c B A none w.connections_ hL hnd (by intro a ha; cases ha)
  have hfree : ∀ x ∈ F, x ≠ c := by
    intro x hx e
    subst e
    exact hdisj x hx (by simp)
  have hpv : ∀ x ∈ F, (w.heap c).prev_ ≠ some x := by
    intro x hx e
    obtain ⟨i1, i2⟩ := mid_prev w.heap c B A none w.connections_ hL
    cases A with
    | nil =>
      rw [i1 rfl] at e
      cases e
    | cons y A' =>
      obtain ⟨z, hz, ez⟩ := i2 (by simp)
      rw [ez] at e
      simp only [Option.some.injEq] at e
      subst e
      exact hdisj z hx (by simp only [List.mem_append]; exact Or.inl hz)
  refine ⟨rfl, ?_, rfl, ?_⟩
  · rw [herase]
    show isActiveList (linkFree (unlink w.heap c) w.freeConnections_ c) none (A ++ B)
      (if w.connections_ = some c then (w.heap c).next_ else w.connections_) = true
    apply isActiveList_congr (unlink w.heap c) _ (A ++ B) none _ _ hU
    intro x hx
    have hxc : x ≠ c := by
      intro e
      subst e
      rcases List.mem_append.mp hx with h | h
      · exact hcA h
      · exact hcB h
    have hxL : x ∈ A ++ c :: B := by
      rcases List.mem_append.mp hx with h | h
      · exact List.mem_append.mpr (Or.inl h)
      · exact List.mem_append.mpr (Or.inr (List.mem_cons_of_mem _ h))
    have hxf : w.freeConnections_ ≠ some x := by
      intro e
      cases F with
      | nil =>
        simp only [isFreeList, decide_eq_true_eq] at hF
        rw [hF] at e
        cases e
      | cons f F' =>
        obtain ⟨g, _⟩ := (isFreeList_cons w.heap _ f F').mp hF
        rw [g] at e
        simp only [Option.some.injEq] at e
        subst e
        exact hdisj f (List.mem_cons_self _ _) hxL
    constructor
    · rw [linkFree_prev _ _ _ _ hxc hxf]
    · rw [linkFree_next, if_neg hxc]
  · show isFreeList (linkFree (unlink w.heap c) w.freeConnections_ c) (c :: F) (some c) = true
    rw [isFreeList_cons]
    refine ⟨rfl, ?_⟩
    rw [linkFree_next, if_pos rfl]
    apply isFreeList_congr w.heap _ F _ _ hF
    intro x hx
    rw [linkFree_next, if_neg (hfree x hx), unlink_next, if_neg (hpv x hx)]

theorem release_unlinks_witness :
    isActiveList demo.heap none [1, 2, 3] demo.connections_ = true
    ∧ isFreeList demo.heap [7, 8] demo.freeConnections_ = true
    ∧ (release demo 2).connectionLoad_ = 2
    ∧ (release demo 2).connections_ = some 1
    ∧ isActiveList (release demo 2).heap none [1, 3] (release demo 2).connections_ = true
    ∧ isFreeList (release demo 2).heap [2, 7, 8] (release demo 2).freeConnections_ = true :=
  ⟨by decide, by decide, by decide, by decide,
    (release_unlinks demo [1, 2, 3] [7, 8] 2 (by decide) (by decide) (by decide) (by decide)
      (by decide)).2.1,
    (release_unlinks demo [1, 2, 3] [7, 8] 2 (by decide) (by decide) (by decide) (by decide)
      (by decide)).2.2.2⟩

/-! ## The worker: `handleRequest` -/

/-- C36: `handleRequest` rejects a body-less POST or PUT before any handler
runs: for every request whose method is POST or PUT, whose connection reports
the content length -1 and which is not chunked, the status is set to
LengthRequired and the only call made is one `finish()`; for a request with
any other method that has content available the status is set to BadRequest
and the only call made is one `finish()`: neither `onPreProcess` nor the
server's `requestHandler` is invoked. -/
theorem handleRequest_rejects (server_ : HttpServer) (r : HttpRequest) :
    ((r.method = "POST" ∨ r.method = "PUT") → r.contentLength = -1 → r.isChunked = false →
      handleRequest server_ r = ({ r with status := .LengthRequired }, [.finish]))
    ∧ (r.method ≠ "POST" → r.method ≠ "PUT" → r.contentAvailable = true →
      handleRequest server_ r = ({ r with status := .BadRequest }, [.finish])) := by
  constructor
  · intro hm hl hc
    simp [handleRequest, hm, hl, hc]
  · intro h1 h2 hc
    simp [handleRequest, h1, h2, hc]

theorem handleRequest_rejects_witness :
    handleRequest ⟨fun r => r, fun r => (true, r)⟩
        ⟨"POST", none, -1, false, false, true, .Undefined, false⟩
      = (⟨"POST", none, -1, false, false, true, .LengthRequired, false⟩, [.finish])
    ∧ handleRequest ⟨fun r => r, fun r => (true, r)⟩
        ⟨"GET", none, 5, false, true, true, .Undefined, false⟩
      = (⟨"GET", none, 5, false, true, true, .BadRequest, false⟩, [.finish]) :=
  ⟨(handleRequest_rejects ⟨fun r => r, fun r => (true, r)⟩
      ⟨"POST", none, -1, false, false, true, .Undefined, false⟩).1 (Or.inl rfl) rfl rfl,
    (handleRequest_rejects ⟨fun r => r, fun r => (true, r)⟩
      ⟨"GET", none, 5, false, true, true, .Undefined, false⟩).2 (by decide) (by decide) rfl⟩

end HttpWorker


namespace MessageParser

/-! ## The HTTP message parser -/

/-- C25: in RESPONSE mode, on the chunk "HTTP/1.1 200 OK\r\n" a fresh parser
stops after the four bytes "HTTP" in the state SYNTAX_ERROR, with the error
code set, and never calls `on_response`: the states of the status line accept
only token bytes before the first space, and `/` is a separator. -/
theorem status_line_syntax_error :
    parse allCallbacks plainDecoder statusLine (Parser.init .RESPONSE)
      = some ({ Parser.init .RESPONSE with
                  state_ := .SYNTAX_ERROR, protocol_ := ⟨0, 4⟩, ec := true }, 4)
    ∧ is_token 47 = false := by
  decide

/-- C34: in REQUEST mode with `on_complete` answering true, on the chunk of
two copies of "POST / HTTP/1.1\r\nContent-Length: 1\r\n\r\nx" the parser
consumes all 78 bytes and calls `on_request` twice, with the version numbers
(1, 1) for the first request and (11, 11) for the second, while a fresh parser
given the second request alone reports (1, 1): `version_major_` and
`version_minor_` are not reset between the two messages. -/
theorem second_request_version_not_reset :
    (parse allCallbacks plainDecoder (postRequest ++ postRequest) (Parser.init .REQUEST)).map
        (fun r => (r.1.state_, requestVersions r.1.events, r.2))
      = some (.MESSAGE_BEGIN, [(1, 1), (11, 11)], 78)
    ∧ (parse allCallbacks plainDecoder postRequest (Parser.init .REQUEST)).map
        (fun r => (r.1.state_, requestVersions r.1.events, r.2))
      = some (.MESSAGE_BEGIN, [(1, 1)], 39) := by
  decide

/-- C35: for a body that is not chunked, with remaining content length
n > 0, and a chunk of m bytes, `pass_content` adds min(n, m) to the consumed
count, leaves the remaining length at n - min(n, m), passes exactly the first
min(n, m) bytes of the chunk to `on_content` (when it is set), and marks the
message as ended exactly when the remaining length reaches 0: the state is
then MESSAGE_END when `on_complete` is not set, and MESSAGE_BEGIN after a
single call of `on_complete`, whose answer is returned, when it is set;
otherwise the state stays as it was and the answer is true. -/
theorem pass_content_length (cb : Callbacks) (dec : ChunkedDecoder) (chunk : List UInt8)
    (p : Parser) (n : Nat) (hc : p.content_chunked_ = false) (hn : p.content_length_ = (n : Int))
    (hpos : 0 < n) :
    (pass_content cb dec chunk p).2.2 = min n chunk.length
    ∧ (pass_content cb dec chunk p).2.1.content_length_ = ((n - min n chunk.length : Nat) : Int)
    ∧ (pass_content cb dec chunk p).2.1.events
        = p.events
          ++ (if cb.on_content then [Event.on_content (chunk.take (min n chunk.length))] else [])
          ++ (if n ≤ chunk.length ∧ cb.on_complete.isSome then [Event.on_complete] else [])
    ∧ (n ≤ chunk.length →
        (cb.on_complete = none → (pass_content cb dec chunk p).2.1.state_ = .MESSAGE_END
          ∧ (pass_content cb dec chunk p).1 = true)
        ∧ (∀ answer, cb.on_complete = some answer →
            (pass_content cb dec chunk p).2.1.state_ = .MESSAGE_BEGIN
            ∧ (pass_content cb dec chunk p).1 = answer))
    ∧ (chunk.length < n → (pass_content cb dec chunk p).2.1.state_ = p.state_
        ∧ (pass_content cb dec chunk p).1 = true) := by
  have hgt : p.content_length_ > 0 := by rw [hn]; exact_mod_cast hpos
  rcases Nat.lt_or_ge chunk.length n with hlt | hge
  · -- the chunk is shorter than the remaining length
    have h1 : ¬ ((chunk.length : Int) > p.content_length_) := by rw [hn]; omega
    have h2 : ¬ (p.content_length_ - (chunk.length : Int) = 0) := by rw [hn]; omega
    have hmin : min n chunk.length = chunk.length := by omega
    have h3 : ¬ (n ≤ chunk.length) := by omega
    have hres : pass_content cb dec chunk p
        = (true, emit { p with content_length_ := p.content_length_ - chunk.length }
            cb.on_content (.on_content chunk), chunk.length) := by
      simp only [pass_content, hc, hgt, h1, if_false, if_true, Bool.false_eq_true]
      cases hcb : cb.on_content <;> simp [emit, hcb, h2]
    rw [hres, hmin]
    refine ⟨rfl, ?_, ?_, ?_, ?_⟩
    · cases hcb : cb.on_content <;> simp [emit, hcb, hn] <;> omega
    · cases hcb : cb.on_content <;> simp [emit, hcb, h3]
    · intro h; omega
    · intro _
      cases hcb : cb.on_content <;> simp [emit, hcb]
  · -- the chunk holds the whole remaining body
    have hmin : min n chunk.length = n := by omega
    have hlen : (chunk.take n).length = n := by simp [hge]
    have hc1 : (if (chunk.length : Int) > p.content_length_ then
        chunk.take p.content_length_.toNat else chunk) = chunk.take n := by
      rw [hn]
      split_ifs with h
      · simp
      · have : chunk.length = n := by omega
        rw [← this, List.take_length]
    have hz : p.content_length_ - ((chunk.take n).length : Int) = 0 := by rw [hlen, hn]; omega
    have hnlt : ¬ (chunk.length < n) := by omega
    have hz1 : p.content_length_ - (n : Int) = 0 := by rw [hn]; omega
    rw [hmin]
    cases hcomp : cb.on_complete with
    | none =>
      have hres : pass_content cb dec chunk p
          = (true, { emit { p with content_length_ := 0 } cb.on_content
                      (.on_content (chunk.take n)) with state_ := .MESSAGE_END }, n) := by
        simp only [pass_content, hc, hgt, hc1, if_false, if_true, Bool.false_eq_true, hz, hlen]
        cases hcb : cb.on_content <;> simp [emit, hcb, hcomp, hz1]
      rw [hres]
      refine ⟨rfl, ?_, ?_, ?_, ?_⟩
      · cases hcb : cb.on_content <;> simp [emit, hcb]
      · cases hcb : cb.on_content <;> simp [emit, hcb]
      · intro _
        refine ⟨fun _ => ?_, fun a h => (by cases h)⟩
        cases hcb : cb.on_content <;> simp [emit, hcb]
      · intro h; exact absurd h hnlt
    | some answer =>
      have hres : pass_content cb dec chunk p
          = (answer, { emit { emit { p with content_length_ := 0 } cb.on_content
                        (.on_content (chunk.take n)) with state_ := .MESSAGE_END }
                        true .on_complete with state_ := .MESSAGE_BEGIN }, n) := by
        simp only [pass_content, hc, hgt, hc1, if_false, if_true, Bool.false_eq_true, hz, hlen]
        cases hcb : cb.on_content <;> simp [emit, hcb, hcomp, hz1]
      rw [hres]
      refine ⟨rfl, ?_, ?_, ?_, ?_⟩
      · cases hcb : cb.on_content <;> simp [emit, hcb]
      · cases hcb : cb.on_content <;> simp [emit, hcb, hge]
      · intro _
        refine ⟨fun h => (by cases h), fun a h => ?_⟩
        simp only [Option.some.injEq] at h
        subst h
        cases hcb : cb.on_content <;> simp [emit, hcb]
      · intro h; exact absurd h hnlt

theorem pass_content_length_witness :
    (Parser.init .REQUEST).content_chunked_ = false
    ∧ pass_content allCallbacks plainDecoder [120, 121, 122]
        { Parser.init .REQUEST with state_ := .CONTENT, content_length_ := 2 }
      = (true, { Parser.init .REQUEST with
                   state_ := .MESSAGE_BEGIN, content_length_ := 0,
                   events := [.on_content [120, 121], .on_complete] }, 2)
    ∧ (pass_content allCallbacks plainDecoder [120, 121, 122]
        { Parser.init .REQUEST with state_ := .CONTENT, content_length_ := 2 }).2.2
      = min 2 ([120, 121, 122] : List UInt8).length :=
  ⟨rfl, by decide,
    (pass_content_length allCallbacks plainDecoder [120, 121, 122]
      { Parser.init .REQUEST with state_ := .CONTENT, content_length_ := 2 } 2 rfl rfl
      (by decide)).1⟩

/-! ### The request line -/

theorem Reaches.trans {cb : Callbacks} {dec : ChunkedDecoder} {chunk : List UInt8}
    {a b : Nat} {p p1 p2 : Parser} {o o1 o2 : Nat}
    (h1 : Reaches cb dec chunk a p o p1 o1) (h2 : Reaches cb dec chunk b p1 o1 p2 o2) :
    Reaches cb dec chunk (a + b) p o p2 o2 := by
  intro fuel
  have : fuel + (a + b) = (fuel + b) + a := by omega
  rw [this, h1 (fuel + b), h2 fuel]

theorem getElem?_mid (pre : List UInt8) (x : UInt8) (rest : List UInt8) :
    (pre ++ x :: rest)[pre.length]? = some x := by
  rw [List.getElem?_append_right (Nat.le_refl _)]
  simp

theorem Reaches.step (cb : Callbacks) (dec : ChunkedDecoder) (chunk : List UInt8)
    (pre : List UInt8) (c : UInt8) (post : List UInt8) (p p1 : Parser) (o1 : Nat)
    (hchunk : chunk = pre ++ c :: post) (ha : p.abort_ = false)
    (hs : step cb dec chunk p pre.length c = .next p1 o1) :
    Reaches cb dec chunk 1 p pre.length p1 o1 := by
  intro fuel
  have hc : chunk[pre.length]? = some c := by rw [hchunk]; exact getElem?_mid pre c post
  simp only [parseLoop, ha, hc, hs, Bool.false_eq_true, if_false]

theorem run_generic (cb : Callbacks) (dec : ChunkedDecoder) (chunk : List UInt8) (S : state)
    (P : UInt8 → Bool) (g : Parser → Parser)
    (hstep : ∀ p off c, p.state_ = S → P c = true →
      step cb dec chunk p off c = .next (g p) (off + 1))
    (hg : ∀ p, (g p).state_ = p.state_ ∧ (g p).abort_ = p.abort_) :
    ∀ (ts pre post : List UInt8) (p : Parser), chunk = pre ++ ts ++ post →
      (∀ c ∈ ts, P c = true) → p.state_ = S → p.abort_ = false →
      Reaches cb dec chunk ts.length p pre.length (g^[ts.length] p) (pre ++ ts).length := by
  intro ts
  induction ts with
  | nil =>
    intro pre post p _ _ _ _ fuel
    simp
  | cons t ts ih =>
    intro pre post p hchunk hP hS ha
    have h1 : Reaches cb dec chunk 1 p pre.length (g p) (pre ++ [t]).length := by
      have := Reaches.step cb dec chunk pre t (ts ++ post) p (g p) (pre.length + 1)
        (by rw [hchunk]; simp) ha (hstep p pre.length t hS (hP t (List.mem_cons_self _ _)))
      simpa using this
    have h2 := ih (pre ++ [t]) post (g p) (by rw [hchunk]; simp)
      (fun c hc => hP c (List.mem_cons_of_mem _ hc)) ((hg p).1.trans hS) ((hg p).2.trans ha)
    have h3 := Reaches.trans h1 h2
    have e1 : 1 + ts.length = (t :: ts).length := by simp; omega
    have e2 : (pre ++ [t] ++ ts).length = (pre ++ t :: ts).length := by simp
    rw [e1, e2] at h3
    simpa [Function.iterate_succ_apply] using h3

theorem token_facts (c : UInt8) (h : is_token c = true) : c.toNat ≠ 32 ∧ c.toNat ≠ 47 := by
  constructor
  · intro e
    simp [is_token, is_seperator, e] at h
  · intro e
    simp [is_token, is_seperator, e] at h

theorem le_decimalValue : ∀ (ds : List UInt8) (v : Nat), v ≤ decimalValue ds v := by
  intro ds
  induction ds with
  | nil => intro v; simp [decimalValue]
  | cons d ds ih =>
    intro v
    simp only [decimalValue]
    split_ifs
    · have := ih (v * 10 + (d.toNat - 48))
      omega
    · exact Nat.le_refl _

theorem accumulate_digit (v : Nat) (c : UInt8) (hc : isdigit c = true)
    (hv : v * 10 + (c.toNat - 48) < 2 ^ 31) :
    accumulate (v : Int) c = some ((v * 10 + (c.toNat - 48) : Nat) : Int) := by
  simp only [isdigit, Bool.and_eq_true, decide_eq_true_eq] at hc
  unfold accumulate
  have h1 : (v : Int) * 10 + ((c.toNat : Int) - 48) = ((v * 10 + (c.toNat - 48) : Nat) : Int) := by
    omega
  rw [h1]
  have h2 : ((v * 10 + (c.toNat - 48) : Nat) : Int) < 2 ^ 31 := by exact_mod_cast hv
  have h3 : -(2 ^ 31 : Int) ≤ ((v * 10 + (c.toNat - 48) : Nat) : Int) := by omega
  simp only [h2, h3, and_self, if_true]

theorem run_major (cb : Callbacks) (dec : ChunkedDecoder) (chunk : List UInt8) :
    ∀ (ds pre post : List UInt8) (v : Nat) (method entity protocol : buffer_ref) (minor : Int),
      chunk = pre ++ ds ++ post → (∀ c ∈ ds, isdigit c = true) → decimalValue ds v < 2 ^ 31 →
      Reaches cb dec chunk ds.length
        (requestParser .VERSION_MAJOR method entity protocol v minor []) pre.length
        (requestParser .VERSION_MAJOR method entity protocol (decimalValue ds v : Nat) minor [])
        (pre ++ ds).length := by
  intro ds
  induction ds with
  | nil =>
    intro pre post v method entity protocol minor _ _ _ fuel
    simp [decimalValue]
  | cons d ds ih =>
    intro pre post v method entity protocol minor hchunk hd hv
    have hdd := hd d (List.mem_cons_self _ _)
    simp only [decimalValue, hdd, if_true] at hv ⊢
    have hle := le_decimalValue ds (v * 10 + (d.toNat - 48))
    have h1 : Reaches cb dec chunk 1
        (requestParser .VERSION_MAJOR method entity protocol v minor []) pre.length
        (requestParser .VERSION_MAJOR method entity protocol
          ((v * 10 + (d.toNat - 48) : Nat) : Int) minor []) (pre ++ [d]).length := by
      have := Reaches.step cb dec chunk pre d (ds ++ post)
        (requestParser .VERSION_MAJOR method entity protocol v minor [])
        (requestParser .VERSION_MAJOR method entity protocol
          ((v * 10 + (d.toNat - 48) : Nat) : Int) minor []) (pre.length + 1)
        (by rw [hchunk]; simp) rfl
        (by
          simp only [step, requestParser, Parser.init, hdd, if_true,
            accumulate_digit v d hdd (by omega), Step.consume])
      simpa using this
    have h2 := ih (pre ++ [d]) post (v * 10 + (d.toNat - 48)) method entity protocol minor
      (by rw [hchunk]; simp) (fun c hc => hd c (List.mem_cons_of_mem _ hc)) hv
    have h3 := Reaches.trans h1 h2
    have e1 : 1 + ds.length = (d :: ds).length := by simp; omega
    have e2 : (pre ++ [d] ++ ds).length = (pre ++ d :: ds).length := by simp
    rw [e1, e2] at h3
    exact h3

theorem run_minor (cb : Callbacks) (dec : ChunkedDecoder) (chunk : List UInt8) :
    ∀ (ds pre post : List UInt8) (v : Nat) (method entity protocol : buffer_ref) (major : Int),
      chunk = pre ++ ds ++ post → (∀ c ∈ ds, isdigit c = true) → decimalValue ds v < 2 ^ 31 →
      Reaches cb dec chunk ds.length
        (requestParser .VERSION_MINOR method entity protocol major v []) pre.length
        (requestParser .VERSION_MINOR method entity protocol major (decimalValue ds v : Nat) [])
        (pre ++ ds).length := by
  intro ds
  induction ds with
  | nil =>
    intro pre post v method entity protocol major _ _ _ fuel
    simp [decimalValue]
  | cons d ds ih =>
    intro pre post v method entity protocol major hchunk hd hv
    have hdd := hd d (List.mem_cons_self _ _)
    simp only [decimalValue, hdd, if_true] at hv ⊢
    have hle := le_decimalValue ds (v * 10 + (d.toNat - 48))
    have h1 : Reaches cb dec chunk 1
        (requestParser .VERSION_MINOR method entity protocol major v []) pre.length
        (requestParser .VERSION_MINOR method entity protocol major
          ((v * 10 + (d.toNat - 48) : Nat) : Int) []) (pre ++ [d]).length := by
      have := Reaches.step cb dec chunk pre d (ds ++ post)
        (requestParser .VERSION_MINOR method entity protocol major v [])
        (requestParser .VERSION_MINOR method entity protocol major
          ((v * 10 + (d.toNat - 48) : Nat) : Int) []) (pre.length + 1)
        (by rw [hchunk]; simp) rfl
        (by
          simp only [step, requestParser, Parser.init, hdd, if_true,
            accumulate_digit v d hdd (by omega), Step.consume])
      simpa using this
    have h2 := ih (pre ++ [d]) post (v * 10 + (d.toNat - 48)) method entity protocol major
      (by rw [hchunk]; simp) (fun c hc => hd c (List.mem_cons_of_mem _ hc)) hv
    have h3 := Reaches.trans h1 h2
    have e1 : 1 + ds.length = (d :: ds).length := by simp; omega
    have e2 : (pre ++ [d] ++ ds).length = (pre ++ d :: ds).length := by simp
    rw [e1, e2] at h3
    exact h3

theorem Reaches.cast {cb : Callbacks} {dec : ChunkedDecoder} {chunk : List UInt8}
    {n : Nat} {p p1 q q1 : Parser} {o o1 r r1 : Nat}
    (h : Reaches cb dec chunk n p o p1 o1) (ep : p = q) (eo : o = r) (ep1 : p1 = q1)
    (eo1 : o1 = r1) : Reaches cb dec chunk n q r q1 r1 := by
  subst ep; subst eo; subst ep1; subst eo1
  exact h

theorem iterate_method (st : state) (o : Nat) (e pr : buffer_ref) (a b : Int) (ev : List Event) :
    ∀ (n k : Nat), (fun p : Parser => { p with method_ := p.method_.shr 1 })^[n]
        (requestParser st ⟨o, k⟩ e pr a b ev) = requestParser st ⟨o, k + n⟩ e pr a b ev := by
  intro n
  induction n with
  | zero => intro k; rfl
  | succ n ih =>
    intro k
    rw [Function.iterate_succ_apply]
    have : ({ requestParser st ⟨o, k⟩ e pr a b ev with
        method_ := (requestParser st ⟨o, k⟩ e pr a b ev).method_.shr 1 } : Parser)
        = requestParser st ⟨o, k + 1⟩ e pr a b ev := rfl
    rw [this, ih (k + 1)]
    have : k + 1 + n = k + (n + 1) := by omega
    rw [this]

theorem iterate_entity (st : state) (o : Nat) (m pr : buffer_ref) (a b : Int) (ev : List Event) :
    ∀ (n k : Nat), (fun p : Parser => { p with entity_ := p.entity_.shr 1 })^[n]
        (requestParser st m ⟨o, k⟩ pr a b ev) = requestParser st m ⟨o, k + n⟩ pr a b ev := by
  intro n
  induction n with
  | zero => intro k; rfl
  | succ n ih =>
    intro k
    rw [Function.iterate_succ_apply]
    have : ({ requestParser st m ⟨o, k⟩ pr a b ev with
        entity_ := (requestParser st m ⟨o, k⟩ pr a b ev).entity_.shr 1 } : Parser)
        = requestParser st m ⟨o, k + 1⟩ pr a b ev := rfl
    rw [this, ih (k + 1)]
    have : k + 1 + n = k + (n + 1) := by omega
    rw [this]

theorem iterate_protocol (st : state) (o : Nat) (m e : buffer_ref) (a b : Int)
    (ev : List Event) :
    ∀ (n k : Nat), (fun p : Parser => { p with protocol_ := p.protocol_.shr 1 })^[n]
        (requestParser st m e ⟨o, k⟩ a b ev) = requestParser st m e ⟨o, k + n⟩ a b ev := by
  intro n
  induction n with
  | zero => intro k; rfl
  | succ n ih =>
    intro k
    rw [Function.iterate_succ_apply]
    have : ({ requestParser st m e ⟨o, k⟩ a b ev with
        protocol_ := (requestParser st m e ⟨o, k⟩ a b ev).protocol_.shr 1 } : Parser)
        = requestParser st m e ⟨o, k + 1⟩ a b ev := rfl
    rw [this, ih (k + 1)]
    have : k + 1 + n = k + (n + 1) := by omega
    rw [this]

theorem bytes_window (pre ts post : List UInt8) :
    buffer_ref.bytes (pre ++ ts ++ post) ⟨pre.length, ts.length⟩ = ts := by
  simp [buffer_ref.bytes, List.append_assoc]

/-- The loop of `parse` on a chunk that starts with a request line: after one
iteration more than the line has bytes it has consumed the line, called
`on_request` once and is in the state HEADER_NAME_START. -/
theorem request_line_reaches (cb : Callbacks) (dec : ChunkedDecoder) (m0 u0 : UInt8)
    (mt ut major minor rest : List UInt8) (hcb : cb.on_request = true)
    (hm0 : is_token m0 = true) (hmt : ∀ c ∈ mt, is_token c = true)
    (hu0 : isprint u0 = true ∧ u0.toNat ≠ 32)
    (hut : ∀ c ∈ ut, isprint c = true ∧ c.toNat ≠ 32)
    (hmaj : ∀ c ∈ major, isdigit c = true) (hmajv : decimalValue major 0 < 2 ^ 31)
    (hmin : ∀ c ∈ minor, isdigit c = true) (hminv : decimalValue minor 0 < 2 ^ 31) :
    Reaches cb dec (requestLineOf (m0 :: mt) (u0 :: ut) major minor ++ rest)
      ((requestLineOf (m0 :: mt) (u0 :: ut) major minor).length + 1)
      (Parser.init .REQUEST) 0
      (requestParser .HEADER_NAME_START ⟨0, (m0 :: mt).length⟩
        ⟨(m0 :: mt).length + 1, (u0 :: ut).length⟩
        ⟨(m0 :: mt).length + 1 + (u0 :: ut).length + 1, 4⟩
        (decimalValue major 0 : Nat) (decimalValue minor 0 : Nat)
        [.on_request (m0 :: mt) (u0 :: ut) httpName (decimalValue major 0 : Nat)
          (decimalValue minor 0 : Nat)])
      (requestLineOf (m0 :: mt) (u0 :: ut) major minor).length := by
  generalize hchunk : requestLineOf (m0 :: mt) (u0 :: ut) major minor ++ rest = chunk
  have hc : chunk = m0 :: mt ++ 32 :: (u0 :: ut ++ 32 :: 72 :: 84 :: 84 :: 80 :: 47 ::
      (major ++ 46 :: (minor ++ 13 :: 10 :: rest))) := by
    rw [← hchunk]
    simp [requestLineOf]
  -- MESSAGE_BEGIN
  have r0 := Reaches.step cb dec chunk [] m0 (mt ++ 32 :: (u0 :: ut ++ 32 :: 72 :: 84 :: 84 ::
      80 :: 47 :: (major ++ 46 :: (minor ++ 13 :: 10 :: rest))))
    (requestParser .MESSAGE_BEGIN .none .none .none 0 0 [])
    (requestParser .REQUEST_LINE_START .none .none .none 0 0 []) 0
    (hc.trans (by simp)) rfl (by simp [step, requestParser, Parser.init])
  -- REQUEST_LINE_START
  have r1 := Reaches.step cb dec chunk [] m0 (mt ++ 32 :: (u0 :: ut ++ 32 :: 72 :: 84 :: 84 ::
      80 :: 47 :: (major ++ 46 :: (minor ++ 13 :: 10 :: rest))))
    (requestParser .REQUEST_LINE_START .none .none .none 0 0 [])
    (requestParser .METHOD ⟨0, 1⟩ .none .none 0 0 []) 1
    (hc.trans (by simp)) rfl
    (by simp [step, requestParser, Parser.init, hm0, Step.consume])
  -- METHOD
  have r2 := run_generic cb dec chunk .METHOD is_token
    (fun p => { p with method_ := p.method_.shr 1 })
    (by
      intro p off c hS hc
      have := token_facts c hc
      simp [step, hS, hc, this.1, Step.consume])
    (fun p => ⟨rfl, rfl⟩) mt [m0] (32 :: (u0 :: ut ++ 32 :: 72 :: 84 :: 84 ::
      80 :: 47 :: (major ++ 46 :: (minor ++ 13 :: 10 :: rest))))
    (requestParser .METHOD ⟨0, 1⟩ .none .none 0 0 [])
    (hc.trans (by simp)) hmt rfl rfl
  rw [iterate_method] at r2
  have r3 := Reaches.step cb dec chunk (m0 :: mt) 32 (u0 :: ut ++ 32 :: 72 :: 84 :: 84 ::
      80 :: 47 :: (major ++ 46 :: (minor ++ 13 :: 10 :: rest)))
    (requestParser .METHOD ⟨0, 1 + mt.length⟩ .none .none 0 0 [])
    (requestParser .ENTITY_START ⟨0, 1 + mt.length⟩ .none .none 0 0 [])
    ((m0 :: mt).length + 1)
    (hc.trans (by simp)) rfl
    (by simp [step, requestParser, Parser.init, Step.consume])
  -- ENTITY_START
  have r4 := Reaches.step cb dec chunk (m0 :: mt ++ [32]) u0 (ut ++ 32 :: 72 :: 84 :: 84 ::
      80 :: 47 :: (major ++ 46 :: (minor ++ 13 :: 10 :: rest)))
    (requestParser .ENTITY_START ⟨0, 1 + mt.length⟩ .none .none 0 0 [])
    (requestParser .ENTITY ⟨0, 1 + mt.length⟩ ⟨(m0 :: mt ++ [32]).length, 1⟩ .none 0 0 [])
    ((m0 :: mt ++ [32]).length + 1)
    (hc.trans (by simp)) rfl
    (by simp [step, requestParser, Parser.init, hu0.1, Step.consume])
  -- ENTITY
  have r5 := run_generic cb dec chunk .ENTITY (fun c => isprint c && decide (c.toNat ≠ 32))
    (fun p => { p with entity_ := p.entity_.shr 1 })
    (by
      intro p off c hS hc
      simp only [Bool.and_eq_true, decide_eq_true_eq] at hc
      simp [step, hS, hc.1, hc.2, Step.consume])
    (fun p => ⟨rfl, rfl⟩) ut (m0 :: mt ++ [32] ++ [u0]) (32 :: 72 :: 84 :: 84 ::
      80 :: 47 :: (major ++ 46 :: (minor ++ 13 :: 10 :: rest)))
    (requestParser .ENTITY ⟨0, 1 + mt.length⟩ ⟨(m0 :: mt ++ [32]).length, 1⟩ .none 0 0 [])
    (hc.trans (by simp))
    (by
      intro c hc
      have := hut c hc
      simp [this.1, this.2])
    rfl rfl
  rw [iterate_entity] at r5
  have r6 := Reaches.step cb dec chunk (m0 :: mt ++ [32] ++ [u0] ++ ut) 32 (72 :: 84 :: 84 ::
      80 :: 47 :: (major ++ 46 :: (minor ++ 13 :: 10 :: rest)))
    (requestParser .ENTITY ⟨0, 1 + mt.length⟩ ⟨(m0 :: mt ++ [32]).length, 1 + ut.length⟩
      .none 0 0 [])
    (requestParser .PROTOCOL_START ⟨0, 1 + mt.length⟩
      ⟨(m0 :: mt ++ [32]).length, 1 + ut.length⟩ .none 0 0 [])
    ((m0 :: mt ++ [32] ++ [u0] ++ ut).length + 1)
    (hc.trans (by simp)) rfl
    (by simp [step, requestParser, Parser.init, Step.consume])
  -- PROTOCOL_START
  have r7 := Reaches.step cb dec chunk (m0 :: mt ++ [32] ++ [u0] ++ ut ++ [32]) 72 (84 :: 84 ::
      80 :: 47 :: (major ++ 46 :: (minor ++ 13 :: 10 :: rest)))
    (requestParser .PROTOCOL_START ⟨0, 1 + mt.length⟩
      ⟨(m0 :: mt ++ [32]).length, 1 + ut.length⟩ .none 0 0 [])
    (requestParser .PROTOCOL ⟨0, 1 + mt.length⟩
      ⟨(m0 :: mt ++ [32]).length, 1 + ut.length⟩
      ⟨(m0 :: mt ++ [32] ++ [u0] ++ ut ++ [32]).length, 1⟩ 0 0 [])
    ((m0 :: mt ++ [32] ++ [u0] ++ ut ++ [32]).length + 1)
    (hc.trans (by simp)) rfl
    (by
      have : is_token 72 = true := by decide
      simp [step, requestParser, Parser.init, this, Step.consume])
  -- PROTOCOL
  have r8 := run_generic cb dec chunk .PROTOCOL (fun c => is_token c)
    (fun p => { p with protocol_ := p.protocol_.shr 1 })
    (by
      intro p off c hS hc
      have := token_facts c hc
      simp [step, hS, hc, this.2, Step.consume])
    (fun p => ⟨rfl, rfl⟩) [84, 84, 80] (m0 :: mt ++ [32] ++ [u0] ++ ut ++ [32] ++ [72])
    (47 :: (major ++ 46 :: (minor ++ 13 :: 10 :: rest)))
    (requestParser .PROTOCOL ⟨0, 1 + mt.length⟩
      ⟨(m0 :: mt ++ [32]).length, 1 + ut.length⟩
      ⟨(m0 :: mt ++ [32] ++ [u0] ++ ut ++ [32]).length, 1⟩ 0 0 [])
    (hc.trans (by simp))
    (by decide) rfl rfl
  rw [iterate_protocol] at r8
  have r9 := Reaches.step cb dec chunk
    (m0 :: mt ++ [32] ++ [u0] ++ ut ++ [32] ++ [72] ++ [84, 84, 80]) 47
    (major ++ 46 :: (minor ++ 13 :: 10 :: rest))
    (requestParser .PROTOCOL ⟨0, 1 + mt.length⟩
      ⟨(m0 :: mt ++ [32]).length, 1 + ut.length⟩
      ⟨(m0 :: mt ++ [32] ++ [u0] ++ ut ++ [32]).length, 1 + ([84, 84, 80] : List UInt8).length⟩
      0 0 [])
    (requestParser .VERSION_MAJOR ⟨0, 1 + mt.length⟩
      ⟨(m0 :: mt ++ [32]).length, 1 + ut.length⟩
      ⟨(m0 :: mt ++ [32] ++ [u0] ++ ut ++ [32]).length, 4⟩ ((0 : Nat) : Int) 0 [])
    ((m0 :: mt ++ [32] ++ [u0] ++ ut ++ [32] ++ [72] ++ [84, 84, 80]).length + 1)
    (hc.trans (by simp)) rfl
    (by simp [step, requestParser, Parser.init, Step.consume])
  -- VERSION_MAJOR
  have r10 := run_major cb dec chunk major
    (m0 :: mt ++ [32] ++ [u0] ++ ut ++ [32] ++ [72] ++ [84, 84, 80] ++ [47])
    (46 :: (minor ++ 13 :: 10 :: rest)) 0 ⟨0, 1 + mt.length⟩
    ⟨(m0 :: mt ++ [32]).length, 1 + ut.length⟩
    ⟨(m0 :: mt ++ [32] ++ [u0] ++ ut ++ [32]).length, 4⟩ 0
    (hc.trans (by simp)) hmaj hmajv
  have r11 := Reaches.step cb dec chunk
    (m0 :: mt ++ [32] ++ [u0] ++ ut ++ [32] ++ [72] ++ [84, 84, 80] ++ [47] ++ major) 46
    (minor ++ 13 :: 10 :: rest)
    (requestParser .VERSION_MAJOR ⟨0, 1 + mt.length⟩
      ⟨(m0 :: mt ++ [32]).length, 1 + ut.length⟩
      ⟨(m0 :: mt ++ [32] ++ [u0] ++ ut ++ [32]).length, 4⟩ (decimalValue major 0 : Nat) 0 [])
    (requestParser .VERSION_MINOR ⟨0, 1 + mt.length⟩
      ⟨(m0 :: mt ++ [32]).length, 1 + ut.length⟩
      ⟨(m0 :: mt ++ [32] ++ [u0] ++ ut ++ [32]).length, 4⟩ (decimalValue major 0 : Nat)
      ((0 : Nat) : Int) [])
    ((m0 :: mt ++ [32] ++ [u0] ++ ut ++ [32] ++ [72] ++ [84, 84, 80] ++ [47] ++ major).length + 1)
    (hc.trans (by simp)) rfl
    (by
      have : isdigit 46 = false := by decide
      simp [step, requestParser, Parser.init, this, Step.consume])
  -- VERSION_MINOR
  have r12 := run_minor cb dec chunk minor
    (m0 :: mt ++ [32] ++ [u0] ++ ut ++ [32] ++ [72] ++ [84, 84, 80] ++ [47] ++ major ++ [46])
    (13 :: 10 :: rest) 0 ⟨0, 1 + mt.length⟩
    ⟨(m0 :: mt ++ [32]).length, 1 + ut.length⟩
    ⟨(m0 :: mt ++ [32] ++ [u0] ++ ut ++ [32]).length, 4⟩ (decimalValue major 0 : Nat)
    (hc.trans (by simp)) hmin hminv
  have r13 := Reaches.step cb dec chunk
    (m0 :: mt ++ [32] ++ [u0] ++ ut ++ [32] ++ [72] ++ [84, 84, 80] ++ [47] ++ major ++ [46]
      ++ minor) 13 (10 :: rest)
    (requestParser .VERSION_MINOR ⟨0, 1 + mt.length⟩
      ⟨(m0 :: mt ++ [32]).length, 1 + ut.length⟩
      ⟨(m0 :: mt ++ [32] ++ [u0] ++ ut ++ [32]).length, 4⟩ (decimalValue major 0 : Nat)
      (decimalValue minor 0 : Nat) [])
    (requestParser .REQUEST_LINE_LF ⟨0, 1 + mt.length⟩
      ⟨(m0 :: mt ++ [32]).length, 1 + ut.length⟩
      ⟨(m0 :: mt ++ [32] ++ [u0] ++ ut ++ [32]).length, 4⟩ (decimalValue major 0 : Nat)
      (decimalValue minor 0 : Nat) [])
    ((m0 :: mt ++ [32] ++ [u0] ++ ut ++ [32] ++ [72] ++ [84, 84, 80] ++ [47] ++ major ++ [46]
      ++ minor).length + 1)
    (hc.trans (by simp)) rfl
    (by
      have : isdigit 13 = false := by decide
      simp [step, requestParser, Parser.init, this, Step.consume])
  -- REQUEST_LINE_LF
  have hb1 : buffer_ref.bytes chunk ⟨0, 1 + mt.length⟩ = m0 :: mt := by
    have := bytes_window [] (m0 :: mt) (32 :: (u0 :: ut ++ 32 :: 72 :: 84 :: 84 ::
      80 :: 47 :: (major ++ 46 :: (minor ++ 13 :: 10 :: rest))))
    rw [hc]
    simpa [Nat.add_comm] using this
  have hb2 : buffer_ref.bytes chunk ⟨(m0 :: mt ++ [32]).length, 1 + ut.length⟩ = u0 :: ut := by
    have := bytes_window (m0 :: mt ++ [32]) (u0 :: ut) (32 :: 72 :: 84 :: 84 ::
      80 :: 47 :: (major ++ 46 :: (minor ++ 13 :: 10 :: rest)))
    rw [hc]
    simpa [Nat.add_comm] using this
  have hb3 : buffer_ref.bytes chunk ⟨(m0 :: mt ++ [32] ++ [u0] ++ ut ++ [32]).length, 4⟩
      = httpName := by
    have := bytes_window (m0 :: mt ++ [32] ++ [u0] ++ ut ++ [32]) [72, 84, 84, 80]
      (47 :: (major ++ 46 :: (minor ++ 13 :: 10 :: rest)))
    rw [hc]
    simpa [httpName] using this
  have r14 := Reaches.step cb dec chunk
    (m0 :: mt ++ [32] ++ [u0] ++ ut ++ [32] ++ [72] ++ [84, 84, 80] ++ [47] ++ major ++ [46]
      ++ minor ++ [13]) 10 rest
    (requestParser .REQUEST_LINE_LF ⟨0, 1 + mt.length⟩
      ⟨(m0 :: mt ++ [32]).length, 1 + ut.length⟩
      ⟨(m0 :: mt ++ [32] ++ [u0] ++ ut ++ [32]).length, 4⟩ (decimalValue major 0 : Nat)
      (decimalValue minor 0 : Nat) [])
    (requestParser .HEADER_NAME_START ⟨0, 1 + mt.length⟩
      ⟨(m0 :: mt ++ [32]).length, 1 + ut.length⟩
      ⟨(m0 :: mt ++ [32] ++ [u0] ++ ut ++ [32]).length, 4⟩ (decimalValue major 0 : Nat)
      (decimalValue minor 0 : Nat)
      [.on_request (m0 :: mt) (u0 :: ut) httpName (decimalValue major 0 : Nat)
        (decimalValue minor 0 : Nat)])
    ((m0 :: mt ++ [32] ++ [u0] ++ ut ++ [32] ++ [72] ++ [84, 84, 80] ++ [47] ++ major ++ [46]
      ++ minor ++ [13]).length + 1)
    (hc.trans (by simp)) rfl
    (by
      have e1 := hb1
      have e2 := hb2
      have e3 := hb3
      simp at e2 e3
      simp [requestParser, Parser.init, step, pass_request, emit, hcb, e1, e2, e3, Step.consume])
  -- the chain
  have c1 := Reaches.trans r0 (Reaches.cast r1 rfl rfl rfl rfl)
  have c2 := Reaches.trans c1 (Reaches.cast r2 rfl (by simp) rfl rfl)
  have c3 := Reaches.trans c2 (Reaches.cast r3 rfl (by simp) rfl rfl)
  have c4 := Reaches.trans c3 (Reaches.cast r4 rfl (by simp) rfl rfl)
  have c5 := Reaches.trans c4 (Reaches.cast r5 rfl (by simp) rfl rfl)
  have c6 := Reaches.trans c5 (Reaches.cast r6 rfl (by simp) rfl rfl)
  have c7 := Reaches.trans c6 (Reaches.cast r7 rfl (by simp; omega) rfl rfl)
  have c8 := Reaches.trans c7 (Reaches.cast r8 rfl (by simp; omega) rfl rfl)
  have c9 := Reaches.trans c8 (Reaches.cast r9 rfl (by simp) rfl rfl)
  have c10 := Reaches.trans c9 (Reaches.cast r10 rfl (by simp; omega) rfl rfl)
  have c11 := Reaches.trans c10 (Reaches.cast r11 rfl (by simp) rfl rfl)
  have c12 := Reaches.trans c11 (Reaches.cast r12 rfl (by simp; omega) rfl rfl)
  have c13 := Reaches.trans c12 (Reaches.cast r13 rfl (by simp) rfl rfl)
  have c14 := Reaches.trans c13 (Reaches.cast r14 rfl (by simp; omega) rfl rfl)
  have hn : 1 + 1 + mt.length + 1 + 1 + ut.length + 1 + 1 + ([84, 84, 80] : List UInt8).length
      + 1 + major.length + 1 + minor.length + 1 + 1
      = (requestLineOf (m0 :: mt) (u0 :: ut) major minor).length + 1 := by
    simp [requestLineOf]
    omega
  rw [hn] at c14
  refine Reaches.cast c14 rfl rfl ?_ ?_
  · simp only [requestParser, List.length_cons, List.length_append, List.length_singleton,
      List.length_nil]
    congr 2 <;> omega
  · simp [requestLineOf]
    omega

/-- C24: a request line whose major version has the digits 2147483648 is of
the documented form, yet `parse` does not report that number: the `int`
`version_major_` overflows while the digits are read (undefined behaviour). -/
theorem request_line_version_overflow :
    parse allCallbacks plainDecoder
        (requestLineOf [71, 69, 84] [47] [50, 49, 52, 55, 52, 56, 51, 54, 52, 56] [49])
        (Parser.init .REQUEST) = none
    ∧ decimalValue [50, 49, 52, 55, 52, 56, 51, 54, 52, 56] 0 = 2 ^ 31 := by
  decide

/-- C24: in REQUEST mode, for a chunk that starts with a request line
`Method SP Request-URI SP "HTTP/" digits "." digits CRLF` whose method is a
token, whose URI is made of printable bytes other than SP and whose version
numbers fit into an `int`, `parse` on a fresh parser with `on_request` set
comes to the end of the line in the state HEADER_NAME_START, having called
`on_request` exactly once, with the method bytes, the URI bytes, the name
"HTTP" and the decimal values of the two version numbers, and with no error
reported; when the chunk ends with the line, `parse` returns there with the
length of the line. -/
theorem request_line_parsed (cb : Callbacks) (dec : ChunkedDecoder)
    (method uri major minor rest : List UInt8) (hcb : cb.on_request = true)
    (hm : method ≠ []) (hmt : ∀ c ∈ method, is_token c = true)
    (hu : uri ≠ []) (hut : ∀ c ∈ uri, isprint c = true ∧ c.toNat ≠ 32)
    (hmaj : ∀ c ∈ major, isdigit c = true)
    (hmajv : decimalValue major 0 < 2 ^ 31)
    (hmin : ∀ c ∈ minor, isdigit c = true)
    (hminv : decimalValue minor 0 < 2 ^ 31) :
    parse cb dec (requestLineOf method uri major minor ++ rest) (Parser.init .REQUEST)
      = parseLoop cb dec (requestLineOf method uri major minor ++ rest)
          (3 * (requestLineOf method uri major minor ++ rest).length + 3
            - ((requestLineOf method uri major minor).length + 1))
          { Parser.init .REQUEST with
              state_ := .HEADER_NAME_START,
              method_ := ⟨0, method.length⟩,
              entity_ := ⟨method.length + 1, uri.length⟩,
              protocol_ := ⟨method.length + 1 + uri.length + 1, 4⟩,
              version_major_ := (decimalValue major 0 : Nat),
              version_minor_ := (decimalValue minor 0 : Nat),
              events := [.on_request method uri httpName (decimalValue major 0 : Nat)
                (decimalValue minor 0 : Nat)],
              ec := false }
          (requestLineOf method uri major minor).length
    ∧ parse cb dec (requestLineOf method uri major minor) (Parser.init .REQUEST)
      = some ({ Parser.init .REQUEST with
                  state_ := .HEADER_NAME_START,
                  method_ := ⟨0, method.length⟩,
                  entity_ := ⟨method.length + 1, uri.length⟩,
                  protocol_ := ⟨method.length + 1 + uri.length + 1, 4⟩,
                  version_major_ := (decimalValue major 0 : Nat),
                  version_minor_ := (decimalValue minor 0 : Nat),
                  events := [.on_request method uri httpName (decimalValue major 0 : Nat)
                    (decimalValue minor 0 : Nat)],
                  ec := false },
              (requestLineOf method uri major minor).length) := by
  obtain ⟨m0, mt, rfl⟩ := List.exists_cons_of_ne_nil hm
  obtain ⟨u0, ut, rfl⟩ := List.exists_cons_of_ne_nil hu
  have hreach : ∀ tail : List UInt8,
      Reaches cb dec (requestLineOf (m0 :: mt) (u0 :: ut) major minor ++ tail)
        ((requestLineOf (m0 :: mt) (u0 :: ut) major minor).length + 1)
        (Parser.init .REQUEST) 0
        (requestParser .HEADER_NAME_START ⟨0, (m0 :: mt).length⟩
          ⟨(m0 :: mt).length + 1, (u0 :: ut).length⟩
          ⟨(m0 :: mt).length + 1 + (u0 :: ut).length + 1, 4⟩
          (decimalValue major 0 : Nat) (decimalValue minor 0 : Nat)
          [.on_request (m0 :: mt) (u0 :: ut) httpName (decimalValue major 0 : Nat)
            (decimalValue minor 0 : Nat)])
        (requestLineOf (m0 :: mt) (u0 :: ut) major minor).length := fun tail =>
    request_line_reaches cb dec m0 u0 mt ut major minor tail hcb
      (hmt m0 (List.mem_cons_self _ _)) (fun c h => hmt c (List.mem_cons_of_mem _ h))
      (hut u0 (List.mem_cons_self _ _)) (fun c h => hut c (List.mem_cons_of_mem _ h))
      hmaj hmajv hmin hminv
  have hparse : ∀ chunk : List UInt8, parse cb dec chunk (Parser.init .REQUEST)
      = parseLoop cb dec chunk (3 * chunk.length + 3) (Parser.init .REQUEST) 0 := by
    intro chunk
    simp [parse, Parser.init]
  constructor
  · rw [hparse]
    have hfuel : 3 * (requestLineOf (m0 :: mt) (u0 :: ut) major minor ++ rest).length + 3
        = (3 * (requestLineOf (m0 :: mt) (u0 :: ut) major minor ++ rest).length + 3
            - ((requestLineOf (m0 :: mt) (u0 :: ut) major minor).length + 1))
          + ((requestLineOf (m0 :: mt) (u0 :: ut) major minor).length + 1) := by
      simp only [List.length_append]
      omega
    conv_lhs => rw [hfuel]
    rw [hreach rest _]
    rfl
  · rw [hparse]
    have h := hreach [] (2 * (requestLineOf (m0 :: mt) (u0 :: ut) major minor).length + 1 + 1)
    rw [List.append_nil] at h
    have hfuel : 3 * (requestLineOf (m0 :: mt) (u0 :: ut) major minor).length + 3
        = 2 * (requestLineOf (m0 :: mt) (u0 :: ut) major minor).length + 1 + 1
          + ((requestLineOf (m0 :: mt) (u0 :: ut) major minor).length + 1) := by omega
    rw [hfuel, h]
    have hend : (requestLineOf (m0 :: mt) (u0 :: ut) major minor)[
        (requestLineOf (m0 :: mt) (u0 :: ut) major minor).length]? = none :=
      List.getElem?_eq_none (Nat.le_refl _)
    simp only [parseLoop, hend]
    simp [requestParser, Parser.init, finish]

theorem request_line_parsed_witness :
    parse allCallbacks plainDecoder requestLine (Parser.init .REQUEST)
      = some ({ Parser.init .REQUEST with
                  state_ := .HEADER_NAME_START,
                  method_ := ⟨0, 3⟩, entity_ := ⟨4, 1⟩, protocol_ := ⟨6, 4⟩,
                  version_major_ := 1, version_minor_ := 1,
                  events := [.on_request [71, 69, 84] [47] httpName 1 1],
                  ec := false }, 16) :=
  (request_line_parsed allCallbacks plainDecoder [71, 69, 84] [47] [49] [49] [] rfl
    (by decide) (by decide) (by decide) (by decide) (by decide) (by decide) (by decide)
    (by decide)).2

end MessageParser
end x0
